import Mathlib

/-!
# Time-based tilt cover: estimator / controller state machine

Shallow embedding of `esphome/components/time_based_tilt/time_based_tilt_cover.cpp`.

Modelling conventions.

* `float` values are binary32 numbers, carried as the rationals they denote. Every float
  operation of the source is the exact operation followed by `r32`, the rounding to the
  nearest binary32 number, ties to even, with 24 significant bits and the subnormal spacing
  `2^-149`; `fadd`, `fsub`, `fmul`, `fdiv` are the four operations and `of_uint32` is the
  conversion of an integer operand. Magnitudes of `2^128` and more are not turned into
  infinities: they arise only in the products `dir_factor * inertia_rest * inertia_time` and
  `dir_factor * tilt_rest * tilt_time`, from an inertia accumulator or a tilt beyond `2^96`,
  and are then converted to an integer, which is undefined in the source anyway.
  The one float operation of the source that is not guarded against a zero divisor
  (`move_step = dir_factor * travel_time / move_time`) is modelled with its IEEE outcome:
  a non-zero numerator over zero is an infinity, which the following `clamp` turns into
  the matching end of `[0,1]`; zero over zero is NaN, which no rational can stand for, and
  the tick then yields `none`.
* `uint32_t` values are natural numbers; the only wrapping operation of the source, the
  difference of two clock readings, is `usub`.
* A tick reads the millisecond clock once: both `millis()` calls of `loop()` see the value `now`.
* The triggers and `publish_state` calls of a tick are returned as a list of `Effect`s, in
  the order in which the source performs them.
-/

namespace TimeBasedTilt

/-- Cover operations of the `cover` component (`current_operation`, `last_operation_`). -/
inductive CoverOperation where
  | COVER_OPERATION_IDLE
  | COVER_OPERATION_OPENING
  | COVER_OPERATION_CLOSING
  deriving DecidableEq, Repr

/-- States of the controller (`fsm_state_`). -/
inductive FsmState where
  | STATE_IDLE
  | STATE_MOVING
  | STATE_STOPPING
  | STATE_CALIBRATING
  deriving DecidableEq, Repr

/-- Externally visible calls made by a tick: the three actuator triggers and
`publish_state(save)`. -/
inductive Effect where
  | open_trigger
  | close_trigger
  | stop_trigger
  | publish_state (save : Bool)
  deriving DecidableEq, Repr

open CoverOperation FsmState

/-- Sentinel `TARGET_NONE = -1` of the source: no pending target on an axis. -/
def TARGET_NONE : ℚ := -1

/-- Modelled from the spec: the constant `COVER_OPEN` of the cover component, whose header is
not among the sources; position and tilt `1` mean fully open. -/
def COVER_OPEN : ℚ := 1

/-- Modelled from the spec: the constant `COVER_CLOSED` of the cover component, whose header is
not among the sources; position and tilt `0` mean fully closed. -/
def COVER_CLOSED : ℚ := 0

/-- Configuration fields of `TimeBasedTiltCover` (all `uint32_t` milliseconds). -/
structure Config where
  open_duration_ : Nat
  close_duration_ : Nat
  tilt_open_duration_ : Nat
  tilt_close_duration_ : Nat
  interlock_wait_time_ : Nat
  inertia_open_time_ : Nat
  inertia_close_time_ : Nat
  recalibration_open_time_ : Nat
  recalibration_close_time_ : Nat
  actuator_activation_open_time_ : Nat
  actuator_activation_close_time_ : Nat
  assumed_state_ : Bool
  deriving DecidableEq

/-- Mutable fields of `TimeBasedTiltCover` read or written by `loop()` and `control()`. -/
structure State where
  position : ℚ
  tilt : ℚ
  current_operation : CoverOperation
  last_operation_ : CoverOperation
  target_position_ : ℚ
  target_tilt_ : ℚ
  fsm_state_ : FsmState
  last_recompute_time_ : Nat
  last_publish_time_ : Nat
  interlocked_time_ : Nat
  interlocked_direction_ : CoverOperation
  current_recalibration_time_ : Nat
  current_actuator_activation_time_ : Nat
  inertia_ : ℚ
  deriving DecidableEq

/-- The fields of a `CoverCall` that `control()` reads. -/
structure CoverCall where
  stop : Bool
  position : Option ℚ
  tilt : Option ℚ
  toggle : Option Bool
  deriving DecidableEq

/-- Difference `a - b` of two `uint32_t` clock readings, with wrap-around. -/
def usub (a b : Nat) : Nat := (a + (4294967296 - b % 4294967296)) % 4294967296

/-- Number of binary digits of `n`, counted with at most `fuel` halvings (`fuel = n` is
enough). -/
def bit_count : Nat → Nat → Nat
  | 0, _ => 0
  | fuel + 1, n => if n = 0 then 0 else bit_count fuel (n / 2) + 1

/-- Exponent of the binade of a non-zero rational `q`: the integer `e` with
`2^e ≤ |q| < 2^(e+1)`. -/
def binade (q : ℚ) : ℤ :=
  let k : ℤ := (bit_count q.num.natAbs q.num.natAbs : ℤ) - (bit_count q.den q.den : ℤ)
  if (2 : ℚ) ^ k ≤ |q| then k else k - 1

/-- Spacing of the binary32 numbers in the binade of `q`: 24 significant bits, and the
spacing `2^-149` of the subnormal numbers below `2^-126`. -/
def ulp32 (q : ℚ) : ℚ := (2 : ℚ) ^ (max (binade q) (-126) - 23)

/-- Rounding to the nearest integer, ties to the even one. -/
def round_even (q : ℚ) : ℤ :=
  if q - ⌊q⌋ < 1 / 2 then ⌊q⌋
  else if 1 / 2 < q - ⌊q⌋ then ⌊q⌋ + 1
  else if ⌊q⌋ % 2 = 0 then ⌊q⌋ else ⌊q⌋ + 1

/-- Rounding of a non-negative rational to binary32. -/
def r32_mag (q : ℚ) : ℚ := round_even (q / ulp32 q) * ulp32 q

/-- Rounding of a rational to binary32: to nearest, ties to even (the rounding of every
`float` operation of the source). -/
def r32 (q : ℚ) : ℚ := if q < 0 then -r32_mag (-q) else r32_mag q

/-- The `float` sum `a + b`. -/
def fadd (a b : ℚ) : ℚ := r32 (a + b)

/-- The `float` difference `a - b`. -/
def fsub (a b : ℚ) : ℚ := r32 (a - b)

/-- The `float` product `a * b`. -/
def fmul (a b : ℚ) : ℚ := r32 (a * b)

/-- The `float` quotient `a / b`, for a divisor other than zero. -/
def fdiv (a b : ℚ) : ℚ := r32 (a / b)

/-- Conversion of a `uint32_t` operand of a `float` expression to `float`. -/
def of_uint32 (n : Nat) : ℚ := r32 (n : ℚ)

/-- Conversion of a `float` to `uint32_t` (the assignments to `travel_time`): truncation
toward zero. The conversion of a value outside `[0, 2^32)` is undefined in C++; it is taken to
give the low 32 bits of the truncated value, as the code compiled for x86-64 does. -/
def to_uint32 (q : ℚ) : Nat := Int.toNat ((if q < 0 then -⌊-q⌋ else ⌊q⌋) % 4294967296)

/-- Modelled from the spec: the helper `clamp(v, lo, hi)` of the esphome core, which is not
among the sources; it clamps `v` to `[lo, hi]`. -/
def clamp (v lo hi : ℚ) : ℚ := if v < lo then lo else if hi < v then hi else v

/-- Modelled from the spec: `compute_direction(target, current)` is declared in the header of
the component, which is not among the sources. It returns Opening if `target > current`,
Closing if `target < current`, Idle if they are equal. -/
def compute_direction (target current : ℚ) : CoverOperation :=
  if target > current then COVER_OPERATION_OPENING
  else if target < current then COVER_OPERATION_CLOSING
  else COVER_OPERATION_IDLE

/-- Modelled from the spec: `round_position` is declared in the header of the component, which
is not among the sources. It snaps a value to its nearest extreme (`0` or `1`) when it is
within the rounding tolerance `tol` of it. The general results below do not use this
definition: they take the rounding function as a parameter `rp`. -/
def round_position (tol : ℚ) (x : ℚ) : ℚ :=
  if x ≤ tol then 0 else if 1 - tol ≤ x then 1 else x

/-- Restoring a saved state, or the defaults, in `setup()`; the tilt durations are normalised:
if one of them is zero, both are. `restore` is the result of `restore_state_()`. -/
def setup (cfg : Config) (s : State) (restore : Option (ℚ × ℚ)) : Config × State :=
  let cfg1 :=
    if cfg.tilt_close_duration_ = 0 ∨ cfg.tilt_open_duration_ = 0 then
      { cfg with tilt_close_duration_ := 0, tilt_open_duration_ := 0 }
    else cfg
  match restore with
  | some (p, t) => (cfg1, { s with position := p, tilt := t })
  | none => (cfg1, { s with position := 1 / 2, tilt := 1 / 2 })

/-- Translation of `is_at_target_position_()`. -/
def is_at_target_position_ (s : State) : Bool :=
  match s.current_operation with
  | COVER_OPERATION_OPENING => decide (s.position ≥ s.target_position_)
  | COVER_OPERATION_CLOSING => decide (s.position ≤ s.target_position_)
  | COVER_OPERATION_IDLE => true

/-- Translation of `is_at_target_tilt_()`. -/
def is_at_target_tilt_ (s : State) : Bool :=
  match s.current_operation with
  | COVER_OPERATION_OPENING => decide (s.tilt ≥ s.target_tilt_)
  | COVER_OPERATION_CLOSING => decide (s.tilt ≤ s.target_tilt_)
  | COVER_OPERATION_IDLE => true

/-- Translation of `is_at_extreme_position_()`. -/
def is_at_extreme_position_ (cfg : Config) (s : State) : Bool :=
  decide ((s.position = COVER_CLOSED ∧ (cfg.tilt_close_duration_ = 0 ∨ s.tilt = COVER_CLOSED)) ∨
    (s.position = COVER_OPEN ∧ (cfg.tilt_open_duration_ = 0 ∨ s.tilt = COVER_OPEN)))

/-- The factor `dir_factor` of the moving branch: `-1` when closing, `1` otherwise. -/
def dir_factor (op : CoverOperation) : ℚ := if op = COVER_OPERATION_CLOSING then -1 else 1

/-- The local `inertia_time` of the moving branch. -/
def inertia_time (cfg : Config) (op : CoverOperation) : Nat :=
  if op = COVER_OPERATION_CLOSING then cfg.inertia_close_time_ else cfg.inertia_open_time_

/-- The local `tilt_time` of the moving branch. -/
def tilt_time (cfg : Config) (op : CoverOperation) : Nat :=
  if op = COVER_OPERATION_CLOSING then cfg.tilt_close_duration_ else cfg.tilt_open_duration_

/-- The local `move_time` of the moving branch. -/
def move_time (cfg : Config) (op : CoverOperation) : Nat :=
  if op = COVER_OPERATION_CLOSING then cfg.close_duration_ else cfg.open_duration_

/-- The report interval of the tilt phase: `(tilt_time / 5) > 1000 ? 1000 : (tilt_time / 5)`. -/
def tilt_publish_limit (tt : Nat) : Nat := if tt / 5 > 1000 then 1000 else tt / 5

/-- The calibrating branch of `loop()`. -/
def loop_calibrating (s : State) (now : Nat) : State × List Effect :=
  if usub now s.last_recompute_time_ ≥ s.current_recalibration_time_ then
    ({ s with fsm_state_ := STATE_STOPPING }, [])
  else (s, [])

/-- The stopping branch of `loop()`. -/
def loop_stopping (rp : ℚ → ℚ) (s : State) (now : Nat) : State × List Effect :=
  let s1 :=
    if s.current_operation ≠ COVER_OPERATION_IDLE then
      { s with
        interlocked_time_ := now
        interlocked_direction_ :=
          if s.current_operation = COVER_OPERATION_CLOSING then COVER_OPERATION_OPENING
          else COVER_OPERATION_CLOSING }
    else { s with interlocked_direction_ := COVER_OPERATION_IDLE }
  ({ s1 with
      fsm_state_ := STATE_IDLE
      last_operation_ := s1.current_operation
      current_operation := COVER_OPERATION_IDLE
      position := rp s1.position
      tilt := rp s1.tilt },
    [Effect.stop_trigger, Effect.publish_state true])

/-- Direction resolution at the head of the idle branch of `loop()`. -/
def resolve_direction (s : State) : State :=
  if s.target_position_ ≠ TARGET_NONE then
    let op := compute_direction s.target_position_ s.position
    if op = COVER_OPERATION_IDLE then
      let s1 := { s with current_operation := op, target_position_ := TARGET_NONE }
      if s1.target_tilt_ ≠ TARGET_NONE then
        { s1 with current_operation := compute_direction s1.target_tilt_ s1.tilt }
      else s1
    else { s with current_operation := op }
  else { s with current_operation := compute_direction s.target_tilt_ s.tilt }

/-- The idle branch of `loop()` (a target is pending). -/
def loop_idle (cfg : Config) (s : State) (now : Nat) : State × List Effect :=
  let s1 := resolve_direction s
  if s1.current_operation = COVER_OPERATION_IDLE then
    ({ s1 with target_tilt_ := TARGET_NONE }, [])
  else if s1.current_operation = s1.interlocked_direction_ ∧
      usub now s1.interlocked_time_ < cfg.interlock_wait_time_ then
    (s1, [])
  else
    ({ s1 with
        current_recalibration_time_ :=
          if s1.current_operation = COVER_OPERATION_CLOSING then cfg.recalibration_close_time_
          else cfg.recalibration_open_time_
        current_actuator_activation_time_ :=
          if s1.current_operation = COVER_OPERATION_CLOSING then
            cfg.actuator_activation_close_time_
          else cfg.actuator_activation_open_time_
        last_recompute_time_ := now
        fsm_state_ := STATE_MOVING },
      [if s1.current_operation = COVER_OPERATION_CLOSING then Effect.close_trigger
        else Effect.open_trigger])

/-- The value of `position` after the guarded update of the position phase:
`if ((position - 0.5f) * dir_factor < 0.5f) { position += move_step; clamp(position, 0, 1) }`,
where `move_step = dir_factor * travel_time / move_time`. With `move_time = 0` the quotient is
an infinity of the sign of `dir_factor` when `travel_time > 0`, clamped to the matching end,
and NaN (`none`) when `travel_time = 0`. -/
def advance_position (s : State) (travel_time move_time : Nat) : Option ℚ :=
  if fmul (fsub s.position (1 / 2)) (dir_factor s.current_operation) < 1 / 2 then
    if move_time = 0 then
      if travel_time = 0 then none
      else some (if s.current_operation = COVER_OPERATION_CLOSING then 0 else 1)
    else
      some (clamp (fadd s.position
        (fdiv (fmul (dir_factor s.current_operation) (of_uint32 travel_time))
          (of_uint32 move_time))) 0 1)
  else some s.position

/-- The state reached when a target is reached: calibrating at an extreme when a
recalibration time is loaded, stopping otherwise. -/
def arrive (cfg : Config) (s : State) : State × List Effect :=
  if 0 < s.current_recalibration_time_ ∧ is_at_extreme_position_ cfg s = true then
    ({ s with fsm_state_ := STATE_CALIBRATING }, [Effect.publish_state false])
  else ({ s with fsm_state_ := STATE_STOPPING }, [])

/-- The rate-limited interim report: `if (now - last_publish_time_ > limit) publish`. -/
def publish_if_due (s : State) (now limit : Nat) : State × List Effect :=
  if usub now s.last_publish_time_ > limit then
    ({ s with last_publish_time_ := now }, [Effect.publish_state false])
  else (s, [])

/-- Position integration, the last phase of the moving branch of `loop()`. -/
def loop_position (rp : ℚ → ℚ) (cfg : Config) (s : State) (now travel_time : Nat) :
    Option (State × List Effect) :=
  match advance_position s travel_time (move_time cfg s.current_operation) with
  | none => none
  | some p =>
    let s1 := { s with position := p }
    let r :=
      if is_at_target_position_ s1 = true then
        arrive cfg
          { s1 with
            last_recompute_time_ := now
            target_position_ := TARGET_NONE
            last_publish_time_ := now
            position := rp s1.position }
      else (s1, [])
    let p := publish_if_due r.1 now 1000
    some (p.1, r.2 ++ p.2)

/-- Tilting before movement, the third phase of the moving branch of `loop()`. -/
def loop_tilt (rp : ℚ → ℚ) (cfg : Config) (s : State) (now travel_time : Nat) :
    Option (State × List Effect) :=
  let df := dir_factor s.current_operation
  let tilt_time := tilt_time cfg s.current_operation
  if 0 < tilt_time ∧ fmul (fsub s.tilt (1 / 2)) df < 1 / 2 then
    let tilt_step := fdiv (fmul df (of_uint32 travel_time)) (of_uint32 tilt_time)
    let t1 := fadd s.tilt tilt_step
    let tilt_rest := fsub (fsub t1 (1 / 2)) (clamp (fsub t1 (1 / 2)) (-1 / 2) (1 / 2))
    let s1 := { s with tilt := clamp t1 0 1 }
    if s1.target_position_ = TARGET_NONE ∧ is_at_target_tilt_ s1 = true then
      some (arrive cfg
        { s1 with
          last_recompute_time_ := now
          target_tilt_ := TARGET_NONE
          last_publish_time_ := now
          tilt := rp s1.tilt })
    else
      let p := publish_if_due s1 now (tilt_publish_limit tilt_time)
      if tilt_rest = 0 then some p
      else
        match loop_position rp cfg p.1 now
            (to_uint32 (fmul (fmul df tilt_rest) (of_uint32 tilt_time))) with
        | none => none
        | some r => some (r.1, p.2 ++ r.2)
  else loop_position rp cfg s now travel_time

/-- Inertia before movement, the second phase of the moving branch of `loop()`. -/
def loop_inertia (rp : ℚ → ℚ) (cfg : Config) (s : State) (now travel_time : Nat) :
    Option (State × List Effect) :=
  let df := dir_factor s.current_operation
  let inertia_time := inertia_time cfg s.current_operation
  if 0 < inertia_time ∧ fmul s.inertia_ df < 1 / 2 then
    let inertia_step := fdiv (fmul df (of_uint32 travel_time)) (of_uint32 inertia_time)
    let i1 := fadd s.inertia_ inertia_step
    let inertia_rest := fsub i1 (clamp i1 (-1 / 2) (1 / 2))
    let s1 := { s with inertia_ := clamp i1 (-1 / 2) (1 / 2) }
    if inertia_rest = 0 then some (s1, [])
    else
      loop_tilt rp cfg s1 now (to_uint32 (fmul (fmul df inertia_rest) (of_uint32 inertia_time)))
  else loop_tilt rp cfg s now travel_time

/-- The moving branch of `loop()`, starting with the actuator activation time. -/
def loop_moving (rp : ℚ → ℚ) (cfg : Config) (s : State) (now : Nat) :
    Option (State × List Effect) :=
  let travel_time := usub now s.last_recompute_time_
  let s1 := { s with last_recompute_time_ := now }
  if 0 < s1.current_actuator_activation_time_ then
    if travel_time ≤ s1.current_actuator_activation_time_ then
      some ({ s1 with
        current_actuator_activation_time_ := s1.current_actuator_activation_time_ - travel_time },
        [])
    else
      loop_inertia rp cfg { s1 with current_actuator_activation_time_ := 0 } now
        (travel_time - s1.current_actuator_activation_time_)
  else loop_inertia rp cfg s1 now travel_time

/-- Translation of `TimeBasedTiltCover::loop()`: one tick at clock value `now`, with the
rounding helper `rp` (`round_position`). The result is `none` when the tick stores NaN in
`position`. -/
def loop (rp : ℚ → ℚ) (cfg : Config) (s : State) (now : Nat) : Option (State × List Effect) :=
  if s.fsm_state_ = STATE_IDLE ∧ s.target_position_ = TARGET_NONE ∧
      s.target_tilt_ = TARGET_NONE then
    some (s, [])
  else if s.fsm_state_ = STATE_CALIBRATING then some (loop_calibrating s now)
  else if s.fsm_state_ = STATE_STOPPING then some (loop_stopping rp s now)
  else if s.fsm_state_ = STATE_IDLE ∧
      (s.target_position_ ≠ TARGET_NONE ∨ s.target_tilt_ ≠ TARGET_NONE) then
    some (loop_idle cfg s now)
  else if s.fsm_state_ = STATE_MOVING then loop_moving rp cfg s now
  else some (s, [])

/-- The set position / tilt part of `control()`. -/
def control_set (s : State) (call : CoverCall) : State :=
  let s1 :=
    { s with
      target_position_ := (match call.position with
        | some p => p
        | none => TARGET_NONE)
      target_tilt_ := (match call.tilt with
        | some t => t
        | none => TARGET_NONE) }
  let s2 :=
    if s1.fsm_state_ = STATE_MOVING then
      let direction :=
        if s1.target_position_ ≠ TARGET_NONE ∧ s1.target_position_ ≠ s1.position then
          compute_direction s1.target_position_ s1.position
        else if s1.target_tilt_ ≠ TARGET_NONE ∧ s1.target_tilt_ ≠ s1.tilt then
          compute_direction s1.target_tilt_ s1.tilt
        else COVER_OPERATION_IDLE
      if direction ≠ s1.current_operation then { s1 with fsm_state_ := STATE_STOPPING } else s1
    else s1
  if s2.fsm_state_ = STATE_CALIBRATING then
    let s3 :=
      if s2.target_position_ ≠ TARGET_NONE ∧
          ((s2.position = COVER_CLOSED ∧ s2.target_position_ ≠ COVER_CLOSED) ∨
            (s2.position = COVER_OPEN ∧ s2.target_position_ ≠ COVER_OPEN)) then
        { s2 with fsm_state_ := STATE_STOPPING }
      else s2
    if s3.target_tilt_ ≠ TARGET_NONE ∧
        ((s3.tilt = COVER_CLOSED ∧ s3.target_tilt_ ≠ COVER_CLOSED) ∨
          (s3.tilt = COVER_OPEN ∧ s3.target_tilt_ ≠ COVER_OPEN)) then
      { s3 with fsm_state_ := STATE_STOPPING }
    else s3
  else s2

/-- The toggle part of `control()`. -/
def control_toggle (s : State) : State :=
  if s.current_operation ≠ COVER_OPERATION_IDLE then
    { s with
      fsm_state_ := STATE_STOPPING
      target_position_ := TARGET_NONE
      target_tilt_ := TARGET_NONE }
  else if s.position = COVER_CLOSED ∧ s.tilt = COVER_CLOSED then
    { s with target_position_ := COVER_OPEN }
  else if s.position = COVER_OPEN ∧ s.tilt = COVER_OPEN then
    { s with target_position_ := COVER_CLOSED }
  else if s.last_operation_ = COVER_OPERATION_CLOSING then
    if s.position ≠ COVER_OPEN then { s with target_position_ := COVER_OPEN }
    else { s with target_tilt_ := COVER_OPEN }
  else
    if s.position ≠ COVER_CLOSED then { s with target_position_ := COVER_CLOSED }
    else { s with target_tilt_ := COVER_CLOSED }

/-- Translation of `TimeBasedTiltCover::control(call)`. -/
def control (s : State) (call : CoverCall) : State :=
  if call.stop = true then
    { s with
      target_position_ := TARGET_NONE
      target_tilt_ := TARGET_NONE
      fsm_state_ := STATE_STOPPING }
  else
    let s1 := if call.position.isSome = true ∨ call.tilt.isSome = true then control_set s call
      else s
    if call.toggle.isSome = true then control_toggle s1 else s1

/-! ## Executions -/

/-- An input of the component: a scheduler tick at clock value `now`, or a control request. -/
inductive Input where
  | tick (now : Nat)
  | request (call : CoverCall)

/-- One step of an execution: `loop()` on a tick, `control()` on a request. -/
def step (rp : ℚ → ℚ) (cfg : Config) (s : State) : Input → Option (State × List Effect)
  | Input.tick now => loop rp cfg s now
  | Input.request call => some (control s call, [])

/-- An execution: the inputs are applied in order; the result is the final state and the
effects of each step. -/
def run (rp : ℚ → ℚ) (cfg : Config) : State → List Input → Option (State × List (List Effect))
  | s, [] => some (s, [])
  | s, i :: rest =>
    match step rp cfg s i with
    | none => none
    | some r =>
      match run rp cfg r.1 rest with
      | none => none
      | some q => some (q.1, r.2 :: q.2)

/-- Clock values of successive ticks, from the clock value `t` of the previous tick and the
elapsed times between ticks. -/
def clock_values : Nat → List Nat → List Nat
  | _, [] => []
  | t, e :: es => (t + e) :: clock_values (t + e) es

/-- Ticks of a move: the clock values are applied in order while the machine is idle or
moving; the ticks that come after the arrival (stopping or calibrating) are not run. -/
def ticks_until_arrival (rp : ℚ → ℚ) (cfg : Config) : State → List Nat → Option State
  | s, [] => some s
  | s, now :: rest =>
    if s.fsm_state_ = STATE_IDLE ∨ s.fsm_state_ = STATE_MOVING then
      match loop rp cfg s now with
      | none => none
      | some r => ticks_until_arrival rp cfg r.1 rest
    else some s

/-- The direction in which the actuator runs after the effects `es`, when it ran in direction
`a` before: a start trigger sets it, the stop trigger clears it. -/
def actuator_after : CoverOperation → List Effect → CoverOperation
  | a, [] => a
  | _, Effect.open_trigger :: es => actuator_after COVER_OPERATION_OPENING es
  | _, Effect.close_trigger :: es => actuator_after COVER_OPERATION_CLOSING es
  | _, Effect.stop_trigger :: es => actuator_after COVER_OPERATION_IDLE es
  | a, Effect.publish_state _ :: es => actuator_after a es

/-- The direction in which the actuator runs after the steps of an execution. -/
def actuator_run : CoverOperation → List (List Effect) → CoverOperation
  | a, [] => a
  | a, e :: es => actuator_run (actuator_after a e) es

/-- The direction opposite to a direction, as the stopping branch computes it. -/
def opposite (d : CoverOperation) : CoverOperation :=
  if d = COVER_OPERATION_CLOSING then COVER_OPERATION_OPENING else COVER_OPERATION_CLOSING

/-- The start trigger of a direction. -/
def start_trigger (d : CoverOperation) : Effect :=
  if d = COVER_OPERATION_CLOSING then Effect.close_trigger else Effect.open_trigger

/-- Position and tilt lie in `[0,1]`. -/
def in_range (s : State) : Prop :=
  0 ≤ s.position ∧ s.position ≤ 1 ∧ 0 ≤ s.tilt ∧ s.tilt ≤ 1

/-- The rounding helper maps `[0,1]` into `[0,1]`. -/
def rp_in_range (rp : ℚ → ℚ) : Prop := ∀ x, 0 ≤ x → x ≤ 1 → 0 ≤ rp x ∧ rp x ≤ 1

/-- Modelled from the spec: the member initialisers are in the header of the component, which
is not among the sources. The machine starts idle with no pending target and clean timers;
`setup()` without a restored state gives position and tilt `0.5`. -/
def initial_state : State :=
  { position := 1 / 2
    tilt := 1 / 2
    current_operation := COVER_OPERATION_IDLE
    last_operation_ := COVER_OPERATION_IDLE
    target_position_ := TARGET_NONE
    target_tilt_ := TARGET_NONE
    fsm_state_ := STATE_IDLE
    last_recompute_time_ := 0
    last_publish_time_ := 0
    interlocked_time_ := 0
    interlocked_direction_ := COVER_OPERATION_IDLE
    current_recalibration_time_ := 0
    current_actuator_activation_time_ := 0
    inertia_ := 0 }

/-- A request that sets a position target only. -/
def set_position (p : ℚ) : CoverCall :=
  { stop := false, position := some p, tilt := none, toggle := none }

/-- A request that sets a tilt target only. -/
def set_tilt (t : ℚ) : CoverCall :=
  { stop := false, position := none, tilt := some t, toggle := none }

/-- A stop request. -/
def stop_call : CoverCall :=
  { stop := true, position := none, tilt := none, toggle := none }

/-- A configuration with travel durations only: every other duration is zero. -/
def plain_config (open_duration close_duration : Nat) : Config :=
  { open_duration_ := open_duration
    close_duration_ := close_duration
    tilt_open_duration_ := 0
    tilt_close_duration_ := 0
    interlock_wait_time_ := 0
    inertia_open_time_ := 0
    inertia_close_time_ := 0
    recalibration_open_time_ := 0
    recalibration_close_time_ := 0
    actuator_activation_open_time_ := 0
    actuator_activation_close_time_ := 0
    assumed_state_ := false }

/-- Fields that a moving tick and a control request leave unchanged. -/
def frame (s r : State) : Prop :=
  r.current_operation = s.current_operation ∧ r.last_operation_ = s.last_operation_ ∧
  r.interlocked_time_ = s.interlocked_time_ ∧
  r.interlocked_direction_ = s.interlocked_direction_ ∧
  r.current_recalibration_time_ = s.current_recalibration_time_

/-- The machine stays in its state or ends its move: the state of `r` is that of `s`,
Stopping or Calibrating. -/
def fsm_advance (s r : State) : Prop :=
  r.fsm_state_ = s.fsm_state_ ∨ r.fsm_state_ = STATE_STOPPING ∨
    r.fsm_state_ = STATE_CALIBRATING

/-- The effects are interim reports only: no actuator trigger. -/
def only_publish (e : List Effect) : Prop := ∀ x ∈ e, x = Effect.publish_state false

/-- The actuator direction `a` agrees with the machine: while the actuator runs, the machine
is not idle and `current_operation` is the direction of the run. -/
def consistent (a : CoverOperation) (s : State) : Prop :=
  a ≠ COVER_OPERATION_IDLE → s.current_operation = a ∧ s.fsm_state_ ≠ STATE_IDLE

/-- Configuration of the runs of C2 and C3: travel durations of 10 s and an interlock wait of
1 s. -/
def interlock_config : Config :=
  { plain_config 10000 10000 with interlock_wait_time_ := 1000 }

/-- A machine that is stopping a closing run. -/
def c2_stopping_state : State :=
  { initial_state with
    fsm_state_ := STATE_STOPPING
    current_operation := COVER_OPERATION_CLOSING }

/-- The run of C3 after the request to open, the start tick at clock value 0 and a stop
request: the actuator runs in the opening direction and the machine is stopping. -/
def c3_stopping_state : State :=
  { initial_state with
    fsm_state_ := STATE_STOPPING
    current_operation := COVER_OPERATION_OPENING }

/-- The run of C3 after the stopping tick at clock value 100: the interlock is recorded
against the closing direction. -/
def c3_stopped_state : State :=
  { initial_state with
    last_operation_ := COVER_OPERATION_OPENING
    interlocked_time_ := 100
    interlocked_direction_ := COVER_OPERATION_CLOSING }

/-- The run of C3 after a second stop request, its stopping tick at clock value 200 and a
request to close: the interlock direction is cleared. -/
def c3_cleared_state : State :=
  { initial_state with
    target_position_ := 0
    interlocked_time_ := 100
    interlocked_direction_ := COVER_OPERATION_IDLE }

/-- The run of C3 after the request to close, with the interlock still recorded, and a
deferred tick. -/
def c3_deferred_state : State :=
  { initial_state with
    current_operation := COVER_OPERATION_CLOSING
    last_operation_ := COVER_OPERATION_OPENING
    target_position_ := 0
    interlocked_time_ := 100
    interlocked_direction_ := COVER_OPERATION_CLOSING }

/-- The state of the run of C1 after the request. -/
def c1_request_state : State := { initial_state with target_position_ := 1 }

/-- The state of the run of C1 after the request and the start tick. -/
def c1_moving_state : State :=
  { initial_state with
    target_position_ := 1
    current_operation := COVER_OPERATION_OPENING
    fsm_state_ := STATE_MOVING
    last_recompute_time_ := 1000 }

/-- An opening move toward `tp` is in flight, with no activation time left and no
recalibration time loaded; the previous tick was at clock value `t`. -/
def opening_in_flight (s : State) (tp : ℚ) (t : Nat) : Prop :=
  s.fsm_state_ = STATE_MOVING ∧ s.current_operation = COVER_OPERATION_OPENING ∧
  s.target_position_ = tp ∧ s.current_actuator_activation_time_ = 0 ∧
  s.current_recalibration_time_ = 0 ∧ s.last_recompute_time_ = t

/-- The idle state of the scenario of C4: fully closed. -/
def c4_closed_state : State := { initial_state with position := 0 }

/-- A tilt-only request toward `tt` is pending on an idle machine at position `p`: the
position target is absent or equal to the position, and the tilt is a binary32 number in
`[0,1]`. -/
def tilt_only_idle (p tt : ℚ) (s : State) : Prop :=
  s.position = p ∧ s.fsm_state_ = STATE_IDLE ∧
  (s.target_position_ = TARGET_NONE ∨ s.target_position_ = s.position) ∧
  s.target_tilt_ = tt ∧ tt ≠ s.tilt ∧ 0 ≤ s.tilt ∧ s.tilt ≤ 1 ∧ r32 s.tilt = s.tilt

/-- A tilt-only move toward `tt` is in flight at position `p` and has not reached its
target. -/
def tilt_only_moving (p tt : ℚ) (s : State) : Prop :=
  s.position = p ∧ s.fsm_state_ = STATE_MOVING ∧ s.target_position_ = TARGET_NONE ∧
  s.target_tilt_ = tt ∧ 0 ≤ s.tilt ∧ s.tilt ≤ 1 ∧ r32 s.tilt = s.tilt ∧
  ((s.current_operation = COVER_OPERATION_OPENING ∧ s.tilt < tt) ∨
    (s.current_operation = COVER_OPERATION_CLOSING ∧ tt < s.tilt))

/-- The states of a tilt-only move at position `p`: pending, in flight, or arrived (stopping
or calibrating). -/
def tilt_only_move (p tt : ℚ) (s : State) : Prop :=
  tilt_only_idle p tt s ∨ tilt_only_moving p tt s ∨
    (s.position = p ∧ (s.fsm_state_ = STATE_STOPPING ∨ s.fsm_state_ = STATE_CALIBRATING))

/-- A tilt-only closing move toward `tt` is in flight, with no activation time left and the
recalibration time of the closing direction loaded; the previous tick was at clock value
`t`. -/
def closing_tilt_in_flight (cfg : Config) (s : State) (p tt : ℚ) (t : Nat) : Prop :=
  s.fsm_state_ = STATE_MOVING ∧ s.current_operation = COVER_OPERATION_CLOSING ∧
  s.target_position_ = TARGET_NONE ∧ s.target_tilt_ = tt ∧
  s.current_actuator_activation_time_ = 0 ∧
  s.current_recalibration_time_ = cfg.recalibration_close_time_ ∧
  s.last_recompute_time_ = t ∧ s.position = p

/-- What a moving tick at clock value `now` establishes when it clears a position target:
the machine is calibrating exactly when the loaded recalibration time is positive and the
cover is at a travel extreme, and the arrival time is recorded. -/
def arrival_facts (cfg : Config) (s r : State) (now : Nat) : Prop :=
  r.fsm_state_ =
    (if 0 < s.current_recalibration_time_ ∧ is_at_extreme_position_ cfg r = true then
      STATE_CALIBRATING
    else STATE_STOPPING) ∧
  r.last_recompute_time_ = now ∧ r.current_recalibration_time_ = s.current_recalibration_time_ ∧
  r.current_operation = s.current_operation

/-- Configuration of the scenario of C6: tilt durations of 2 s and travel durations of 8 s. -/
def tilt_config : Config :=
  { plain_config 8000 8000 with tilt_open_duration_ := 2000, tilt_close_duration_ := 2000 }

/-- The tilt configuration with a recalibration time of 1 s at the closed end. -/
def tilt_recalibration_config : Config :=
  { tilt_config with recalibration_close_time_ := 1000 }

/-- Configuration of the runs of C5 and C7 with a slow tilt: tilt durations of 10 s and travel
durations of 8 s. -/
def slow_tilt_config : Config :=
  { plain_config 8000 8000 with tilt_open_duration_ := 10000, tilt_close_duration_ := 10000 }

/-- The idle state of the counterexample of C6: fully closed with the tilt fully open. -/
def c6_closed_state : State := { initial_state with position := 0, tilt := 1 }

/-- The run of the counterexample of C6 after the request for tilt 0. -/
def c6_request_state : State := { c6_closed_state with target_tilt_ := 0 }

/-- The run of the counterexample of C6 after the start tick at clock value 0. -/
def c6_moving_state : State :=
  { c6_closed_state with
    target_tilt_ := 0
    current_operation := COVER_OPERATION_CLOSING
    fsm_state_ := STATE_MOVING
    current_recalibration_time_ := 1000 }

/-- The run of the counterexample of C6 after the moving tick at clock value 2000: the tilt
target is reached at the closed extreme and the machine is calibrating. -/
def c6_calibrating_state : State :=
  { c6_closed_state with
    tilt := 0
    current_operation := COVER_OPERATION_CLOSING
    fsm_state_ := STATE_CALIBRATING
    current_recalibration_time_ := 1000
    last_recompute_time_ := 2000
    last_publish_time_ := 2000 }

/-- Configuration of the run of C7: the slow tilt and a recalibration time of 1 s at the
closed end. -/
def c7_config : Config := { slow_tilt_config with recalibration_close_time_ := 1000 }

/-- While the machine is moving or calibrating, the loaded recalibration time is the
configured one of the direction of the move (the start tick loads it). -/
def recalibration_loaded (cfg : Config) (s : State) : Prop :=
  s.fsm_state_ = STATE_MOVING ∨ s.fsm_state_ = STATE_CALIBRATING →
    s.current_recalibration_time_ =
      if s.current_operation = COVER_OPERATION_CLOSING then cfg.recalibration_close_time_
      else cfg.recalibration_open_time_

/-! ## Control requests while moving and toggle requests -/

/-- The target that `control()` stores for an optional field of a set request: its value, or
the sentinel when the field is absent. -/
def stored_target (t : Option ℚ) : ℚ :=
  match t with
  | some v => v
  | none => TARGET_NONE

/-- Wording of the specification for the direction that the targets of a set request imply:
from the position target when it is present and differs from the current position, otherwise
from the tilt target when it is present and differs from the current tilt, otherwise Idle. -/
def implied_direction (s : State) (call : CoverCall) : CoverOperation :=
  let from_tilt :=
    match call.tilt with
    | some t => if t ≠ s.tilt then compute_direction t s.tilt else COVER_OPERATION_IDLE
    | none => COVER_OPERATION_IDLE
  match call.position with
  | some p => if p ≠ s.position then compute_direction p s.position else from_tilt
  | none => from_tilt

/-- A request that carries the toggle flag only. -/
def toggle_call : CoverCall :=
  { stop := false, position := none, tilt := none, toggle := some true }

/-- A moving state of the witness of C11: opening from position 0.5 toward 0.9. -/
def c11_moving_state : State :=
  { initial_state with
    target_position_ := 9 / 10
    current_operation := COVER_OPERATION_OPENING
    fsm_state_ := STATE_MOVING }

/-- An idle, fully closed cover whose last operation was an opening one. -/
def c12_closed_state : State :=
  { initial_state with position := 0, tilt := 0, last_operation_ := COVER_OPERATION_OPENING }

/-- An idle cover at position 1 with the tilt half open, after a closing operation. -/
def c13_open_state : State :=
  { initial_state with position := 1, last_operation_ := COVER_OPERATION_CLOSING }

/-! ## Starts and stops along executions -/

/-- The effects of a tick contain a start action (start-opening or start-closing). -/
def fires_start (e : List Effect) : Prop :=
  Effect.open_trigger ∈ e ∨ Effect.close_trigger ∈ e

/-- The state after a request to open fully is made in the initial state and the tick at
clock value 0 starts the move, for a configuration without activation and recalibration
times. -/
def started_opening_state : State :=
  { initial_state with
    target_position_ := 1
    current_operation := COVER_OPERATION_OPENING
    fsm_state_ := STATE_MOVING }

/-- The run of the witness of C14 after a stop request, the stopping tick at clock value 100
and a request to close. -/
def c14_request_state : State := { c3_stopped_state with target_position_ := 0 }

/-- The run of the witness of C14 after the start tick at clock value 1200. -/
def c14_closing_state : State :=
  { c3_stopped_state with
    target_position_ := 0
    current_operation := COVER_OPERATION_CLOSING
    fsm_state_ := STATE_MOVING
    last_recompute_time_ := 1200 }

/-! ## The decision taken on arrival -/

/-- The state in which a move ends, as the arrival code decides it from the recalibration
time `recal` loaded for the move and the state `r` stored on arrival: Calibrating when
`recal` is positive and `is_at_extreme_position_` holds, Stopping otherwise. -/
def arrival_state (cfg : Config) (recal : Nat) (r : State) : FsmState :=
  if 0 < recal ∧ is_at_extreme_position_ cfg r = true then STATE_CALIBRATING
  else STATE_STOPPING

/-- The idle state of the counterexample of C16: position 0.5 with the tilt fully open. -/
def c16_idle_state : State := { initial_state with tilt := 1 }

/-- The run of the counterexample of C16 after the request for tilt 0 and the start tick at
clock value 0: the recalibration time of the closing direction is loaded. -/
def c16_moving_state : State :=
  { initial_state with
    tilt := 1
    target_tilt_ := 0
    current_operation := COVER_OPERATION_CLOSING
    fsm_state_ := STATE_MOVING
    current_recalibration_time_ := 1000 }

/-- The run of the counterexample of C16 after the moving tick at clock value 2000: the tilt
target is reached with the tilt at 0 and the machine is stopping. -/
def c16_stopping_state : State :=
  { initial_state with
    tilt := 0
    current_operation := COVER_OPERATION_CLOSING
    fsm_state_ := STATE_STOPPING
    current_recalibration_time_ := 1000
    last_recompute_time_ := 2000
    last_publish_time_ := 2000 }

/-! ## Deferred ticks -/

/-- Configuration of the runs of C17: the tilt configuration with an interlock wait of 1 s. -/
def c17_config : Config := { tilt_config with interlock_wait_time_ := 1000 }

/-- A request for the position 0.5 and the tilt 0. -/
def c17_call : CoverCall :=
  { stop := false, position := some (1 / 2), tilt := some 0, toggle := none }

/-- The run of C17 after a request to open, the start tick at clock value 0, a stop request,
the stopping tick at clock value 100 and the request for position 0.5 and tilt 0: the
machine is idle at position 0.5 and tilt 0.5, the interlock is recorded against the closing
direction. -/
def c17_request_state : State :=
  { c3_stopped_state with target_position_ := 1 / 2, target_tilt_ := 0 }

/-- The run of C17 after the deferred tick at clock value 200. -/
def c17_deferred_state : State :=
  { c3_stopped_state with
    target_tilt_ := 0
    current_operation := COVER_OPERATION_CLOSING }

/-! ## The phases of a moving tick, with the time each hands on -/

/-- The actuator activation block of the moving branch of `loop()` (after the update of
`last_recompute_time_`): the state it leaves, and the `travel_time` it hands to the inertia
phase, or `none` when the tick ends in it (`return`). -/
def activation_phase (s : State) (travel_time : Nat) : State × Option Nat :=
  if 0 < s.current_actuator_activation_time_ then
    if travel_time ≤ s.current_actuator_activation_time_ then
      ({ s with
        current_actuator_activation_time_ := s.current_actuator_activation_time_ - travel_time },
        none)
    else
      ({ s with current_actuator_activation_time_ := 0 },
        some (travel_time - s.current_actuator_activation_time_))
  else (s, some travel_time)

/-- The inertia block of the moving branch of `loop()`: the state it leaves, and the
`travel_time` it hands to the tilt and position phases, or `none` when the tick ends in it
(`if (!inertia_rest) return`). -/
def inertia_phase (cfg : Config) (s : State) (travel_time : Nat) : State × Option Nat :=
  let df := dir_factor s.current_operation
  let inertia_time := inertia_time cfg s.current_operation
  if 0 < inertia_time ∧ fmul s.inertia_ df < 1 / 2 then
    let inertia_step := fdiv (fmul df (of_uint32 travel_time)) (of_uint32 inertia_time)
    let i1 := fadd s.inertia_ inertia_step
    let inertia_rest := fsub i1 (clamp i1 (-1 / 2) (1 / 2))
    let s1 := { s with inertia_ := clamp i1 (-1 / 2) (1 / 2) }
    if inertia_rest = 0 then (s1, none)
    else (s1, some (to_uint32 (fmul (fmul df inertia_rest) (of_uint32 inertia_time))))
  else (s, some travel_time)

/-- Configuration of the counterexample of C18: travel durations of 10 s and an inertia time
of 3 ms in the opening direction. -/
def c18_config : Config := { plain_config 10000 10000 with inertia_open_time_ := 3 }

/-- The run of the counterexample of C18 after the moving tick at clock value 2: the
accumulator is full and the position has not moved. -/
def c18_moved_state : State :=
  { initial_state with
    target_position_ := 1
    current_operation := COVER_OPERATION_OPENING
    fsm_state_ := STATE_MOVING
    last_recompute_time_ := 2
    inertia_ := 1 / 2 }

/-- Configuration of the second run of the counterexample of C18: travel durations of 10 s
and an inertia time of 1 s in the opening direction. -/
def c18_rounding_config : Config :=
  { plain_config 10000 10000 with inertia_open_time_ := 1000 }

/-- Configuration of the witness of C18: travel durations of 10 s and an inertia time of
400 ms in the opening direction. -/
def c18_witness_config : Config :=
  { plain_config 10000 10000 with inertia_open_time_ := 400 }

/-- Wording of the specification for the time an inertia phase still needs:
`need = (0.5 - s*a) * I`, with `a` the accumulator, `s` the direction sign and `I` the inertia
time of the direction. -/
def inertia_need (cfg : Config) (s : State) : ℚ :=
  (1 / 2 - dir_factor s.current_operation * s.inertia_) *
    inertia_time cfg s.current_operation

/-- Configuration of the witness of C19: travel durations of 10 s and an actuator activation
time of 500 ms in the opening direction. -/
def c19_config : Config := { plain_config 10000 10000 with actuator_activation_open_time_ := 500 }

/-- The run of the witness of C19 after the request to open fully and the start tick at clock
value 0: the activation time of the opening direction is loaded. -/
def c19_moving_state : State :=
  { initial_state with
    target_position_ := 1
    current_operation := COVER_OPERATION_OPENING
    fsm_state_ := STATE_MOVING
    current_actuator_activation_time_ := 500 }

/-! ## A move that does not end -/

/-- The state that `setup()` restores for position 0 and tilt 0.5. -/
def c15_restored_state : State :=
  (setup (plain_config 10000 10000) initial_state (some (0, 1 / 2))).2

/-- The run of C15 after the toggle request and the start tick at clock value 0: a closing
move toward the tilt target 0, without position target. -/
def c15_moving_state : State :=
  { initial_state with
    position := 0
    target_tilt_ := 0
    current_operation := COVER_OPERATION_CLOSING
    fsm_state_ := STATE_MOVING }

/-! ## Integration in binary32, in the words of the amended claims -/

/-- Wording of the amended C4: the position of an opening move after ticks with the elapsed
times `es`, from the position `p`. Each tick adds the `float` quotient of its elapsed time by
`open_duration` in a `float` sum, capped at 1. -/
def opening_positions (open_duration : Nat) : ℚ → List Nat → ℚ
  | p, [] => p
  | p, e :: es =>
    opening_positions open_duration
      (min 1 (fadd p (fdiv (of_uint32 e) (of_uint32 open_duration)))) es

/-- Wording of the amended C6: the tilt of a closing move after ticks with the elapsed times
`es`, from the tilt `a`. Each tick takes the `float` quotient of its elapsed time by
`tilt_close_duration` off in a `float` difference, floored at 0. -/
def closing_tilts (tilt_close_duration : Nat) : ℚ → List Nat → ℚ
  | a, [] => a
  | a, e :: es =>
    closing_tilts tilt_close_duration
      (max 0 (fsub a (fdiv (of_uint32 e) (of_uint32 tilt_close_duration)))) es

/-! ## Tick granularity -/

/-- A request for the position 0.5 and the tilt 0.75. -/
def c20_call : CoverCall :=
  { stop := false, position := some (1 / 2), tilt := some (3 / 4), toggle := none }

/-- The run of C20 after a request for tilt 0.75, the start tick at clock value 0 and a
request for position 0.5, the current position, and tilt 0.75: the opening move goes on, now
with both targets. -/
def c20_moving_state : State :=
  { initial_state with
    target_position_ := 1 / 2
    target_tilt_ := 3 / 4
    current_operation := COVER_OPERATION_OPENING
    fsm_state_ := STATE_MOVING }

/-- The run of C20 after the moving tick at clock value 1000: the tilt is fully open and the
tick has ended in the tilt phase. -/
def c20_tilted_state : State :=
  { initial_state with
    tilt := 1
    target_position_ := 1 / 2
    target_tilt_ := 3 / 4
    current_operation := COVER_OPERATION_OPENING
    fsm_state_ := STATE_MOVING
    last_recompute_time_ := 1000
    last_publish_time_ := 1000 }

/-- The run of C20 after a second tick at clock value 1000: the position phase has found the
position target reached. -/
def c20_stopping_state : State :=
  { initial_state with
    tilt := 1
    target_tilt_ := 3 / 4
    current_operation := COVER_OPERATION_OPENING
    fsm_state_ := STATE_STOPPING
    last_recompute_time_ := 1000
    last_publish_time_ := 1000 }

/-- The state of the witness of C20: an opening move toward position 1 with 500 ms of
activation time left, the last tick at clock value 0. -/
def c20_dead_time_state : State :=
  { initial_state with
    target_position_ := 1
    current_operation := COVER_OPERATION_OPENING
    fsm_state_ := STATE_MOVING
    current_actuator_activation_time_ := 500 }

/-! # Theorems -/

/-! ## Rounding to binary32 -/

theorem bit_count_zero (fuel : Nat) : bit_count fuel 0 = 0 := by
  cases fuel <;> simp [bit_count]

theorem bit_count_spec (fuel : Nat) : ∀ n, n ≤ fuel → 0 < n →
    2 ^ (bit_count fuel n - 1) ≤ n ∧ n < 2 ^ bit_count fuel n ∧ 0 < bit_count fuel n := by
  induction fuel with
  | zero =>
    intro n h hn
    omega
  | succ f ih =>
    intro n h hn
    have hb : bit_count (f + 1) n = bit_count f (n / 2) + 1 := by
      simp [bit_count, Nat.pos_iff_ne_zero.mp hn]
    rw [hb]
    by_cases h2 : n / 2 = 0
    · rw [h2, bit_count_zero]
      have h1 : n = 1 := by omega
      subst h1
      simp
    · obtain ⟨h1, h3, h4⟩ := ih (n / 2) (by omega) (by omega)
      refine ⟨?_, ?_, by omega⟩
      · have hs : bit_count f (n / 2) + 1 - 1 = (bit_count f (n / 2) - 1) + 1 := by omega
        rw [hs, pow_succ]
        omega
      · rw [pow_succ]
        omega

theorem abs_eq_natAbs_div_den (q : ℚ) : |q| = (q.num.natAbs : ℚ) / (q.den : ℚ) := by
  have hd : (0 : ℚ) < q.den := by exact_mod_cast q.den_pos
  conv_lhs => rw [← Rat.num_div_den q]
  rw [abs_div, abs_of_pos hd, Nat.cast_natAbs, Int.cast_abs]

/-- The binade of a non-zero rational brackets its magnitude. -/
theorem binade_spec (q : ℚ) (hq : q ≠ 0) :
    (2 : ℚ) ^ binade q ≤ |q| ∧ |q| < (2 : ℚ) ^ (binade q + 1) := by
  have hn : 0 < q.num.natAbs := Int.natAbs_pos.mpr (Rat.num_ne_zero.mpr hq)
  have hd : 0 < q.den := q.den_pos
  obtain ⟨ha1, ha2, ha3⟩ := bit_count_spec q.num.natAbs q.num.natAbs le_rfl hn
  obtain ⟨hb1, hb2, hb3⟩ := bit_count_spec q.den q.den le_rfl hd
  have habs := abs_eq_natAbs_div_den q
  have hdq : (0 : ℚ) < q.den := by exact_mod_cast hd
  have ha2q : (q.num.natAbs : ℚ) < (2 : ℚ) ^ (bit_count q.num.natAbs q.num.natAbs) := by
    exact_mod_cast ha2
  have hb1q : (2 : ℚ) ^ (bit_count q.den q.den - 1) ≤ (q.den : ℚ) := by
    exact_mod_cast hb1
  have hup : |q| < (2 : ℚ) ^ ((bit_count q.num.natAbs q.num.natAbs : ℤ) -
      (bit_count q.den q.den : ℤ) + 1) := by
    have he : ((bit_count q.num.natAbs q.num.natAbs : ℤ) - (bit_count q.den q.den : ℤ) + 1) =
        (bit_count q.num.natAbs q.num.natAbs : ℤ) - ((bit_count q.den q.den - 1 : ℕ) : ℤ) := by
      omega
    rw [he, zpow_sub₀ (two_ne_zero), zpow_natCast, zpow_natCast, habs,
      div_lt_div_iff hdq (by positivity)]
    calc (q.num.natAbs : ℚ) * 2 ^ (bit_count q.den q.den - 1)
        ≤ (q.num.natAbs : ℚ) * q.den := by
          apply mul_le_mul_of_nonneg_left hb1q (Nat.cast_nonneg _)
      _ < 2 ^ bit_count q.num.natAbs q.num.natAbs * (q.den : ℚ) := by
          apply mul_lt_mul_of_pos_right ha2q hdq
  unfold binade
  simp only
  split_ifs with hk
  · exact ⟨hk, hup⟩
  · refine ⟨?_, ?_⟩
    · have ha1q : (2 : ℚ) ^ (bit_count q.num.natAbs q.num.natAbs - 1) ≤
          (q.num.natAbs : ℚ) := by
        exact_mod_cast ha1
      have hb2q : (q.den : ℚ) < (2 : ℚ) ^ (bit_count q.den q.den) := by
        exact_mod_cast hb2
      have he : ((bit_count q.num.natAbs q.num.natAbs : ℤ) - (bit_count q.den q.den : ℤ) - 1) =
          ((bit_count q.num.natAbs q.num.natAbs - 1 : ℕ) : ℤ) - (bit_count q.den q.den : ℤ) := by
        omega
      rw [he, zpow_sub₀ (two_ne_zero), zpow_natCast, zpow_natCast, habs,
        div_le_div_iff (by positivity) hdq]
      calc (2 : ℚ) ^ (bit_count q.num.natAbs q.num.natAbs - 1) * q.den
          ≤ (q.num.natAbs : ℚ) * q.den := by
            apply mul_le_mul_of_nonneg_right ha1q hdq.le
        _ ≤ (q.num.natAbs : ℚ) * 2 ^ bit_count q.den q.den := by
            apply mul_le_mul_of_nonneg_left hb2q.le (Nat.cast_nonneg _)
    · rw [sub_add_cancel]
      exact not_le.mp hk

/-- The binade is determined by the bracket. -/
theorem binade_eq (q : ℚ) (e : ℤ) (h1 : (2 : ℚ) ^ e ≤ |q|) (h2 : |q| < (2 : ℚ) ^ (e + 1)) :
    binade q = e := by
  have hq : q ≠ 0 := by
    intro h
    rw [h, abs_zero] at h1
    exact absurd h1 (not_le.mpr (by positivity))
  obtain ⟨hb1, hb2⟩ := binade_spec q hq
  have h3 : e < binade q + 1 :=
    (zpow_lt_zpow_iff_right₀ (by norm_num : (1 : ℚ) < 2)).mp (lt_of_le_of_lt h1 hb2)
  have h4 : binade q < e + 1 :=
    (zpow_lt_zpow_iff_right₀ (by norm_num : (1 : ℚ) < 2)).mp (lt_of_le_of_lt hb1 h2)
  omega

theorem round_even_intCast (n : ℤ) : round_even (n : ℚ) = n := by
  unfold round_even
  rw [Int.floor_intCast, sub_self, if_pos (by norm_num)]

theorem round_even_bounds (q : ℚ) : ⌊q⌋ ≤ round_even q ∧ round_even q ≤ ⌊q⌋ + 1 := by
  unfold round_even
  split_ifs <;> constructor <;> omega

theorem round_even_mono (x y : ℚ) (h : x ≤ y) : round_even x ≤ round_even y := by
  have hfl : ⌊x⌋ ≤ ⌊y⌋ := Int.floor_mono h
  rcases lt_or_eq_of_le hfl with hlt | heq
  · have h1 := (round_even_bounds x).2
    have h2 := (round_even_bounds y).1
    omega
  · unfold round_even
    rw [heq]
    have hxy : x - (⌊y⌋ : ℚ) ≤ y - (⌊y⌋ : ℚ) := by linarith
    split_ifs <;> first | omega | (exfalso; linarith)

theorem round_even_le (x : ℚ) (n : ℤ) (h : x ≤ n) : round_even x ≤ n := by
  have := round_even_mono x n h
  rwa [round_even_intCast] at this

theorem le_round_even (x : ℚ) (n : ℤ) (h : (n : ℚ) ≤ x) : n ≤ round_even x := by
  have := round_even_mono n x h
  rwa [round_even_intCast] at this

theorem ulp32_pos (q : ℚ) : 0 < ulp32 q := by
  unfold ulp32
  positivity

theorem r32_mag_zero : r32_mag 0 = 0 := by decide!

theorem r32_mag_nonneg (x : ℚ) (h : 0 ≤ x) : 0 ≤ r32_mag x := by
  unfold r32_mag
  have hu := ulp32_pos x
  have h0 : (0 : ℤ) ≤ round_even (x / ulp32 x) :=
    le_round_even _ 0 (by
      rw [Int.cast_zero]
      exact div_nonneg h hu.le)
  have h0q : (0 : ℚ) ≤ (round_even (x / ulp32 x) : ℚ) := by exact_mod_cast h0
  exact mul_nonneg h0q hu.le

theorem two_zpow_eq_ulp (x : ℚ) (k : ℤ) :
    (2 : ℚ) ^ (max (binade x) (-126) - 23 + k) = (2 : ℚ) ^ k * ulp32 x := by
  unfold ulp32
  rw [zpow_add₀ (two_ne_zero), mul_comm]

/-- A rounded magnitude does not leave the binade upward. -/
theorem r32_mag_le (x : ℚ) (hx : 0 < x) :
    r32_mag x ≤ (2 : ℚ) ^ (max (binade x) (-126) + 1) := by
  have hu := ulp32_pos x
  obtain ⟨_, hb2⟩ := binade_spec x hx.ne'
  rw [abs_of_pos hx] at hb2
  have h1 : x ≤ (2 : ℚ) ^ (max (binade x) (-126) + 1) :=
    le_trans hb2.le (zpow_le_zpow_right₀ (by norm_num) (by omega))
  have he : max (binade x) (-126) + 1 = max (binade x) (-126) - 23 + 24 := by ring
  have h24 : (2 : ℚ) ^ (24 : ℤ) = ((2 ^ 24 : ℤ) : ℚ) := by norm_num
  rw [he, two_zpow_eq_ulp, h24] at h1 ⊢
  have h2 : x / ulp32 x ≤ ((2 ^ 24 : ℤ) : ℚ) := by
    rw [div_le_iff₀ hu]
    exact h1
  have h3 := round_even_le _ _ h2
  have h3q : (round_even (x / ulp32 x) : ℚ) ≤ ((2 ^ 24 : ℤ) : ℚ) := Int.cast_le.mpr h3
  unfold r32_mag
  exact mul_le_mul_of_nonneg_right h3q hu.le

/-- A rounded normal magnitude does not leave the binade downward. -/
theorem le_r32_mag (x : ℚ) (hx : 0 < x) (hb : -126 ≤ binade x) :
    (2 : ℚ) ^ binade x ≤ r32_mag x := by
  have hu := ulp32_pos x
  obtain ⟨hb1, _⟩ := binade_spec x hx.ne'
  rw [abs_of_pos hx] at hb1
  have he : binade x = max (binade x) (-126) - 23 + 23 := by
    rw [max_eq_left hb]
    ring
  have h23 : (2 : ℚ) ^ (23 : ℤ) = ((2 ^ 23 : ℤ) : ℚ) := by norm_num
  rw [he, two_zpow_eq_ulp, h23] at hb1
  conv_lhs => rw [he, two_zpow_eq_ulp, h23]
  have h2 : ((2 ^ 23 : ℤ) : ℚ) ≤ x / ulp32 x := by
    rw [le_div_iff₀ hu]
    exact hb1
  have h3 := le_round_even _ _ h2
  have h3q : ((2 ^ 23 : ℤ) : ℚ) ≤ (round_even (x / ulp32 x) : ℚ) := Int.cast_le.mpr h3
  unfold r32_mag
  exact mul_le_mul_of_nonneg_right h3q hu.le

theorem binade_mono (x y : ℚ) (hx : 0 < x) (h : x ≤ y) : binade x ≤ binade y := by
  obtain ⟨hx1, _⟩ := binade_spec x hx.ne'
  obtain ⟨_, hy2⟩ := binade_spec y (lt_of_lt_of_le hx h).ne'
  rw [abs_of_pos hx] at hx1
  rw [abs_of_pos (lt_of_lt_of_le hx h)] at hy2
  have h3 : binade x < binade y + 1 :=
    (zpow_lt_zpow_iff_right₀ (by norm_num : (1 : ℚ) < 2)).mp
      (lt_of_le_of_lt (le_trans hx1 h) hy2)
  omega

theorem r32_mag_mono (x y : ℚ) (hx : 0 ≤ x) (h : x ≤ y) : r32_mag x ≤ r32_mag y := by
  rcases eq_or_lt_of_le hx with h0 | hpos
  · rw [← h0, r32_mag_zero]
    exact r32_mag_nonneg y (le_trans hx h)
  · have hy : 0 < y := lt_of_lt_of_le hpos h
    have hb := binade_mono x y hpos h
    by_cases he : max (binade x) (-126) = max (binade y) (-126)
    · have hu : ulp32 x = ulp32 y := by
        unfold ulp32
        rw [he]
      unfold r32_mag
      rw [hu]
      have h1 : x / ulp32 y ≤ y / ulp32 y := div_le_div_of_nonneg_right h (ulp32_pos y).le
      have h2 := round_even_mono _ _ h1
      have h2q : (round_even (x / ulp32 y) : ℚ) ≤ (round_even (y / ulp32 y) : ℚ) := by
        exact_mod_cast h2
      exact mul_le_mul_of_nonneg_right h2q (ulp32_pos y).le
    · have hlt : max (binade x) (-126) + 1 ≤ binade y := by omega
      have hby : -126 ≤ binade y := by omega
      calc r32_mag x ≤ (2 : ℚ) ^ (max (binade x) (-126) + 1) := r32_mag_le x hpos
        _ ≤ (2 : ℚ) ^ binade y := zpow_le_zpow_right₀ (by norm_num) hlt
        _ ≤ r32_mag y := le_r32_mag y hy hby

theorem r32_zero : r32 0 = 0 := by decide!

theorem r32_of_nonneg (x : ℚ) (h : 0 ≤ x) : r32 x = r32_mag x := by
  unfold r32
  rw [if_neg (not_lt.mpr h)]

theorem r32_of_neg (x : ℚ) (h : x < 0) : r32 x = -r32_mag (-x) := by
  unfold r32
  rw [if_pos h]

/-- Rounding commutes with the change of sign. -/
theorem r32_neg (x : ℚ) : r32 (-x) = -r32 x := by
  rcases lt_trichotomy x 0 with h | h | h
  · rw [r32_of_neg x h, r32_of_nonneg (-x) (by linarith), neg_neg]
  · rw [h, neg_zero, r32_zero, neg_zero]
  · rw [r32_of_neg (-x) (by linarith), r32_of_nonneg x h.le, neg_neg]

theorem r32_nonneg (x : ℚ) (h : 0 ≤ x) : 0 ≤ r32 x := by
  rw [r32_of_nonneg x h]
  exact r32_mag_nonneg x h

theorem r32_nonpos (x : ℚ) (h : x ≤ 0) : r32 x ≤ 0 := by
  have := r32_nonneg (-x) (by linarith)
  rw [r32_neg] at this
  linarith

/-- Rounding is monotone. -/
theorem r32_mono (x y : ℚ) (h : x ≤ y) : r32 x ≤ r32 y := by
  rcases lt_or_le x 0 with hx | hx
  · rcases lt_or_le y 0 with hy | hy
    · rw [r32_of_neg x hx, r32_of_neg y hy]
      have := r32_mag_mono (-y) (-x) (by linarith) (by linarith)
      linarith
    · exact le_trans (r32_nonpos x hx.le) (r32_nonneg y hy)
  · rw [r32_of_nonneg x hx, r32_of_nonneg y (le_trans hx h)]
    exact r32_mag_mono x y hx h

/-- A magnitude that is a whole multiple of the spacing of its own binade is a binary32
number. -/
theorem r32_mag_of_multiple (y : ℚ) (k : ℤ) (h : y = k * ulp32 y) : r32_mag y = y := by
  have hu := ulp32_pos y
  have hq : y / ulp32 y = (k : ℚ) := by
    rw [div_eq_iff hu.ne']
    exact h
  unfold r32_mag
  rw [hq, round_even_intCast]
  exact h.symm

/-- A positive multiple of the spacing `2^(e-23)` that does not exceed `2^(e+1)` is a
binary32 number. -/
theorem r32_mag_of_grid (y : ℚ) (m e : ℤ) (hy : 0 < y) (he : -126 ≤ e)
    (hm : y = m * (2 : ℚ) ^ (e - 23)) (hle : y ≤ (2 : ℚ) ^ (e + 1)) : r32_mag y = y := by
  obtain ⟨hb1, hb2⟩ := binade_spec y hy.ne'
  rw [abs_of_pos hy] at hb1 hb2
  rcases eq_or_lt_of_le hle with heq | hlt
  · have hb : binade y = e + 1 := by
      apply binade_eq
      · rw [abs_of_pos hy, heq]
      · rw [abs_of_pos hy, heq]
        exact zpow_lt_zpow_right₀ (by norm_num) (by omega)
    apply r32_mag_of_multiple y (2 ^ 23)
    unfold ulp32
    rw [hb, max_eq_left (by omega), heq]
    have he2 : e + 1 = 23 + (e + 1 - 23) := by ring
    conv_lhs => rw [he2, zpow_add₀ (two_ne_zero)]
    norm_num
  · have hb : binade y < e + 1 :=
      (zpow_lt_zpow_iff_right₀ (by norm_num : (1 : ℚ) < 2)).mp (lt_of_le_of_lt hb1 hlt)
    have hmax : max (binade y) (-126) ≤ e := by omega
    obtain ⟨n, hn⟩ := Int.eq_ofNat_of_zero_le (sub_nonneg.mpr hmax)
    apply r32_mag_of_multiple y (m * 2 ^ n)
    have he2 : e - 23 = (n : ℤ) + (max (binade y) (-126) - 23) := by omega
    have hp : (2 : ℚ) ^ (e - 23) = 2 ^ n * ulp32 y := by
      unfold ulp32
      rw [he2, zpow_add₀ (two_ne_zero), zpow_natCast]
    calc y = m * (2 : ℚ) ^ (e - 23) := hm
      _ = ((m * 2 ^ n : ℤ) : ℚ) * ulp32 y := by
        rw [hp]
        push_cast
        ring

theorem r32_mag_idem (x : ℚ) (hx : 0 ≤ x) : r32_mag (r32_mag x) = r32_mag x := by
  rcases eq_or_lt_of_le hx with h0 | hpos
  · rw [← h0, r32_mag_zero, r32_mag_zero]
  · rcases eq_or_lt_of_le (r32_mag_nonneg x hx) with hz | hp
    · rw [← hz, r32_mag_zero]
    · exact r32_mag_of_grid (r32_mag x) (round_even (x / ulp32 x)) (max (binade x) (-126)) hp
        (le_max_right _ _) rfl (r32_mag_le x hpos)

/-- Rounding a binary32 number changes nothing. -/
theorem r32_idem (x : ℚ) : r32 (r32 x) = r32 x := by
  rcases lt_or_le x 0 with hx | hx
  · rw [r32_of_neg x hx, r32_neg, r32_of_nonneg _ (r32_mag_nonneg _ (by linarith)),
      r32_mag_idem _ (by linarith)]
  · rw [r32_of_nonneg x hx, r32_of_nonneg _ (r32_mag_nonneg x hx), r32_mag_idem x hx]

/-- The integers below `2^24` are binary32 numbers. -/
theorem r32_natCast (n : Nat) (h : n ≤ 16777216) : r32 (n : ℚ) = n := by
  rcases Nat.eq_zero_or_pos n with h0 | hpos
  · rw [h0, Nat.cast_zero, r32_zero]
  · have hq : (0 : ℚ) < n := by exact_mod_cast hpos
    rw [r32_of_nonneg _ hq.le]
    apply r32_mag_of_grid (n : ℚ) (n : ℤ) 23 hq (by norm_num)
    · norm_num
    · have h24 : (2 : ℚ) ^ ((23 : ℤ) + 1) = 16777216 := by norm_num
      rw [h24]
      exact_mod_cast h

theorem r32_one : r32 1 = 1 := by decide!

theorem r32_half : r32 (1 / 2) = 1 / 2 := by decide!

theorem r32_neg_half : r32 (-1 / 2) = -1 / 2 := by decide!

/-- Every rounded value is a whole multiple of `2^-149`. -/
theorem r32_mag_grid (x : ℚ) : ∃ k : ℤ, r32_mag x = k * (2 : ℚ) ^ (-149 : ℤ) := by
  obtain ⟨n, hn⟩ := Int.eq_ofNat_of_zero_le
    (show (0 : ℤ) ≤ max (binade x) (-126) + 126 by omega)
  refine ⟨round_even (x / ulp32 x) * 2 ^ n, ?_⟩
  unfold r32_mag ulp32
  have he : max (binade x) (-126) - 23 = (n : ℤ) + (-149) := by omega
  rw [he, zpow_add₀ (two_ne_zero), zpow_natCast]
  push_cast
  ring

theorem r32_grid (x : ℚ) : ∃ k : ℤ, r32 x = k * (2 : ℚ) ^ (-149 : ℤ) := by
  unfold r32
  split_ifs
  · obtain ⟨k, hk⟩ := r32_mag_grid (-x)
    exact ⟨-k, by rw [hk]; push_cast; ring⟩
  · exact r32_mag_grid x

theorem r32_min_subnormal : r32 ((2 : ℚ) ^ (-149 : ℤ)) = (2 : ℚ) ^ (-149 : ℤ) := by decide!

/-- The difference of two distinct binary32 numbers does not round to zero. -/
theorem r32_sub_ne_zero (a b : ℚ) (ha : ∃ k : ℤ, a = k * (2 : ℚ) ^ (-149 : ℤ))
    (hb : ∃ k : ℤ, b = k * (2 : ℚ) ^ (-149 : ℤ)) (hne : a ≠ b) : r32 (a - b) ≠ 0 := by
  obtain ⟨k, hk⟩ := ha
  obtain ⟨l, hl⟩ := hb
  have hu : (0 : ℚ) < (2 : ℚ) ^ (-149 : ℤ) := by positivity
  have hd : a - b = ((k - l : ℤ) : ℚ) * (2 : ℚ) ^ (-149 : ℤ) := by
    rw [hk, hl]
    push_cast
    ring
  have hkl : k - l ≠ 0 := by
    intro h
    apply hne
    have : k = l := by omega
    rw [hk, hl, this]
  rcases lt_or_gt_of_ne hkl with hlt | hgt
  · have h1 : ((k - l : ℤ) : ℚ) ≤ -1 := by exact_mod_cast (by omega : k - l ≤ -1)
    have h2 : a - b ≤ -(2 : ℚ) ^ (-149 : ℤ) := by
      rw [hd]
      nlinarith
    have h3 := r32_mono _ _ h2
    rw [r32_neg, r32_min_subnormal] at h3
    intro h0
    rw [h0] at h3
    linarith
  · have h1 : (1 : ℚ) ≤ ((k - l : ℤ) : ℚ) := by exact_mod_cast (by omega : 1 ≤ k - l)
    have h2 : (2 : ℚ) ^ (-149 : ℤ) ≤ a - b := by
      rw [hd]
      nlinarith
    have h3 := r32_mono _ _ h2
    rw [r32_min_subnormal] at h3
    intro h0
    rw [h0] at h3
    linarith

/-- A magnitude in the binade of `2^e` that lies less than half a spacing above the multiple
`m` of the spacing rounds down to it. -/
theorem r32_mag_round_down (w : ℚ) (e m : ℤ) (he : -126 ≤ e) (h1 : (2 : ℚ) ^ e ≤ w)
    (h2 : w < (2 : ℚ) ^ (e + 1)) (h3 : (m : ℚ) * (2 : ℚ) ^ (e - 23) ≤ w)
    (h4 : w < ((m : ℚ) + 1 / 2) * (2 : ℚ) ^ (e - 23)) :
    r32_mag w = (m : ℚ) * (2 : ℚ) ^ (e - 23) := by
  have hw : 0 < w := lt_of_lt_of_le (by positivity) h1
  have hb : binade w = e := binade_eq w e (by rwa [abs_of_pos hw]) (by rwa [abs_of_pos hw])
  have hu : ulp32 w = (2 : ℚ) ^ (e - 23) := by
    unfold ulp32
    rw [hb, max_eq_left he]
  have hup : (0 : ℚ) < (2 : ℚ) ^ (e - 23) := by positivity
  have hq1 : (m : ℚ) ≤ w / (2 : ℚ) ^ (e - 23) := by
    rw [le_div_iff₀ hup]
    exact h3
  have hq2 : w / (2 : ℚ) ^ (e - 23) < (m : ℚ) + 1 / 2 := by
    rw [div_lt_iff₀ hup]
    exact h4
  have hfl : ⌊w / (2 : ℚ) ^ (e - 23)⌋ = m := by
    rw [Int.floor_eq_iff]
    exact ⟨hq1, by linarith⟩
  unfold r32_mag
  rw [hu]
  unfold round_even
  rw [hfl, if_pos (by linarith)]

/-- No binary32 number lies strictly between `1 - 2^-24` and `1`. -/
theorem r32_lt_one (x : ℚ) (h : r32 x < 1) : r32 x ≤ 1 - 1 / 16777216 := by
  by_contra hc
  have hc2 : 1 - 1 / 16777216 < r32 x := not_le.mp hc
  have hpos : 0 < r32 x := lt_trans (by norm_num) hc2
  have hid := r32_idem x
  rw [r32_of_nonneg (r32 x) hpos.le] at hid
  have hb : binade (r32 x) = -1 := by
    apply binade_eq
    · rw [abs_of_pos hpos]
      norm_num
      linarith
    · rw [abs_of_pos hpos]
      norm_num
      exact h
  have hu : ulp32 (r32 x) = 1 / 16777216 := by
    unfold ulp32
    rw [hb]
    norm_num
  have hfl : ⌊r32 x / (1 / 16777216)⌋ = 16777215 := by
    rw [Int.floor_eq_iff]
    constructor
    · rw [le_div_iff₀ (by norm_num)]
      push_cast
      linarith
    · rw [div_lt_iff₀ (by norm_num)]
      push_cast
      linarith
  have hb2 := round_even_bounds (r32 x / (1 / 16777216))
  rw [hfl] at hb2
  unfold r32_mag at hid
  rw [hu] at hid
  have hcases : round_even (r32 x / (1 / 16777216)) = 16777215 ∨
      round_even (r32 x / (1 / 16777216)) = 16777216 := by omega
  rcases hcases with h5 | h5
  · rw [h5] at hid
    push_cast at hid
    linarith
  · rw [h5] at hid
    push_cast at hid
    linarith

theorem fmul_one (x : ℚ) : fmul x 1 = r32 x := by
  unfold fmul
  rw [mul_one]

theorem one_fmul (x : ℚ) : fmul 1 x = r32 x := by
  unfold fmul
  rw [one_mul]

theorem fmul_neg_one (x : ℚ) : fmul x (-1) = -r32 x := by
  unfold fmul
  rw [mul_neg_one, r32_neg]

theorem neg_one_fmul (x : ℚ) : fmul (-1) x = -r32 x := by
  unfold fmul
  rw [neg_one_mul, r32_neg]

theorem of_uint32_nonneg (n : Nat) : 0 ≤ of_uint32 n :=
  r32_nonneg _ (Nat.cast_nonneg n)

theorem r32_of_uint32 (n : Nat) : r32 (of_uint32 n) = of_uint32 n :=
  r32_idem _

/-- The step of an opening tick: the `float` quotient of the elapsed time by the duration. -/
theorem opening_step (x d : Nat) :
    fdiv (fmul 1 (of_uint32 x)) (of_uint32 d) = fdiv (of_uint32 x) (of_uint32 d) := by
  rw [one_fmul, r32_of_uint32]

/-- The step of a closing tick: the opposite of the `float` quotient of the elapsed time by
the duration. -/
theorem closing_step (x d : Nat) :
    fdiv (fmul (-1) (of_uint32 x)) (of_uint32 d) = -fdiv (of_uint32 x) (of_uint32 d) := by
  rw [neg_one_fmul, r32_of_uint32]
  unfold fdiv
  rw [neg_div, r32_neg]

theorem fdiv_of_uint32_nonneg (x d : Nat) : 0 ≤ fdiv (of_uint32 x) (of_uint32 d) :=
  r32_nonneg _ (div_nonneg (of_uint32_nonneg x) (of_uint32_nonneg d))

/-- The guard of an opening phase holds for every binary32 value below 1. -/
theorem opening_guard (v : ℚ) (hf : r32 v = v) (h : v < 1) :
    fmul (fsub v (1 / 2)) 1 < 1 / 2 := by
  have h1 : v ≤ 1 - 1 / 16777216 := by
    rw [← hf] at h ⊢
    exact r32_lt_one v h
  have h2 : r32 (1 / 2 - 1 / 16777216) = 1 / 2 - 1 / 16777216 := by decide!
  have h3 : fsub v (1 / 2) ≤ 1 / 2 - 1 / 16777216 := by
    unfold fsub
    rw [← h2]
    exact r32_mono _ _ (by linarith)
  rw [fmul_one]
  have h4 := r32_mono _ _ h3
  rw [h2] at h4
  linarith

/-- The guard of a closing phase holds for every value above `2^-26`. -/
theorem closing_guard (v : ℚ) (h : 1 / 67108864 < v) :
    fmul (fsub v (1 / 2)) (-1) < 1 / 2 := by
  have h2 : r32 (1 / 2 - 1 / 33554432) = 1 / 2 - 1 / 33554432 := by decide!
  have hkey : -(1 / 2 - 1 / 33554432) ≤ fsub v (1 / 2) := by
    unfold fsub
    by_cases hv : 1 / 33554432 ≤ v
    · have := r32_mono (-(1 / 2 - 1 / 33554432)) (v - 1 / 2) (by linarith)
      rw [r32_neg, h2] at this
      exact this
    · have hneg : v - 1 / 2 < 0 := by linarith [not_le.mp hv]
      rw [r32_of_neg _ hneg]
      have hr := r32_mag_round_down (-(v - 1 / 2)) (-2) 16777215 (by norm_num)
        (by norm_num; linarith [not_le.mp hv]) (by norm_num; linarith)
        (by norm_num; linarith [not_le.mp hv]) (by norm_num; linarith)
      rw [hr]
      norm_num
  rw [fmul_neg_one]
  have h4 := r32_mono _ _ hkey
  rw [r32_neg, h2] at h4
  linarith

theorem round_even_error (y : ℚ) : |((round_even y : ℤ) : ℚ) - y| ≤ 1 / 2 := by
  have h1 := Int.floor_le y
  have h2 := Int.lt_floor_add_one y
  unfold round_even
  split_ifs with ha hb hc
  · rw [abs_le]
    constructor <;> linarith
  · rw [abs_le]
    push_cast
    constructor <;> linarith
  · rw [abs_le]
    constructor <;> linarith
  · rw [abs_le]
    push_cast
    constructor <;> linarith

theorem r32_mag_error (x : ℚ) : |r32_mag x - x| ≤ ulp32 x / 2 := by
  have hu := ulp32_pos x
  have he := round_even_error (x / ulp32 x)
  have hx : r32_mag x - x = (((round_even (x / ulp32 x) : ℤ) : ℚ) - x / ulp32 x) * ulp32 x := by
    unfold r32_mag
    field_simp
  rw [hx, abs_mul, abs_of_pos hu]
  calc |((round_even (x / ulp32 x) : ℤ) : ℚ) - x / ulp32 x| * ulp32 x
      ≤ 1 / 2 * ulp32 x := mul_le_mul_of_nonneg_right he hu.le
    _ = ulp32 x / 2 := by ring

/-- Rounding a value of `[0,1]` to binary32 moves it by at most `2^-25`. -/
theorem r32_error_unit (x : ℚ) (h0 : 0 ≤ x) (h1 : x ≤ 1) : |r32 x - x| ≤ 1 / 33554432 := by
  rcases eq_or_lt_of_le h0 with hz | hpos
  · rw [← hz, r32_zero]
    norm_num
  rcases eq_or_lt_of_le h1 with ho | hlt
  · rw [ho, r32_one]
    norm_num
  rw [r32_of_nonneg x h0]
  obtain ⟨hb1, _⟩ := binade_spec x hpos.ne'
  rw [abs_of_pos hpos] at hb1
  have hb : binade x < 0 := by
    have h3 : (2 : ℚ) ^ binade x < (2 : ℚ) ^ (0 : ℤ) := by
      rw [zpow_zero]
      exact lt_of_le_of_lt hb1 hlt
    exact (zpow_lt_zpow_iff_right₀ (by norm_num : (1 : ℚ) < 2)).mp h3
  have hu : ulp32 x ≤ 1 / 16777216 := by
    unfold ulp32
    have h24 : (1 / 16777216 : ℚ) = (2 : ℚ) ^ (-24 : ℤ) := by norm_num
    rw [h24]
    exact zpow_le_zpow_right₀ (by norm_num) (by omega)
  have he := r32_mag_error x
  linarith

theorem abs_min_one_sub (a b : ℚ) : |min 1 a - min 1 b| ≤ |a - b| := by
  rcases le_total 1 a with ha | ha <;> rcases le_total 1 b with hb | hb
  · rw [min_eq_left ha, min_eq_left hb, sub_self, abs_zero]
    exact abs_nonneg _
  · rw [min_eq_left ha, min_eq_right hb, abs_le]
    have h1 := neg_abs_le (a - b)
    have h2 := le_abs_self (a - b)
    have h3 := abs_nonneg (a - b)
    constructor <;> linarith
  · rw [min_eq_right ha, min_eq_left hb, abs_le]
    have h1 := neg_abs_le (a - b)
    have h2 := le_abs_self (a - b)
    have h3 := abs_nonneg (a - b)
    constructor <;> linarith
  · rw [min_eq_right ha, min_eq_right hb]

theorem abs_max_zero_sub (a b : ℚ) : |max 0 a - max 0 b| ≤ |a - b| := by
  rcases le_total a 0 with ha | ha <;> rcases le_total b 0 with hb | hb
  · rw [max_eq_left ha, max_eq_left hb, sub_self, abs_zero]
    exact abs_nonneg _
  · rw [max_eq_left ha, max_eq_right hb, abs_le]
    have h1 := neg_abs_le (a - b)
    have h2 := le_abs_self (a - b)
    have h3 := abs_nonneg (a - b)
    constructor <;> linarith
  · rw [max_eq_right ha, max_eq_left hb, abs_le]
    have h1 := neg_abs_le (a - b)
    have h2 := le_abs_self (a - b)
    have h3 := abs_nonneg (a - b)
    constructor <;> linarith
  · rw [max_eq_right ha, max_eq_right hb]

/-- The binary32 quotient of two integers up to `2^24`, capped at 1, is within `2^-25` of
the exact quotient capped at 1. -/
theorem fdiv_error (e d : Nat) (hd : 0 < d) (he24 : e ≤ 16777216) (hd24 : d ≤ 16777216) :
    (e < d → |fdiv (of_uint32 e) (of_uint32 d) - (e : ℚ) / d| ≤ 1 / 33554432) ∧
    (d ≤ e → 1 ≤ fdiv (of_uint32 e) (of_uint32 d)) := by
  have hdq : (0 : ℚ) < d := by exact_mod_cast hd
  unfold fdiv of_uint32
  rw [r32_natCast e he24, r32_natCast d hd24]
  constructor
  · intro hlt
    have hltq : (e : ℚ) < d := by exact_mod_cast hlt
    exact r32_error_unit _ (div_nonneg (Nat.cast_nonneg e) hdq.le)
      ((div_le_one hdq).mpr hltq.le)
  · intro hle
    have hleq : (d : ℚ) ≤ e := by exact_mod_cast hle
    have := r32_mono 1 ((e : ℚ) / d) ((one_le_div hdq).mpr hleq)
    rwa [r32_one] at this

/-! ## Basic facts -/

@[simp]
theorem idle_ne_opening : COVER_OPERATION_IDLE ≠ COVER_OPERATION_OPENING := by decide

@[simp]
theorem idle_ne_closing : COVER_OPERATION_IDLE ≠ COVER_OPERATION_CLOSING := by decide

@[simp]
theorem opening_ne_idle : COVER_OPERATION_OPENING ≠ COVER_OPERATION_IDLE := by decide

@[simp]
theorem opening_ne_closing : COVER_OPERATION_OPENING ≠ COVER_OPERATION_CLOSING := by decide

@[simp]
theorem closing_ne_idle : COVER_OPERATION_CLOSING ≠ COVER_OPERATION_IDLE := by decide

@[simp]
theorem closing_ne_opening : COVER_OPERATION_CLOSING ≠ COVER_OPERATION_OPENING := by decide

@[simp]
theorem fsm_idle_ne_moving : STATE_IDLE ≠ STATE_MOVING := by decide

@[simp]
theorem fsm_idle_ne_stopping : STATE_IDLE ≠ STATE_STOPPING := by decide

@[simp]
theorem fsm_idle_ne_calibrating : STATE_IDLE ≠ STATE_CALIBRATING := by decide

@[simp]
theorem fsm_moving_ne_idle : STATE_MOVING ≠ STATE_IDLE := by decide

@[simp]
theorem fsm_moving_ne_stopping : STATE_MOVING ≠ STATE_STOPPING := by decide

@[simp]
theorem fsm_moving_ne_calibrating : STATE_MOVING ≠ STATE_CALIBRATING := by decide

@[simp]
theorem fsm_stopping_ne_idle : STATE_STOPPING ≠ STATE_IDLE := by decide

@[simp]
theorem fsm_stopping_ne_moving : STATE_STOPPING ≠ STATE_MOVING := by decide

@[simp]
theorem fsm_stopping_ne_calibrating : STATE_STOPPING ≠ STATE_CALIBRATING := by decide

@[simp]
theorem fsm_calibrating_ne_idle : STATE_CALIBRATING ≠ STATE_IDLE := by decide

@[simp]
theorem fsm_calibrating_ne_moving : STATE_CALIBRATING ≠ STATE_MOVING := by decide

@[simp]
theorem fsm_calibrating_ne_stopping : STATE_CALIBRATING ≠ STATE_STOPPING := by decide

theorem usub_add_left (t e : Nat) (he : e < 4294967296) : usub (t + e) t = e := by
  unfold usub
  omega

theorem usub_self (t : Nat) : usub t t = 0 := by
  unfold usub
  omega

theorem clamp_ge (v lo hi : ℚ) (h : lo ≤ hi) : lo ≤ clamp v lo hi := by
  unfold clamp
  split_ifs <;> linarith

theorem clamp_le (v lo hi : ℚ) (h : lo ≤ hi) : clamp v lo hi ≤ hi := by
  unfold clamp
  split_ifs <;> linarith

theorem clamp_eq_self (v lo hi : ℚ) (h1 : lo ≤ v) (h2 : v ≤ hi) : clamp v lo hi = v := by
  unfold clamp
  rw [if_neg (not_lt.mpr h1), if_neg (not_lt.mpr h2)]

theorem round_position_in_range (tol : ℚ) : rp_in_range (round_position tol) := by
  intro x h0 h1
  unfold round_position
  split_ifs <;> constructor <;> linarith

theorem arrive_position (cfg : Config) (s : State) : (arrive cfg s).1.position = s.position := by
  unfold arrive
  split_ifs <;> rfl

theorem arrive_tilt (cfg : Config) (s : State) : (arrive cfg s).1.tilt = s.tilt := by
  unfold arrive
  split_ifs <;> rfl

theorem publish_if_due_position (s : State) (now limit : Nat) :
    (publish_if_due s now limit).1.position = s.position := by
  unfold publish_if_due
  split_ifs <;> rfl

theorem publish_if_due_tilt (s : State) (now limit : Nat) :
    (publish_if_due s now limit).1.tilt = s.tilt := by
  unfold publish_if_due
  split_ifs <;> rfl

/-! ## Range of position and tilt -/

theorem advance_position_range (s : State) (tt mt : Nat) (p : ℚ) (hs : in_range s)
    (h : advance_position s tt mt = some p) : 0 ≤ p ∧ p ≤ 1 := by
  unfold advance_position at h
  split_ifs at h
  · simp only [Option.some.injEq] at h
    subst h
    norm_num
  · simp only [Option.some.injEq] at h
    subst h
    norm_num
  · simp only [Option.some.injEq] at h
    subst h
    exact ⟨clamp_ge _ _ _ (by norm_num), clamp_le _ _ _ (by norm_num)⟩
  · simp only [Option.some.injEq] at h
    subst h
    exact ⟨hs.1, hs.2.1⟩

theorem loop_position_range (rp : ℚ → ℚ) (hrp : rp_in_range rp) (cfg : Config) (s : State)
    (now tt : Nat) (r : State × List Effect) (hs : in_range s)
    (h : loop_position rp cfg s now tt = some r) : in_range r.1 := by
  unfold loop_position at h
  split at h
  · exact absurd h (by simp)
  · rename_i p hp
    have hr1 := advance_position_range s tt _ p hs hp
    simp only [Option.some.injEq] at h
    subst h
    simp only [in_range, publish_if_due_position, publish_if_due_tilt]
    split_ifs
    · simp only [arrive_position, arrive_tilt]
      exact ⟨(hrp _ hr1.1 hr1.2).1, (hrp _ hr1.1 hr1.2).2, hs.2.2.1, hs.2.2.2⟩
    · exact ⟨hr1.1, hr1.2, hs.2.2.1, hs.2.2.2⟩

theorem loop_tilt_range (rp : ℚ → ℚ) (hrp : rp_in_range rp) (cfg : Config) (s : State)
    (now tt : Nat) (r : State × List Effect) (hs : in_range s)
    (h : loop_tilt rp cfg s now tt = some r) : in_range r.1 := by
  unfold loop_tilt at h
  simp only at h
  split_ifs at h with h1 h2 h3
  · simp only [Option.some.injEq] at h
    subst h
    simp only [in_range, arrive_position, arrive_tilt]
    exact ⟨hs.1, hs.2.1, (hrp _ (clamp_ge _ 0 1 (by norm_num)) (clamp_le _ 0 1 (by norm_num))).1,
      (hrp _ (clamp_ge _ 0 1 (by norm_num)) (clamp_le _ 0 1 (by norm_num))).2⟩
  · simp only [Option.some.injEq] at h
    subst h
    simp only [in_range, publish_if_due_position, publish_if_due_tilt]
    exact ⟨hs.1, hs.2.1, clamp_ge _ _ _ (by norm_num), clamp_le _ _ _ (by norm_num)⟩
  · split at h
    · exact absurd h (by simp)
    · rename_i r1 hr1
      simp only [Option.some.injEq] at h
      subst h
      refine loop_position_range rp hrp cfg _ now _ r1 ?_ hr1
      simp only [in_range, publish_if_due_position, publish_if_due_tilt]
      exact ⟨hs.1, hs.2.1, clamp_ge _ _ _ (by norm_num), clamp_le _ _ _ (by norm_num)⟩
  · exact loop_position_range rp hrp cfg s now tt r hs h

theorem loop_inertia_range (rp : ℚ → ℚ) (hrp : rp_in_range rp) (cfg : Config) (s : State)
    (now tt : Nat) (r : State × List Effect) (hs : in_range s)
    (h : loop_inertia rp cfg s now tt = some r) : in_range r.1 := by
  unfold loop_inertia at h
  simp only at h
  split_ifs at h
  · simp only [Option.some.injEq] at h
    subst h
    exact hs
  · exact loop_tilt_range rp hrp cfg _ now _ r (by exact hs) h
  · exact loop_tilt_range rp hrp cfg s now tt r hs h

theorem loop_moving_range (rp : ℚ → ℚ) (hrp : rp_in_range rp) (cfg : Config) (s : State)
    (now : Nat) (r : State × List Effect) (hs : in_range s)
    (h : loop_moving rp cfg s now = some r) : in_range r.1 := by
  unfold loop_moving at h
  simp only at h
  split_ifs at h
  · simp only [Option.some.injEq] at h
    subst h
    exact hs
  · exact loop_inertia_range rp hrp cfg _ now _ r (by exact hs) h
  · exact loop_inertia_range rp hrp cfg _ now _ r (by exact hs) h

theorem resolve_direction_position (s : State) :
    (resolve_direction s).position = s.position := by
  unfold resolve_direction
  simp only
  split_ifs <;> rfl

theorem resolve_direction_tilt (s : State) : (resolve_direction s).tilt = s.tilt := by
  unfold resolve_direction
  simp only
  split_ifs <;> rfl

theorem loop_idle_position (cfg : Config) (s : State) (now : Nat) :
    (loop_idle cfg s now).1.position = s.position := by
  unfold loop_idle
  simp only
  split_ifs <;> simp [resolve_direction_position]

theorem loop_idle_tilt (cfg : Config) (s : State) (now : Nat) :
    (loop_idle cfg s now).1.tilt = s.tilt := by
  unfold loop_idle
  simp only
  split_ifs <;> simp [resolve_direction_tilt]

/-- Range invariant of a tick: when the tick stores no NaN, position and tilt stay in
`[0,1]`, for every configuration, clock value and pending targets. -/
theorem loop_in_range (rp : ℚ → ℚ) (hrp : rp_in_range rp) (cfg : Config) (s : State)
    (now : Nat) (r : State × List Effect) (hs : in_range s)
    (h : loop rp cfg s now = some r) : in_range r.1 := by
  unfold loop at h
  split_ifs at h
  · simp only [Option.some.injEq] at h
    subst h
    exact hs
  · simp only [Option.some.injEq] at h
    subst h
    unfold loop_calibrating
    split_ifs <;> exact hs
  · simp only [Option.some.injEq] at h
    subst h
    unfold loop_stopping
    simp only [in_range]
    split_ifs <;>
      exact ⟨(hrp _ hs.1 hs.2.1).1, (hrp _ hs.1 hs.2.1).2, (hrp _ hs.2.2.1 hs.2.2.2).1,
        (hrp _ hs.2.2.1 hs.2.2.2).2⟩
  · simp only [Option.some.injEq] at h
    subst h
    simp only [in_range, loop_idle_position, loop_idle_tilt]
    exact hs
  · exact loop_moving_range rp hrp cfg s now r hs h
  · simp only [Option.some.injEq] at h
    subst h
    exact hs

theorem control_set_position (s : State) (call : CoverCall) :
    (control_set s call).position = s.position := by
  unfold control_set
  simp only
  split_ifs <;> rfl

theorem control_set_tilt (s : State) (call : CoverCall) :
    (control_set s call).tilt = s.tilt := by
  unfold control_set
  simp only
  split_ifs <;> rfl

theorem control_toggle_position (s : State) : (control_toggle s).position = s.position := by
  unfold control_toggle
  split_ifs <;> rfl

theorem control_toggle_tilt (s : State) : (control_toggle s).tilt = s.tilt := by
  unfold control_toggle
  split_ifs <;> rfl

/-- A control request changes neither position nor tilt. -/
theorem control_position_tilt (s : State) (call : CoverCall) :
    (control s call).position = s.position ∧ (control s call).tilt = s.tilt := by
  unfold control
  simp only
  split_ifs <;>
    simp [control_toggle_position, control_toggle_tilt, control_set_position, control_set_tilt]

/-- A moving tick stores NaN only when the travel duration of its direction is zero. -/
theorem loop_position_isSome (rp : ℚ → ℚ) (cfg : Config) (s : State) (now tt : Nat)
    (h : 0 < move_time cfg s.current_operation) :
    ∃ r, loop_position rp cfg s now tt = some r := by
  have hadv : ∃ p, advance_position s tt (move_time cfg s.current_operation) = some p := by
    unfold advance_position
    by_cases hg : fmul (fsub s.position (1 / 2)) (dir_factor s.current_operation) < 1 / 2
    · rw [if_pos hg, if_neg (by omega)]
      exact ⟨_, rfl⟩
    · rw [if_neg hg]
      exact ⟨_, rfl⟩
  obtain ⟨p, hp⟩ := hadv
  unfold loop_position
  rw [hp]
  exact ⟨_, rfl⟩

theorem loop_tilt_isSome (rp : ℚ → ℚ) (cfg : Config) (s : State) (now tt : Nat)
    (h : 0 < move_time cfg s.current_operation) :
    ∃ r, loop_tilt rp cfg s now tt = some r := by
  unfold loop_tilt
  simp only
  split_ifs
  · exact ⟨_, rfl⟩
  · exact ⟨_, rfl⟩
  · rename_i h1 h2 h3
    obtain ⟨r, hr⟩ := loop_position_isSome rp cfg
      (publish_if_due
        { s with tilt := clamp (fadd s.tilt (fdiv (fmul (dir_factor s.current_operation)
          (of_uint32 tt)) (of_uint32 (tilt_time cfg s.current_operation)))) 0 1 } now
        (tilt_publish_limit (tilt_time cfg s.current_operation))).1 now
      (to_uint32 (fmul (fmul (dir_factor s.current_operation)
        (fsub (fsub (fadd s.tilt (fdiv (fmul (dir_factor s.current_operation)
          (of_uint32 tt)) (of_uint32 (tilt_time cfg s.current_operation)))) (1 / 2))
          (clamp (fsub (fadd s.tilt (fdiv (fmul (dir_factor s.current_operation)
            (of_uint32 tt)) (of_uint32 (tilt_time cfg s.current_operation)))) (1 / 2))
            (-1 / 2) (1 / 2))))
        (of_uint32 (tilt_time cfg s.current_operation))))
      (by
        rw [show (publish_if_due
          { s with tilt := clamp (fadd s.tilt (fdiv (fmul (dir_factor s.current_operation)
            (of_uint32 tt)) (of_uint32 (tilt_time cfg s.current_operation)))) 0 1 } now
          (tilt_publish_limit (tilt_time cfg s.current_operation))).1.current_operation
            = s.current_operation from by
          unfold publish_if_due
          split_ifs <;> rfl]
        exact h)
    rw [hr]
    exact ⟨_, rfl⟩
  · exact loop_position_isSome rp cfg s now tt h

theorem loop_inertia_isSome (rp : ℚ → ℚ) (cfg : Config) (s : State) (now tt : Nat)
    (h : 0 < move_time cfg s.current_operation) :
    ∃ r, loop_inertia rp cfg s now tt = some r := by
  unfold loop_inertia
  simp only
  split_ifs
  · exact ⟨_, rfl⟩
  · exact loop_tilt_isSome rp cfg _ now _ (by exact h)
  · exact loop_tilt_isSome rp cfg s now tt h

/-- With both travel durations positive, every tick returns a state. -/
theorem loop_isSome (rp : ℚ → ℚ) (cfg : Config) (s : State) (now : Nat)
    (ho : 0 < cfg.open_duration_) (hc : 0 < cfg.close_duration_) :
    ∃ r, loop rp cfg s now = some r := by
  have hm : ∀ op, 0 < move_time cfg op := by
    intro op
    unfold move_time
    split_ifs <;> assumption
  unfold loop
  split_ifs
  · exact ⟨_, rfl⟩
  · exact ⟨_, rfl⟩
  · exact ⟨_, rfl⟩
  · exact ⟨_, rfl⟩
  · unfold loop_moving
    simp only
    split_ifs
    · exact ⟨_, rfl⟩
    · exact loop_inertia_isSome rp cfg _ now _ (hm _)
    · exact loop_inertia_isSome rp cfg _ now _ (hm _)
  · exact ⟨_, rfl⟩

/-- Clamping invariant for positive travel durations: a tick from a state with position and
tilt in `[0,1]` returns a state with position and tilt in `[0,1]`. -/
theorem loop_keeps_range (rp : ℚ → ℚ) (hrp : rp_in_range rp) (cfg : Config) (s : State)
    (now : Nat) (ho : 0 < cfg.open_duration_) (hc : 0 < cfg.close_duration_)
    (hs : in_range s) : ∃ r, loop rp cfg s now = some r ∧ in_range r.1 := by
  obtain ⟨r, hr⟩ := loop_isSome rp cfg s now ho hc
  exact ⟨r, hr, loop_in_range rp hrp cfg s now r hs hr⟩

/-- Clamping invariant for control requests. -/
theorem control_keeps_range (s : State) (call : CoverCall) (hs : in_range s) :
    in_range (control s call) := by
  unfold in_range
  rw [(control_position_tilt s call).1, (control_position_tilt s call).2]
  exact hs

/-! ## C1: the clamping invariant -/

/-- C1, evaluation at the failing input. With `open_duration = 0`, the request to open fully
from the initial state starts a move at clock value 1000; the moving state then has position
and tilt in `[0,1]`, and a second tick at the same clock value divides a zero travel time by
the zero duration: the tick stores NaN in `position` (`none`), so the position is not in
`[0,1]` after it. -/
theorem C1_zero_duration_tick_stores_nan :
    run (round_position (1 / 100)) (plain_config 0 10000) initial_state
        [Input.request (set_position 1), Input.tick 1000] =
      some (c1_moving_state, [[], [Effect.open_trigger]]) ∧
    in_range c1_moving_state ∧
    loop (round_position (1 / 100)) (plain_config 0 10000) c1_moving_state 1000 = none := by
  refine ⟨?_, ?_, ?_⟩
  · have h1 : control initial_state (set_position 1) = c1_request_state := by
      norm_num [control, control_set, set_position, initial_state, c1_request_state,
        TARGET_NONE]
    have h2 : loop (round_position (1 / 100)) (plain_config 0 10000) c1_request_state 1000 =
        some (c1_moving_state, [Effect.open_trigger]) := by
      norm_num [loop, loop_idle, resolve_direction, compute_direction, initial_state,
        c1_request_state, c1_moving_state, plain_config, TARGET_NONE, usub]
    simp only [run, step, h1, h2]
  · norm_num [in_range, c1_moving_state, initial_state]
  · decide!

/-! ## C2: interlock after a close-then-stop -/

theorem loop_of_stopping (rp : ℚ → ℚ) (cfg : Config) (s : State) (now : Nat)
    (h : s.fsm_state_ = STATE_STOPPING) :
    loop rp cfg s now = some (loop_stopping rp s now) := by
  simp [loop, h]

theorem loop_of_idle_pending (rp : ℚ → ℚ) (cfg : Config) (s : State) (now : Nat)
    (h : s.fsm_state_ = STATE_IDLE)
    (hp : s.target_position_ ≠ TARGET_NONE ∨ s.target_tilt_ ≠ TARGET_NONE) :
    loop rp cfg s now = some (loop_idle cfg s now) := by
  unfold loop
  rw [if_neg (by rw [h]; tauto), if_neg (by rw [h]; simp), if_neg (by rw [h]; simp),
    if_pos ⟨h, hp⟩]

theorem loop_of_moving (rp : ℚ → ℚ) (cfg : Config) (s : State) (now : Nat)
    (h : s.fsm_state_ = STATE_MOVING) :
    loop rp cfg s now = loop_moving rp cfg s now := by
  simp [loop, h]

theorem loop_of_calibrating (rp : ℚ → ℚ) (cfg : Config) (s : State) (now : Nat)
    (h : s.fsm_state_ = STATE_CALIBRATING) :
    loop rp cfg s now = some (loop_calibrating s now) := by
  simp [loop, h]

theorem resolve_direction_opening (s : State) (h1 : s.target_position_ ≠ TARGET_NONE)
    (h2 : s.position < s.target_position_) :
    resolve_direction s = { s with current_operation := COVER_OPERATION_OPENING } := by
  unfold resolve_direction
  simp only
  have hc : compute_direction s.target_position_ s.position = COVER_OPERATION_OPENING := by
    unfold compute_direction
    rw [if_pos h2]
  rw [if_pos h1, hc, if_neg (by simp)]

theorem run_cons (rp : ℚ → ℚ) (cfg : Config) (s s1 s2 : State) (i : Input) (rest : List Input)
    (e : List Effect) (es : List (List Effect)) (h1 : step rp cfg s i = some (s1, e))
    (h2 : run rp cfg s1 rest = some (s2, es)) :
    run rp cfg s (i :: rest) = some (s2, e :: es) := by
  simp only [run, h1, h2]

/-- While the interlock blocks an opening request, idle ticks fire nothing and change at most
the field `current_operation`. -/
theorem run_deferred_opening (rp : ℚ → ℚ) (cfg : Config) (t : Nat) (nows : List Nat)
    (hdefer : ∀ n ∈ nows, usub n t < cfg.interlock_wait_time_) (s : State)
    (hfsm : s.fsm_state_ = STATE_IDLE) (h1 : s.target_position_ ≠ TARGET_NONE)
    (h2 : s.position < s.target_position_)
    (hd : s.interlocked_direction_ = COVER_OPERATION_OPENING) (ht : s.interlocked_time_ = t) :
    ∃ s3, run rp cfg s (nows.map Input.tick) = some (s3, nows.map (fun _ => [])) ∧
      { s3 with current_operation := COVER_OPERATION_OPENING } =
        { s with current_operation := COVER_OPERATION_OPENING } := by
  induction nows generalizing s with
  | nil => exact ⟨s, rfl, rfl⟩
  | cons n rest ih =>
    have hstep : step rp cfg s (Input.tick n) =
        some ({ s with current_operation := COVER_OPERATION_OPENING }, []) := by
      simp only [step]
      rw [loop_of_idle_pending rp cfg s n hfsm (Or.inl h1)]
      unfold loop_idle
      simp only [resolve_direction_opening s h1 h2]
      rw [if_neg (by simp), if_pos ⟨hd.symm, by rw [ht]; exact hdefer n (by simp)⟩]
    obtain ⟨s3, hrun, heq⟩ := ih (fun m hm => hdefer m (by simp [hm]))
      { s with current_operation := COVER_OPERATION_OPENING } hfsm h1 h2 hd ht
    exact ⟨s3, by simpa using run_cons rp cfg s _ s3 _ _ _ _ hstep hrun, heq⟩

/-- C2. A stopping tick at clock value `t` ends a closing run; the only request that follows
asks for a position above the current one. After any number of idle ticks that fall within
the interlock wait, a tick at clock value `now` fires the start-opening action and enters
Moving if and only if `now - t ≥ interlock_wait_time`; when `now - t < interlock_wait_time`
it fires nothing and the machine stays Idle with the request still pending. -/
theorem C2_interlock_after_close_then_stop (rp : ℚ → ℚ) (cfg : Config) (s : State) (t : Nat)
    (tp : ℚ) (ct : Option ℚ) (nows : List Nat) (now : Nat)
    (hfsm : s.fsm_state_ = STATE_STOPPING)
    (hop : s.current_operation = COVER_OPERATION_CLOSING)
    (htp : rp s.position < tp) (hne : tp ≠ TARGET_NONE)
    (hdefer : ∀ n ∈ nows, usub n t < cfg.interlock_wait_time_) :
    ∃ s3 s4 e4,
      run rp cfg s (Input.tick t ::
          Input.request { stop := false, position := some tp, tilt := ct, toggle := none } ::
          nows.map Input.tick) =
        some (s3, [Effect.stop_trigger, Effect.publish_state true] :: [] ::
          nows.map (fun _ => [])) ∧
      loop rp cfg s3 now = some (s4, e4) ∧
      ((e4 = [Effect.open_trigger] ∧ s4.fsm_state_ = STATE_MOVING) ↔
        cfg.interlock_wait_time_ ≤ usub now t) ∧
      (usub now t < cfg.interlock_wait_time_ →
        e4 = [] ∧ s4.fsm_state_ = STATE_IDLE ∧ s4.target_position_ = tp ∧
          s4.target_tilt_ = ct.getD TARGET_NONE) := by
  -- the state after the stopping tick and the request
  obtain ⟨s2, hs2, hfsm2, hpos2, htp2, htt2, hd2, ht2⟩ : ∃ s2,
      control (loop_stopping rp s t).1
        { stop := false, position := some tp, tilt := ct, toggle := none } = s2 ∧
      s2.fsm_state_ = STATE_IDLE ∧ s2.position = rp s.position ∧ s2.target_position_ = tp ∧
      s2.target_tilt_ = ct.getD TARGET_NONE ∧
      s2.interlocked_direction_ = COVER_OPERATION_OPENING ∧ s2.interlocked_time_ = t := by
    refine ⟨_, rfl, ?_⟩
    cases ct <;> simp [control, control_set, loop_stopping, hop]
  obtain ⟨s3, hrun, heq⟩ := run_deferred_opening rp cfg t nows hdefer s2 hfsm2
    (by rw [htp2]; exact hne) (by rw [hpos2, htp2]; exact htp) hd2 ht2
  have hf3 : s3.fsm_state_ = STATE_IDLE := by
    have := congrArg State.fsm_state_ heq
    simpa [hfsm2] using this
  have ht3 : s3.target_position_ = tp := by
    have := congrArg State.target_position_ heq
    simpa [htp2] using this
  have hp3 : s3.position = rp s.position := by
    have := congrArg State.position heq
    simpa [hpos2] using this
  have hres : resolve_direction s3 = { s2 with current_operation := COVER_OPERATION_OPENING } := by
    rw [resolve_direction_opening s3 (by rw [ht3]; exact hne) (by rw [hp3, ht3]; exact htp)]
    exact heq
  have hloop : loop rp cfg s3 now = some (loop_idle cfg s3 now) :=
    loop_of_idle_pending rp cfg s3 now hf3 (Or.inl (by rw [ht3]; exact hne))
  refine ⟨s3, (loop_idle cfg s3 now).1, (loop_idle cfg s3 now).2, ?_, hloop, ?_, ?_⟩
  · refine run_cons rp cfg s (loop_stopping rp s t).1 s3 _ _
      [Effect.stop_trigger, Effect.publish_state true] _ ?_
      (run_cons rp cfg (loop_stopping rp s t).1 s2 s3 _ _ [] _ ?_ hrun)
    · simp only [step]
      rw [loop_of_stopping rp cfg s t hfsm]
      simp [loop_stopping]
    · simp only [step, hs2]
  · unfold loop_idle
    simp only [hres]
    rw [if_neg (by simp)]
    by_cases hw : usub now t < cfg.interlock_wait_time_
    · rw [if_pos ⟨by simp [hd2], by simpa [ht2] using hw⟩]
      simp [hfsm2]
      omega
    · rw [if_neg (by simp [ht2, hw])]
      simp
      omega
  · intro hw
    unfold loop_idle
    simp only [hres]
    rw [if_neg (by simp), if_pos ⟨by simp [hd2], by simpa [ht2] using hw⟩]
    simp [hfsm2, htp2, htt2]

/-- C2, witness: an interlock wait of 1 s; the closing run is stopped at clock value 100, the
request asks for position 1, idle ticks at clock values 200 and 300 are deferred, and the
theorem is read at the tick at clock value 500. -/
theorem C2_interlock_after_close_then_stop_witness :
    c2_stopping_state.fsm_state_ = STATE_STOPPING ∧
    c2_stopping_state.current_operation = COVER_OPERATION_CLOSING ∧
    round_position (1 / 100) c2_stopping_state.position < 1 ∧
    (∀ n ∈ [200, 300], usub n 100 < interlock_config.interlock_wait_time_) ∧
    ∃ s3 s4 e4,
      run (round_position (1 / 100)) interlock_config c2_stopping_state (Input.tick 100 ::
          Input.request { stop := false, position := some 1, tilt := none, toggle := none } ::
          [200, 300].map Input.tick) =
        some (s3, [Effect.stop_trigger, Effect.publish_state true] :: [] ::
          [200, 300].map (fun _ => [])) ∧
      loop (round_position (1 / 100)) interlock_config s3 500 = some (s4, e4) ∧
      ((e4 = [Effect.open_trigger] ∧ s4.fsm_state_ = STATE_MOVING) ↔
        interlock_config.interlock_wait_time_ ≤ usub 500 100) ∧
      (usub 500 100 < interlock_config.interlock_wait_time_ →
        e4 = [] ∧ s4.fsm_state_ = STATE_IDLE ∧ s4.target_position_ = 1 ∧
          s4.target_tilt_ = (none : Option ℚ).getD TARGET_NONE) :=
  ⟨rfl, rfl, by norm_num [round_position, c2_stopping_state, initial_state], by decide,
    C2_interlock_after_close_then_stop (round_position (1 / 100)) interlock_config
      c2_stopping_state 100 1 none [200, 300] 500 rfl rfl
      (by norm_num [round_position, c2_stopping_state, initial_state])
      (by norm_num [TARGET_NONE]) (by decide)⟩

/-! ## Frame of the moving branch and of control requests -/

theorem frame_refl (s : State) : frame s s := ⟨rfl, rfl, rfl, rfl, rfl⟩

theorem frame_trans (a b c : State) (h1 : frame a b) (h2 : frame b c) : frame a c := by
  obtain ⟨h11, h12, h13, h14, h15⟩ := h1
  obtain ⟨h21, h22, h23, h24, h25⟩ := h2
  exact ⟨h21.trans h11, h22.trans h12, h23.trans h13, h24.trans h14, h25.trans h15⟩

theorem only_publish_nil : only_publish [] := by
  intro x hx
  simp at hx

theorem only_publish_append (a b : List Effect) (ha : only_publish a) (hb : only_publish b) :
    only_publish (a ++ b) := by
  intro x hx
  rcases List.mem_append.mp hx with h | h
  · exact ha x h
  · exact hb x h

theorem arrive_frame (cfg : Config) (s : State) :
    frame s (arrive cfg s).1 ∧ only_publish (arrive cfg s).2 ∧
      ((arrive cfg s).1.fsm_state_ = STATE_STOPPING ∨
        (arrive cfg s).1.fsm_state_ = STATE_CALIBRATING) := by
  unfold arrive
  split_ifs
  · exact ⟨frame_refl s, by intro x hx; simpa using hx, Or.inr rfl⟩
  · exact ⟨frame_refl s, only_publish_nil, Or.inl rfl⟩

theorem publish_if_due_frame (s : State) (now limit : Nat) :
    frame s (publish_if_due s now limit).1 ∧ only_publish (publish_if_due s now limit).2 ∧
      (publish_if_due s now limit).1.fsm_state_ = s.fsm_state_ := by
  unfold publish_if_due
  split_ifs
  · exact ⟨frame_refl s, by intro x hx; simpa using hx, rfl⟩
  · exact ⟨frame_refl s, only_publish_nil, rfl⟩

theorem loop_position_frame (rp : ℚ → ℚ) (cfg : Config) (s : State) (now tt : Nat)
    (r : State × List Effect) (h : loop_position rp cfg s now tt = some r) :
    frame s r.1 ∧ only_publish r.2 ∧ fsm_advance s r.1 := by
  unfold loop_position at h
  split at h
  · exact absurd h (by simp)
  · rename_i p _
    simp only [Option.some.injEq] at h
    subst h
    simp only
    split_ifs
    · have ha := arrive_frame cfg
        { s with
          last_recompute_time_ := now
          target_position_ := TARGET_NONE
          last_publish_time_ := now
          position := rp p }
      have hp := publish_if_due_frame (arrive cfg
        { s with
          last_recompute_time_ := now
          target_position_ := TARGET_NONE
          last_publish_time_ := now
          position := rp p }).1 now 1000
      refine ⟨frame_trans _ _ _ (frame_trans s _ _ ⟨rfl, rfl, rfl, rfl, rfl⟩ ha.1) hp.1,
        only_publish_append _ _ ha.2.1 hp.2.1, ?_⟩
      unfold fsm_advance
      rw [hp.2.2]
      exact Or.inr ha.2.2
    · have hp := publish_if_due_frame { s with position := p } now 1000
      refine ⟨frame_trans s _ _ ⟨rfl, rfl, rfl, rfl, rfl⟩ hp.1,
        only_publish_append _ _ only_publish_nil hp.2.1, ?_⟩
      unfold fsm_advance
      rw [hp.2.2]
      exact Or.inl rfl

theorem fsm_advance_trans (a b c : State) (h1 : b.fsm_state_ = a.fsm_state_)
    (h2 : fsm_advance b c) : fsm_advance a c := by
  unfold fsm_advance at *
  rw [← h1]
  exact h2

theorem loop_tilt_frame (rp : ℚ → ℚ) (cfg : Config) (s : State) (now tt : Nat)
    (r : State × List Effect) (h : loop_tilt rp cfg s now tt = some r) :
    frame s r.1 ∧ only_publish r.2 ∧ fsm_advance s r.1 := by
  unfold loop_tilt at h
  simp only at h
  split_ifs at h with h1 h2 h3
  · simp only [Option.some.injEq] at h
    subst h
    have ha := arrive_frame cfg
      { s with
        tilt := rp (clamp (fadd s.tilt (fdiv (fmul (dir_factor s.current_operation) (of_uint32 tt))
          (of_uint32 (tilt_time cfg s.current_operation)))) 0 1)
        last_recompute_time_ := now
        target_tilt_ := TARGET_NONE
        last_publish_time_ := now }
    exact ⟨ha.1, ha.2.1, Or.inr ha.2.2⟩
  · simp only [Option.some.injEq] at h
    subst h
    have hp := publish_if_due_frame
      { s with tilt := clamp (fadd s.tilt (fdiv (fmul (dir_factor s.current_operation) (of_uint32 tt))
          (of_uint32 (tilt_time cfg s.current_operation)))) 0 1 } now
      (tilt_publish_limit (tilt_time cfg s.current_operation))
    exact ⟨hp.1, hp.2.1, Or.inl hp.2.2⟩
  · split at h
    · exact absurd h (by simp)
    · rename_i r1 hr1
      simp only [Option.some.injEq] at h
      subst h
      have hp := publish_if_due_frame
        { s with tilt := clamp (fadd s.tilt (fdiv (fmul (dir_factor s.current_operation) (of_uint32 tt))
          (of_uint32 (tilt_time cfg s.current_operation)))) 0 1 } now
        (tilt_publish_limit (tilt_time cfg s.current_operation))
      have hl := loop_position_frame rp cfg _ now _ r1 hr1
      exact ⟨frame_trans _ _ _ hp.1 hl.1, only_publish_append _ _ hp.2.1 hl.2.1,
        fsm_advance_trans _ _ _ hp.2.2 hl.2.2⟩
  · exact loop_position_frame rp cfg s now tt r h

theorem loop_inertia_frame (rp : ℚ → ℚ) (cfg : Config) (s : State) (now tt : Nat)
    (r : State × List Effect) (h : loop_inertia rp cfg s now tt = some r) :
    frame s r.1 ∧ only_publish r.2 ∧ fsm_advance s r.1 := by
  unfold loop_inertia at h
  simp only at h
  split_ifs at h
  · simp only [Option.some.injEq] at h
    subst h
    exact ⟨frame_refl s, only_publish_nil, Or.inl rfl⟩
  · have hl := loop_tilt_frame rp cfg _ now _ r h
    exact ⟨frame_trans _ _ _ ⟨rfl, rfl, rfl, rfl, rfl⟩ hl.1, hl.2.1,
      fsm_advance_trans _ _ _ rfl hl.2.2⟩
  · exact loop_tilt_frame rp cfg s now tt r h

theorem loop_moving_frame (rp : ℚ → ℚ) (cfg : Config) (s : State) (now : Nat)
    (r : State × List Effect) (h : loop_moving rp cfg s now = some r) :
    frame s r.1 ∧ only_publish r.2 ∧ fsm_advance s r.1 := by
  unfold loop_moving at h
  simp only at h
  split_ifs at h
  · simp only [Option.some.injEq] at h
    subst h
    exact ⟨frame_refl s, only_publish_nil, Or.inl rfl⟩
  · have hl := loop_inertia_frame rp cfg _ now _ r h
    exact ⟨frame_trans _ _ _ ⟨rfl, rfl, rfl, rfl, rfl⟩ hl.1, hl.2.1,
      fsm_advance_trans _ _ _ rfl hl.2.2⟩
  · have hl := loop_inertia_frame rp cfg _ now _ r h
    exact ⟨frame_trans _ _ _ ⟨rfl, rfl, rfl, rfl, rfl⟩ hl.1, hl.2.1,
      fsm_advance_trans _ _ _ rfl hl.2.2⟩

theorem control_set_frame (s : State) (call : CoverCall) :
    frame s (control_set s call) ∧
      ((control_set s call).fsm_state_ = STATE_IDLE → s.fsm_state_ = STATE_IDLE) := by
  unfold control_set
  simp only
  split_ifs <;> simp_all [frame]

theorem control_toggle_frame (s : State) :
    frame s (control_toggle s) ∧
      ((control_toggle s).fsm_state_ = STATE_IDLE → s.fsm_state_ = STATE_IDLE) := by
  unfold control_toggle
  split_ifs <;> simp_all [frame]

/-- A control request keeps the operation, the last operation, the interlock fields and the
loaded recalibration time, and does not make the machine idle. -/
theorem control_frame (s : State) (call : CoverCall) :
    frame s (control s call) ∧
      ((control s call).fsm_state_ = STATE_IDLE → s.fsm_state_ = STATE_IDLE) := by
  unfold control
  simp only
  split_ifs
  · simp [frame]
  · have h1 := control_set_frame s call
    have h2 := control_toggle_frame (control_set s call)
    exact ⟨frame_trans _ _ _ h1.1 h2.1, fun h => h1.2 (h2.2 h)⟩
  · exact control_toggle_frame s
  · exact control_set_frame s call
  · exact ⟨frame_refl s, id⟩

/-! ## The recalibration time of a move in flight -/

theorem control_set_fsm (s : State) (call : CoverCall) :
    (control_set s call).fsm_state_ = s.fsm_state_ ∨
      (control_set s call).fsm_state_ = STATE_STOPPING := by
  unfold control_set
  simp only
  split_ifs <;> simp

theorem control_toggle_fsm (s : State) :
    (control_toggle s).fsm_state_ = s.fsm_state_ ∨
      (control_toggle s).fsm_state_ = STATE_STOPPING := by
  unfold control_toggle
  split_ifs <;> simp

/-- A control request keeps the state of the machine or forces Stopping. -/
theorem control_fsm (s : State) (call : CoverCall) :
    (control s call).fsm_state_ = s.fsm_state_ ∨
      (control s call).fsm_state_ = STATE_STOPPING := by
  unfold control
  simp only
  split_ifs
  · exact Or.inr rfl
  · rcases control_toggle_fsm (control_set s call) with h | h
    · rw [h]
      exact control_set_fsm s call
    · exact Or.inr h
  · exact control_toggle_fsm s
  · exact control_set_fsm s call
  · exact Or.inl rfl

theorem control_recalibration_loaded (cfg : Config) (s : State) (call : CoverCall)
    (h : recalibration_loaded cfg s) : recalibration_loaded cfg (control s call) := by
  have hf := (control_frame s call).1
  intro hm
  rw [hf.2.2.2.2, hf.1]
  apply h
  rcases control_fsm s call with h1 | h1
  · rw [← h1]
    exact hm
  · rw [h1] at hm
    simp at hm

theorem loop_recalibration_loaded (rp : ℚ → ℚ) (cfg : Config) (s : State) (now : Nat)
    (r : State × List Effect) (h : recalibration_loaded cfg s)
    (hr : loop rp cfg s now = some r) : recalibration_loaded cfg r.1 := by
  unfold loop at hr
  split_ifs at hr with h1 h2 h3 h4 h5
  · simp only [Option.some.injEq] at hr
    subst hr
    exact h
  · simp only [Option.some.injEq] at hr
    subst hr
    unfold loop_calibrating
    split_ifs
    · intro hm
      simp at hm
    · exact h
  · simp only [Option.some.injEq] at hr
    subst hr
    intro hm
    simp [loop_stopping] at hm
  · simp only [Option.some.injEq] at hr
    subst hr
    have hi : (resolve_direction s).fsm_state_ = STATE_IDLE := by
      have : (resolve_direction s).fsm_state_ = s.fsm_state_ := by
        unfold resolve_direction
        simp only
        split_ifs <;> rfl
      rw [this]
      exact h4.1
    unfold loop_idle
    simp only
    by_cases c1 : (resolve_direction s).current_operation = COVER_OPERATION_IDLE
    · rw [if_pos c1]
      intro hm
      simp [hi] at hm
    · rw [if_neg c1]
      by_cases c2 : (resolve_direction s).current_operation =
          (resolve_direction s).interlocked_direction_ ∧
          usub now (resolve_direction s).interlocked_time_ < cfg.interlock_wait_time_
      · rw [if_pos c2]
        intro hm
        simp [hi] at hm
      · rw [if_neg c2]
        intro _
        rfl
  · obtain ⟨hf, _, hadv⟩ := loop_moving_frame rp cfg s now r hr
    intro _
    rw [hf.2.2.2.2, hf.1]
    exact h (Or.inl h5)
  · simp only [Option.some.injEq] at hr
    subst hr
    exact h

/-- In every execution from a state that is neither moving nor calibrating, such as the
initial state, a move in flight has the recalibration time of its direction loaded. -/
theorem run_recalibration_loaded (rp : ℚ → ℚ) (cfg : Config) (ins : List Input) (s : State)
    (r : State × List (List Effect)) (h : recalibration_loaded cfg s)
    (hr : run rp cfg s ins = some r) : recalibration_loaded cfg r.1 := by
  induction ins generalizing s r with
  | nil =>
    simp only [run, Option.some.injEq] at hr
    subst hr
    exact h
  | cons i rest ih =>
    simp only [run] at hr
    split at hr
    · exact absurd hr (by simp)
    · rename_i r1 hr1
      split at hr
      · exact absurd hr (by simp)
      · rename_i q hq
        simp only [Option.some.injEq] at hr
        subst hr
        refine ih r1.1 q ?_ hq
        cases i with
        | tick now => exact loop_recalibration_loaded rp cfg s now r1 h hr1
        | request call =>
          simp only [step, Option.some.injEq] at hr1
          subst hr1
          exact control_recalibration_loaded cfg s call h

/-! ## C3: the reversal interlock along executions -/

/-- The four kinds of tick: a tick that keeps the frame and fires no trigger (nothing to do,
calibrating, moving); the stopping tick; an idle tick that starts nothing; an idle tick that
starts a move, which the interlock did not block. -/
theorem loop_cases (rp : ℚ → ℚ) (cfg : Config) (s : State) (now : Nat)
    (r : State × List Effect) (h : loop rp cfg s now = some r) :
    (frame s r.1 ∧ only_publish r.2 ∧ fsm_advance s r.1) ∨
    (s.fsm_state_ = STATE_STOPPING ∧ r = loop_stopping rp s now) ∨
    (s.fsm_state_ = STATE_IDLE ∧ r.2 = [] ∧ r.1.fsm_state_ = STATE_IDLE ∧
      r.1.interlocked_time_ = s.interlocked_time_ ∧
      r.1.interlocked_direction_ = s.interlocked_direction_) ∨
    (s.fsm_state_ = STATE_IDLE ∧ r.2 = [start_trigger r.1.current_operation] ∧
      r.1.current_operation ≠ COVER_OPERATION_IDLE ∧ r.1.fsm_state_ = STATE_MOVING ∧
      r.1.interlocked_time_ = s.interlocked_time_ ∧
      r.1.interlocked_direction_ = s.interlocked_direction_ ∧
      ¬(r.1.current_operation = s.interlocked_direction_ ∧
        usub now s.interlocked_time_ < cfg.interlock_wait_time_)) := by
  unfold loop at h
  split_ifs at h with h1 h2 h3 h4 h5
  · simp only [Option.some.injEq] at h
    subst h
    exact Or.inl ⟨frame_refl s, only_publish_nil, Or.inl rfl⟩
  · simp only [Option.some.injEq] at h
    subst h
    left
    unfold loop_calibrating
    split_ifs
    · exact ⟨frame_refl s, only_publish_nil, Or.inr (Or.inl rfl)⟩
    · exact ⟨frame_refl s, only_publish_nil, Or.inl rfl⟩
  · simp only [Option.some.injEq] at h
    exact Or.inr (Or.inl ⟨h3, h.symm⟩)
  · simp only [Option.some.injEq] at h
    subst h
    right
    right
    have hi : (resolve_direction s).interlocked_time_ = s.interlocked_time_ ∧
        (resolve_direction s).interlocked_direction_ = s.interlocked_direction_ ∧
        (resolve_direction s).fsm_state_ = s.fsm_state_ := by
      unfold resolve_direction
      simp only
      split_ifs <;> exact ⟨rfl, rfl, rfl⟩
    unfold loop_idle
    simp only
    by_cases c1 : (resolve_direction s).current_operation = COVER_OPERATION_IDLE
    · rw [if_pos c1]
      exact Or.inl ⟨h4.1, rfl, hi.2.2.trans h4.1, hi.1, hi.2.1⟩
    · rw [if_neg c1]
      by_cases c2 : (resolve_direction s).current_operation =
          (resolve_direction s).interlocked_direction_ ∧
          usub now (resolve_direction s).interlocked_time_ < cfg.interlock_wait_time_
      · rw [if_pos c2]
        exact Or.inl ⟨h4.1, rfl, hi.2.2.trans h4.1, hi.1, hi.2.1⟩
      · rw [if_neg c2]
        refine Or.inr ⟨h4.1, rfl, c1, rfl, hi.1, hi.2.1, ?_⟩
        rw [hi.1, hi.2.1] at c2
        exact c2
  · left
    exact loop_moving_frame rp cfg s now r h
  · simp only [Option.some.injEq] at h
    subst h
    exact Or.inl ⟨frame_refl s, only_publish_nil, Or.inl rfl⟩

theorem actuator_after_only_publish (a : CoverOperation) (e : List Effect)
    (h : only_publish e) : actuator_after a e = a := by
  induction e with
  | nil => rfl
  | cons x rest ih =>
    have hx : x = Effect.publish_state false := h x (by simp)
    subst hx
    simp only [actuator_after]
    exact ih (fun y hy => h y (by simp [hy]))

theorem only_publish_no_trigger (e : List Effect) (h : only_publish e) :
    Effect.stop_trigger ∉ e ∧ Effect.open_trigger ∉ e ∧ Effect.close_trigger ∉ e := by
  refine ⟨?_, ?_, ?_⟩ <;> intro hm <;> exact absurd (h _ hm) (by simp)

theorem start_trigger_cases (d : CoverOperation) :
    start_trigger d = Effect.open_trigger ∨ start_trigger d = Effect.close_trigger := by
  unfold start_trigger
  split_ifs
  · exact Or.inr rfl
  · exact Or.inl rfl

theorem actuator_after_start (a d : CoverOperation) (hd : d ≠ COVER_OPERATION_IDLE) :
    actuator_after a [start_trigger d] = d := by
  cases d <;> simp [start_trigger, actuator_after] at hd ⊢

/-- A tick keeps the actuator direction and the machine consistent. -/
theorem loop_consistent (rp : ℚ → ℚ) (cfg : Config) (s : State) (now : Nat)
    (r : State × List Effect) (a : CoverOperation) (h : loop rp cfg s now = some r)
    (hc : consistent a s) : consistent (actuator_after a r.2) r.1 := by
  rcases loop_cases rp cfg s now r h with ⟨hf, hp, hadv⟩ | ⟨_, hr⟩ | ⟨hi, he, _⟩ | ⟨hi, he, hne, hm, _⟩
  · rw [actuator_after_only_publish a r.2 hp]
    intro ha
    obtain ⟨hop, hfsm⟩ := hc ha
    refine ⟨hf.1.trans hop, ?_⟩
    rcases hadv with h1 | h1 | h1
    · rw [h1]
      exact hfsm
    · rw [h1]
      simp
    · rw [h1]
      simp
  · subst hr
    intro ha
    simp [loop_stopping, actuator_after] at ha
  · have ha : a = COVER_OPERATION_IDLE := by
      by_contra hne
      exact (hc hne).2 hi
    subst ha
    rw [he]
    intro hne
    exact absurd rfl hne
  · rw [he, actuator_after_start a _ hne]
    intro _
    exact ⟨rfl, by rw [hm]; simp⟩

/-- A step keeps the actuator direction and the machine consistent. -/
theorem step_consistent (rp : ℚ → ℚ) (cfg : Config) (s : State) (i : Input)
    (r : State × List Effect) (a : CoverOperation) (h : step rp cfg s i = some r)
    (hc : consistent a s) : consistent (actuator_after a r.2) r.1 := by
  cases i with
  | tick now => exact loop_consistent rp cfg s now r a h hc
  | request call =>
    simp only [step, Option.some.injEq] at h
    subst h
    simp only [actuator_after]
    intro ha
    obtain ⟨hop, hfsm⟩ := hc ha
    have hf := control_frame s call
    exact ⟨hf.1.1.trans hop, fun hidle => hfsm (hf.2 hidle)⟩

/-- An execution keeps the actuator direction and the machine consistent. -/
theorem run_consistent (rp : ℚ → ℚ) (cfg : Config) (ins : List Input) (s : State)
    (r : State × List (List Effect)) (a : CoverOperation) (h : run rp cfg s ins = some r)
    (hc : consistent a s) : consistent (actuator_run a r.2) r.1 := by
  induction ins generalizing s a r with
  | nil =>
    simp only [run, Option.some.injEq] at h
    subst h
    exact hc
  | cons i rest ih =>
    simp only [run] at h
    split at h
    · exact absurd h (by simp)
    · rename_i r1 hr1
      split at h
      · exact absurd h (by simp)
      · rename_i q hq
        simp only [Option.some.injEq] at h
        subst h
        exact ih r1.1 q (actuator_after a r1.2) hq (step_consistent rp cfg s i r1 a hr1 hc)

/-- A step that does not fire the stop trigger keeps the interlock fields. -/
theorem step_interlock_fields (rp : ℚ → ℚ) (cfg : Config) (s : State) (i : Input)
    (r : State × List Effect) (h : step rp cfg s i = some r)
    (hn : Effect.stop_trigger ∉ r.2) :
    r.1.interlocked_time_ = s.interlocked_time_ ∧
      r.1.interlocked_direction_ = s.interlocked_direction_ := by
  cases i with
  | tick now =>
    rcases loop_cases rp cfg s now r h with ⟨hf, _, _⟩ | ⟨_, hr⟩ | ⟨_, _, _, h1, h2⟩ |
      ⟨_, _, _, _, h1, h2, _⟩
    · exact ⟨hf.2.2.1, hf.2.2.2.1⟩
    · subst hr
      simp [loop_stopping] at hn
    · exact ⟨h1, h2⟩
    · exact ⟨h1, h2⟩
  | request call =>
    simp only [step, Option.some.injEq] at h
    subst h
    have hf := control_frame s call
    exact ⟨hf.1.2.2.1, hf.1.2.2.2.1⟩

/-- An execution in which no step fires the stop trigger keeps the interlock fields. -/
theorem run_interlock_fields (rp : ℚ → ℚ) (cfg : Config) (ins : List Input) (s : State)
    (r : State × List (List Effect)) (h : run rp cfg s ins = some r)
    (hn : ∀ e ∈ r.2, Effect.stop_trigger ∉ e) :
    r.1.interlocked_time_ = s.interlocked_time_ ∧
      r.1.interlocked_direction_ = s.interlocked_direction_ := by
  induction ins generalizing s r with
  | nil =>
    simp only [run, Option.some.injEq] at h
    subst h
    exact ⟨rfl, rfl⟩
  | cons i rest ih =>
    simp only [run] at h
    split at h
    · exact absurd h (by simp)
    · rename_i r1 hr1
      split at h
      · exact absurd h (by simp)
      · rename_i q hq
        simp only [Option.some.injEq] at h
        subst h
        have h1 := step_interlock_fields rp cfg s i r1 hr1 (hn r1.2 (by simp))
        have h2 := ih r1.1 q hq (fun e he => hn e (by simp [he]))
        exact ⟨h2.1.trans h1.1, h2.2.trans h1.2⟩

/-- C3, amended. In every execution that starts with the actuator off: if the actuator runs
in direction `d` when a tick at clock value `t` fires the stop trigger, and no later step
fires the stop trigger again, then no tick at a clock value `now` with
`now - t < interlock_wait_time` fires the start trigger of the direction opposite to `d`. -/
theorem C3_no_reversal_until_next_stop (rp : ℚ → ℚ) (cfg : Config) (s0 : State)
    (pre mid : List Input) (t now : Nat) (d : CoverOperation)
    (r1 : State × List (List Effect)) (r2 : State × List Effect)
    (r3 : State × List (List Effect)) (r4 : State × List Effect)
    (hpre : run rp cfg s0 pre = some r1)
    (hd : actuator_run COVER_OPERATION_IDLE r1.2 = d) (hdne : d ≠ COVER_OPERATION_IDLE)
    (hstop : loop rp cfg r1.1 t = some r2) (hfire : Effect.stop_trigger ∈ r2.2)
    (hmid : run rp cfg r2.1 mid = some r3) (hquiet : ∀ e ∈ r3.2, Effect.stop_trigger ∉ e)
    (hlast : loop rp cfg r3.1 now = some r4)
    (hw : usub now t < cfg.interlock_wait_time_) :
    start_trigger (opposite d) ∉ r4.2 := by
  -- the machine agrees with the actuator when the stop fires
  have hc1 : consistent d r1.1 := by
    have := run_consistent rp cfg pre s0 r1 COVER_OPERATION_IDLE hpre (fun h => absurd rfl h)
    rwa [hd] at this
  obtain ⟨hop1, _⟩ := hc1 hdne
  -- the stopping tick records the interlock against the opposite direction
  have h2 : r2.1.interlocked_time_ = t ∧ r2.1.interlocked_direction_ = opposite d := by
    rcases loop_cases rp cfg r1.1 t r2 hstop with ⟨_, hp, _⟩ | ⟨_, hr⟩ | ⟨_, he, _⟩ |
      ⟨_, he, _⟩
    · exact absurd hfire (only_publish_no_trigger r2.2 hp).1
    · subst hr
      simp only [loop_stopping, hop1]
      rw [if_pos hdne]
      exact ⟨rfl, rfl⟩
    · rw [he] at hfire
      simp at hfire
    · rw [he] at hfire
      rcases start_trigger_cases r2.1.current_operation with hs | hs <;>
        rw [hs] at hfire <;> simp at hfire
  have h3 := run_interlock_fields rp cfg mid r2.1 r3 hmid hquiet
  intro hmem
  rcases loop_cases rp cfg r3.1 now r4 hlast with ⟨_, hp, _⟩ | ⟨_, hr⟩ | ⟨_, he, _⟩ |
    ⟨_, he, hne, _, _, _, hnb⟩
  · rcases start_trigger_cases (opposite d) with hs | hs <;> rw [hs] at hmem
    · exact (only_publish_no_trigger r4.2 hp).2.1 hmem
    · exact (only_publish_no_trigger r4.2 hp).2.2 hmem
  · subst hr
    rcases start_trigger_cases (opposite d) with hs | hs <;> rw [hs] at hmem <;>
      simp [loop_stopping] at hmem
  · rw [he] at hmem
    simp at hmem
  · rw [he] at hmem
    simp only [List.mem_singleton] at hmem
    have hdir : r4.1.current_operation = opposite d := by
      revert hmem hne
      cases r4.1.current_operation <;> cases d <;> simp [start_trigger, opposite]
    apply hnb
    rw [h3.1, h3.2, h2.1, h2.2]
    exact ⟨hdir, hw⟩

theorem c3_run_to_stopping :
    run (round_position (1 / 100)) interlock_config initial_state
        [Input.request (set_position 1), Input.tick 0, Input.request stop_call] =
      some (c3_stopping_state, [[], [Effect.open_trigger], []]) := by
  have h1 : control initial_state (set_position 1) = c1_request_state := by
    norm_num [control, control_set, set_position, initial_state, c1_request_state,
      TARGET_NONE]
  have h2 : loop (round_position (1 / 100)) interlock_config c1_request_state 0 =
      some ({ c1_request_state with
        current_operation := COVER_OPERATION_OPENING
        fsm_state_ := STATE_MOVING }, [Effect.open_trigger]) := by
    norm_num [loop, loop_idle, resolve_direction, compute_direction, initial_state,
      c1_request_state, interlock_config, plain_config, TARGET_NONE, usub]
  have h3 : control { c1_request_state with
        current_operation := COVER_OPERATION_OPENING
        fsm_state_ := STATE_MOVING } stop_call = c3_stopping_state := by
    norm_num [control, stop_call, initial_state, c1_request_state, c3_stopping_state]
  simp only [run, step, h1, h2, h3]

theorem c3_stop_tick :
    loop (round_position (1 / 100)) interlock_config c3_stopping_state 100 =
      some (c3_stopped_state, [Effect.stop_trigger, Effect.publish_state true]) := by
  norm_num [loop, loop_stopping, round_position, initial_state, c3_stopping_state,
    c3_stopped_state, TARGET_NONE]

theorem c3_run_to_cleared :
    run (round_position (1 / 100)) interlock_config c3_stopped_state
        [Input.request stop_call, Input.tick 200, Input.request (set_position 0)] =
      some (c3_cleared_state,
        [[], [Effect.stop_trigger, Effect.publish_state true], []]) := by
  have h1 : control c3_stopped_state stop_call =
      { c3_stopped_state with fsm_state_ := STATE_STOPPING } := by
    norm_num [control, stop_call, initial_state, c3_stopped_state, TARGET_NONE]
  have h2 : loop (round_position (1 / 100)) interlock_config
      { c3_stopped_state with fsm_state_ := STATE_STOPPING } 200 =
      some ({ initial_state with interlocked_time_ := 100 },
        [Effect.stop_trigger, Effect.publish_state true]) := by
    norm_num [loop, loop_stopping, round_position, initial_state, c3_stopped_state,
      TARGET_NONE]
  have h3 : control { initial_state with interlocked_time_ := 100 } (set_position 0) =
      c3_cleared_state := by
    norm_num [control, control_set, set_position, initial_state, c3_cleared_state,
      TARGET_NONE]
  simp only [run, step, h1, h2, h3]

theorem c3_reversal_tick :
    loop (round_position (1 / 100)) interlock_config c3_cleared_state 300 =
      some ({ c3_cleared_state with
        current_operation := COVER_OPERATION_CLOSING
        fsm_state_ := STATE_MOVING
        last_recompute_time_ := 300 }, [Effect.close_trigger]) := by
  norm_num [loop, loop_idle, resolve_direction, compute_direction, initial_state,
    c3_cleared_state, interlock_config, plain_config, TARGET_NONE, usub]

/-- C3, counterexample. The actuator is started in the opening direction and the stopping
tick at clock value 100 ends that run. A second stop request and its stopping tick clear the
interlock direction; the request to close that follows fires the start-closing action at
clock value 300, although `300 - 100` is less than the interlock wait of 1000. -/
theorem C3_reversal_fires_within_wait :
    run (round_position (1 / 100)) interlock_config initial_state
        [Input.request (set_position 1), Input.tick 0, Input.request stop_call] =
      some (c3_stopping_state, [[], [Effect.open_trigger], []]) ∧
    actuator_run COVER_OPERATION_IDLE [[], [Effect.open_trigger], []] =
      COVER_OPERATION_OPENING ∧
    loop (round_position (1 / 100)) interlock_config c3_stopping_state 100 =
      some (c3_stopped_state, [Effect.stop_trigger, Effect.publish_state true]) ∧
    run (round_position (1 / 100)) interlock_config c3_stopped_state
        [Input.request stop_call, Input.tick 200, Input.request (set_position 0)] =
      some (c3_cleared_state,
        [[], [Effect.stop_trigger, Effect.publish_state true], []]) ∧
    loop (round_position (1 / 100)) interlock_config c3_cleared_state 300 =
      some ({ c3_cleared_state with
        current_operation := COVER_OPERATION_CLOSING
        fsm_state_ := STATE_MOVING
        last_recompute_time_ := 300 }, [Effect.close_trigger]) ∧
    usub 300 100 < interlock_config.interlock_wait_time_ ∧
    start_trigger (opposite COVER_OPERATION_OPENING) ∈ [Effect.close_trigger] :=
  ⟨c3_run_to_stopping, rfl, c3_stop_tick, c3_run_to_cleared, c3_reversal_tick, by decide,
    by decide⟩

theorem c3_run_to_deferred :
    run (round_position (1 / 100)) interlock_config c3_stopped_state
        [Input.request (set_position 0), Input.tick 200] =
      some (c3_deferred_state, [[], []]) := by
  have h1 : control c3_stopped_state (set_position 0) =
      { c3_stopped_state with target_position_ := 0 } := by
    norm_num [control, control_set, set_position, initial_state, c3_stopped_state,
      TARGET_NONE]
  have h2 : loop (round_position (1 / 100)) interlock_config
      { c3_stopped_state with target_position_ := 0 } 200 = some (c3_deferred_state, []) := by
    norm_num [loop, loop_idle, resolve_direction, compute_direction, initial_state,
      c3_stopped_state, c3_deferred_state, interlock_config, plain_config, TARGET_NONE, usub]
  simp only [run, step, h1, h2]

theorem c3_deferred_tick :
    loop (round_position (1 / 100)) interlock_config c3_deferred_state 300 =
      some (c3_deferred_state, []) := by
  norm_num [loop, loop_idle, resolve_direction, compute_direction, initial_state,
    c3_deferred_state, interlock_config, plain_config, TARGET_NONE, usub]

/-- C3, witness: the opening run stopped at clock value 100, a request to close and a
deferred tick; the tick at clock value 300 fires no start-closing action. -/
theorem C3_no_reversal_until_next_stop_witness :
    run (round_position (1 / 100)) interlock_config initial_state
        [Input.request (set_position 1), Input.tick 0, Input.request stop_call] =
      some (c3_stopping_state, [[], [Effect.open_trigger], []]) ∧
    loop (round_position (1 / 100)) interlock_config c3_stopping_state 100 =
      some (c3_stopped_state, [Effect.stop_trigger, Effect.publish_state true]) ∧
    run (round_position (1 / 100)) interlock_config c3_stopped_state
        [Input.request (set_position 0), Input.tick 200] =
      some (c3_deferred_state, [[], []]) ∧
    loop (round_position (1 / 100)) interlock_config c3_deferred_state 300 =
      some (c3_deferred_state, []) ∧
    start_trigger (opposite COVER_OPERATION_OPENING) ∉ ([] : List Effect) :=
  ⟨c3_run_to_stopping, c3_stop_tick, c3_run_to_deferred, c3_deferred_tick,
    C3_no_reversal_until_next_stop (round_position (1 / 100)) interlock_config initial_state
      [Input.request (set_position 1), Input.tick 0, Input.request stop_call]
      [Input.request (set_position 0), Input.tick 200] 100 300 COVER_OPERATION_OPENING
      (c3_stopping_state, [[], [Effect.open_trigger], []])
      (c3_stopped_state, [Effect.stop_trigger, Effect.publish_state true])
      (c3_deferred_state, [[], []]) (c3_deferred_state, [])
      c3_run_to_stopping rfl (by decide) c3_stop_tick (by decide) c3_run_to_deferred
      (by decide) c3_deferred_tick (by decide)⟩

/-! ## Phases of the moving branch -/

theorem loop_moving_no_activation (rp : ℚ → ℚ) (cfg : Config) (s : State) (now : Nat)
    (h : s.current_actuator_activation_time_ = 0) :
    loop_moving rp cfg s now =
      loop_inertia rp cfg { s with last_recompute_time_ := now } now
        (usub now s.last_recompute_time_) := by
  unfold loop_moving
  simp only
  rw [if_neg (by rw [h]; exact lt_irrefl 0)]

theorem loop_inertia_skip (rp : ℚ → ℚ) (cfg : Config) (s : State) (now tt : Nat)
    (h : inertia_time cfg s.current_operation = 0) :
    loop_inertia rp cfg s now tt = loop_tilt rp cfg s now tt := by
  unfold loop_inertia
  simp only
  rw [if_neg (by rw [h]; simp)]

theorem loop_tilt_skip (rp : ℚ → ℚ) (cfg : Config) (s : State) (now tt : Nat)
    (h : tilt_time cfg s.current_operation = 0) :
    loop_tilt rp cfg s now tt = loop_position rp cfg s now tt := by
  unfold loop_tilt
  simp only
  rw [if_neg (by rw [h]; simp)]

theorem publish_if_due_now (s : State) (now limit : Nat) (h : s.last_publish_time_ = now) :
    publish_if_due s now limit = (s, []) := by
  unfold publish_if_due
  rw [if_neg (by rw [h, usub_self]; exact Nat.not_lt_zero limit)]

theorem r32_min_one (x : ℚ) : r32 (min 1 (r32 x)) = min 1 (r32 x) := by
  rcases le_total 1 (r32 x) with h | h
  · rw [min_eq_left h, r32_one]
  · rw [min_eq_right h, r32_idem]

/-- The guarded position update of an opening tick, from a binary32 position in `[0,1]`. -/
theorem advance_position_opening (s : State) (tt od : Nat)
    (hop : s.current_operation = COVER_OPERATION_OPENING) (hod : 0 < od)
    (h0 : 0 ≤ s.position) (h1 : s.position ≤ 1) (hf : r32 s.position = s.position) :
    advance_position s tt od =
      some (min 1 (fadd s.position (fdiv (of_uint32 tt) (of_uint32 od)))) := by
  have hstep := fdiv_of_uint32_nonneg tt od
  unfold advance_position
  rw [hop]
  simp only [dir_factor, if_neg opening_ne_closing]
  rw [opening_step]
  rcases lt_or_eq_of_le h1 with hlt | heq
  · rw [if_pos (opening_guard s.position hf hlt), if_neg (by omega)]
    congr 1
    have hx : 0 ≤ fadd s.position (fdiv (of_uint32 tt) (of_uint32 od)) :=
      r32_nonneg _ (by linarith)
    unfold clamp
    rw [if_neg (not_lt.mpr hx)]
    by_cases hgt : 1 < fadd s.position (fdiv (of_uint32 tt) (of_uint32 od))
    · rw [if_pos hgt, min_eq_left hgt.le]
    · rw [if_neg hgt, min_eq_right (not_lt.mp hgt)]
  · have hg : ¬ fmul (fsub s.position (1 / 2)) 1 < 1 / 2 := by
      rw [heq, fmul_one]
      unfold fsub
      norm_num
      rw [r32_half, r32_half]
    rw [if_neg hg]
    congr 1
    have : 1 ≤ fadd s.position (fdiv (of_uint32 tt) (of_uint32 od)) := by
      unfold fadd
      have := r32_mono 1 (s.position + fdiv (of_uint32 tt) (of_uint32 od)) (by linarith)
      rwa [r32_one] at this
    rw [min_eq_left this, heq]

/-- Position phase of an opening move with a positive travel duration and no recalibration
time loaded. -/
theorem loop_position_opening (rp : ℚ → ℚ) (cfg : Config) (s : State) (now tt : Nat)
    (hop : s.current_operation = COVER_OPERATION_OPENING) (hod : 0 < cfg.open_duration_)
    (h0 : 0 ≤ s.position) (h1 : s.position ≤ 1) (hf : r32 s.position = s.position)
    (hrec : s.current_recalibration_time_ = 0) :
    loop_position rp cfg s now tt =
      some (if s.target_position_ ≤
            min 1 (fadd s.position (fdiv (of_uint32 tt) (of_uint32 cfg.open_duration_))) then
          ({ s with
              position :=
                rp (min 1 (fadd s.position (fdiv (of_uint32 tt) (of_uint32 cfg.open_duration_))))
              last_recompute_time_ := now
              target_position_ := TARGET_NONE
              last_publish_time_ := now
              fsm_state_ := STATE_STOPPING }, [])
        else
          publish_if_due
            { s with
              position :=
                min 1 (fadd s.position (fdiv (of_uint32 tt) (of_uint32 cfg.open_duration_))) }
            now 1000) := by
  have hmt : move_time cfg s.current_operation = cfg.open_duration_ := by
    rw [hop]
    simp [move_time]
  unfold loop_position
  rw [hmt, advance_position_opening s tt cfg.open_duration_ hop hod h0 h1 hf]
  simp only
  by_cases hat : s.target_position_ ≤
      min 1 (fadd s.position (fdiv (of_uint32 tt) (of_uint32 cfg.open_duration_)))
  · have hat2 : is_at_target_position_
        { s with
          position :=
            min 1 (fadd s.position (fdiv (of_uint32 tt) (of_uint32 cfg.open_duration_))) }
          = true := by
      simp only [is_at_target_position_, hop]
      exact decide_eq_true hat
    rw [if_pos hat, if_pos hat2]
    simp only [arrive, hrec, lt_irrefl, false_and, if_false]
    rw [publish_if_due_now _ _ _ rfl]
    simp
  · have hat2 : ¬ is_at_target_position_
        { s with
          position :=
            min 1 (fadd s.position (fdiv (of_uint32 tt) (of_uint32 cfg.open_duration_))) }
          = true := by
      simp only [is_at_target_position_, hop]
      simpa using hat
    rw [if_neg hat, if_neg hat2]
    simp

/-! ## The rounded recurrences against the linear laws -/

theorem min_one_add_step (p a b d : ℚ) (hb : 0 ≤ b) (hd : 0 < d) :
    min 1 (min 1 (p + a / d) + b / d) = min 1 (p + (a + b) / d) := by
  have hbd : 0 ≤ b / d := div_nonneg hb hd.le
  rw [add_div]
  by_cases h : p + a / d ≤ 1
  · rw [min_eq_right h, add_assoc]
  · have h2 : 1 ≤ p + a / d := le_of_lt (not_le.mp h)
    rw [min_eq_left h2, min_eq_left (by linarith), min_eq_left (by linarith)]

theorem max_zero_sub_step (a x y d : ℚ) (hy : 0 ≤ y) (hd : 0 < d) :
    max 0 (max 0 (a - x / d) - y / d) = max 0 (a - (x + y) / d) := by
  have hyd : 0 ≤ y / d := div_nonneg hy hd.le
  rw [add_div]
  by_cases h : 0 ≤ a - x / d
  · rw [max_eq_right h, sub_sub]
  · have h2 : a - x / d ≤ 0 := le_of_lt (not_le.mp h)
    rw [max_eq_left h2, max_eq_left (by linarith), max_eq_left (by linarith)]

/-- One rounded opening step against the exact one. -/
theorem opening_step_error (d e : Nat) (v w : ℚ) (hd : 0 < d) (hd24 : d ≤ 16777216)
    (he24 : e ≤ 16777216) (hv0 : 0 ≤ v) (hw0 : 0 ≤ w) :
    |min 1 (fadd v (fdiv (of_uint32 e) (of_uint32 d))) - min 1 (w + (e : ℚ) / d)| ≤
      |v - w| + 1 / 16777216 := by
  have hdq : (0 : ℚ) < d := by exact_mod_cast hd
  have hq0 := fdiv_of_uint32_nonneg e d
  obtain ⟨hlt, hge⟩ := fdiv_error e d hd he24 hd24
  have hvw := abs_nonneg (v - w)
  rcases Nat.lt_or_ge e d with h | h
  · have hqe := hlt h
    have hkey : |min 1 (fadd v (fdiv (of_uint32 e) (of_uint32 d))) -
        min 1 (v + fdiv (of_uint32 e) (of_uint32 d))| ≤ 1 / 33554432 := by
      rcases le_total (v + fdiv (of_uint32 e) (of_uint32 d)) 1 with hs | hs
      · have := r32_error_unit _ (add_nonneg hv0 hq0) hs
        exact le_trans (abs_min_one_sub _ _) this
      · have h1 : 1 ≤ fadd v (fdiv (of_uint32 e) (of_uint32 d)) := by
          unfold fadd
          have := r32_mono 1 _ hs
          rwa [r32_one] at this
        rw [min_eq_left h1, min_eq_left hs, sub_self, abs_zero]
        norm_num
    have h2 := abs_min_one_sub (v + fdiv (of_uint32 e) (of_uint32 d)) (w + (e : ℚ) / d)
    have h3 : |v + fdiv (of_uint32 e) (of_uint32 d) - (w + (e : ℚ) / d)| ≤
        |v - w| + |fdiv (of_uint32 e) (of_uint32 d) - (e : ℚ) / d| := by
      have : v + fdiv (of_uint32 e) (of_uint32 d) - (w + (e : ℚ) / d) =
          (v - w) + (fdiv (of_uint32 e) (of_uint32 d) - (e : ℚ) / d) := by ring
      rw [this]
      exact abs_add _ _
    have h4 := abs_sub_le (min 1 (fadd v (fdiv (of_uint32 e) (of_uint32 d))))
      (min 1 (v + fdiv (of_uint32 e) (of_uint32 d))) (min 1 (w + (e : ℚ) / d))
    linarith
  · have hq1 := hge h
    have h1 : 1 ≤ fadd v (fdiv (of_uint32 e) (of_uint32 d)) := by
      unfold fadd
      have := r32_mono 1 (v + fdiv (of_uint32 e) (of_uint32 d)) (by linarith)
      rwa [r32_one] at this
    have h2 : 1 ≤ w + (e : ℚ) / d := by
      have hed : (1 : ℚ) ≤ (e : ℚ) / d := by
        rw [one_le_div hdq]
        exact_mod_cast h
      linarith
    rw [min_eq_left h1, min_eq_left h2, sub_self, abs_zero]
    linarith

/-- The rounded positions of an opening move stay within `n * 2^-24` of the linear law
after `n` ticks, for a duration and elapsed times up to `2^24` ms. -/
theorem opening_positions_error (d : Nat) (hd : 0 < d) (hd24 : d ≤ 16777216)
    (es : List Nat) :
    ∀ (v w : ℚ), 0 ≤ v → v ≤ 1 → 0 ≤ w → w ≤ 1 → (∀ e ∈ es, e ≤ 16777216) →
      |opening_positions d v es - min 1 (w + ((es.sum : Nat) : ℚ) / d)| ≤
        |v - w| + (es.length : ℚ) / 16777216 := by
  have hdq : (0 : ℚ) < d := by exact_mod_cast hd
  induction es with
  | nil =>
    intro v w _ _ _ hw1 _
    simp only [opening_positions, List.sum_nil, Nat.cast_zero, zero_div, add_zero,
      List.length_nil]
    rw [min_eq_right hw1]
  | cons e rest ih =>
    intro v w hv0 hv1 hw0 hw1 hes
    have hstep := opening_step_error d e v w hd hd24 (hes e (by simp)) hv0 hw0
    have hih := ih (min 1 (fadd v (fdiv (of_uint32 e) (of_uint32 d)))) (min 1 (w + (e : ℚ) / d))
      (le_min (by norm_num) (r32_nonneg _ (add_nonneg hv0 (fdiv_of_uint32_nonneg e d))))
      (min_le_left _ _)
      (le_min (by norm_num) (add_nonneg hw0 (div_nonneg (Nat.cast_nonneg e) hdq.le)))
      (min_le_left _ _) (fun x hx => hes x (by simp [hx]))
    rw [min_one_add_step _ _ _ _ (Nat.cast_nonneg _) hdq] at hih
    simp only [opening_positions, List.sum_cons, List.length_cons]
    simp only [Nat.cast_add, Nat.cast_one]
    have : ((rest.length : ℚ) + 1) / 16777216 = (rest.length : ℚ) / 16777216 + 1 / 16777216 := by
      ring
    rw [this]
    linarith

/-- One rounded closing step against the exact one. -/
theorem closing_step_error (d e : Nat) (a w : ℚ) (hd : 0 < d) (hd24 : d ≤ 16777216)
    (he24 : e ≤ 16777216) (ha1 : a ≤ 1) (hw1 : w ≤ 1) :
    |max 0 (fsub a (fdiv (of_uint32 e) (of_uint32 d))) - max 0 (w - (e : ℚ) / d)| ≤
      |a - w| + 1 / 16777216 := by
  have hdq : (0 : ℚ) < d := by exact_mod_cast hd
  have hq0 := fdiv_of_uint32_nonneg e d
  obtain ⟨hlt, hge⟩ := fdiv_error e d hd he24 hd24
  have hvw := abs_nonneg (a - w)
  rcases Nat.lt_or_ge e d with h | h
  · have hqe := hlt h
    have hkey : |max 0 (fsub a (fdiv (of_uint32 e) (of_uint32 d))) -
        max 0 (a - fdiv (of_uint32 e) (of_uint32 d))| ≤ 1 / 33554432 := by
      rcases le_total 0 (a - fdiv (of_uint32 e) (of_uint32 d)) with hs | hs
      · have := r32_error_unit _ hs (by linarith)
        exact le_trans (abs_max_zero_sub _ _) this
      · have h1 : fsub a (fdiv (of_uint32 e) (of_uint32 d)) ≤ 0 := by
          unfold fsub
          exact r32_nonpos _ hs
        rw [max_eq_left h1, max_eq_left hs, sub_self, abs_zero]
        norm_num
    have h2 := abs_max_zero_sub (a - fdiv (of_uint32 e) (of_uint32 d)) (w - (e : ℚ) / d)
    have h3 : |a - fdiv (of_uint32 e) (of_uint32 d) - (w - (e : ℚ) / d)| ≤
        |a - w| + |fdiv (of_uint32 e) (of_uint32 d) - (e : ℚ) / d| := by
      have : a - fdiv (of_uint32 e) (of_uint32 d) - (w - (e : ℚ) / d) =
          (a - w) + -(fdiv (of_uint32 e) (of_uint32 d) - (e : ℚ) / d) := by ring
      rw [this]
      have := abs_add (a - w) (-(fdiv (of_uint32 e) (of_uint32 d) - (e : ℚ) / d))
      rwa [abs_neg] at this
    have h4 := abs_sub_le (max 0 (fsub a (fdiv (of_uint32 e) (of_uint32 d))))
      (max 0 (a - fdiv (of_uint32 e) (of_uint32 d))) (max 0 (w - (e : ℚ) / d))
    linarith
  · have hq1 := hge h
    have h1 : fsub a (fdiv (of_uint32 e) (of_uint32 d)) ≤ 0 := by
      unfold fsub
      exact r32_nonpos _ (by linarith)
    have h2 : w - (e : ℚ) / d ≤ 0 := by
      have hed : (1 : ℚ) ≤ (e : ℚ) / d := by
        rw [one_le_div hdq]
        exact_mod_cast h
      linarith
    rw [max_eq_left h1, max_eq_left h2, sub_self, abs_zero]
    linarith

/-- The rounded tilts of a closing move stay within `n * 2^-24` of the linear law after `n`
ticks, for a duration and elapsed times up to `2^24` ms. -/
theorem closing_tilts_error (d : Nat) (hd : 0 < d) (hd24 : d ≤ 16777216)
    (es : List Nat) :
    ∀ (a w : ℚ), 0 ≤ a → a ≤ 1 → 0 ≤ w → w ≤ 1 → (∀ e ∈ es, e ≤ 16777216) →
      |closing_tilts d a es - max 0 (w - ((es.sum : Nat) : ℚ) / d)| ≤
        |a - w| + (es.length : ℚ) / 16777216 := by
  have hdq : (0 : ℚ) < d := by exact_mod_cast hd
  induction es with
  | nil =>
    intro a w _ _ hw0 _ _
    simp only [closing_tilts, List.sum_nil, Nat.cast_zero, zero_div, sub_zero,
      List.length_nil, add_zero]
    rw [max_eq_right hw0]
  | cons e rest ih =>
    intro a w ha0 ha1 hw0 hw1 hes
    have hstep := closing_step_error d e a w hd hd24 (hes e (by simp)) ha1 hw1
    have hq0 := fdiv_of_uint32_nonneg e d
    have hih := ih (max 0 (fsub a (fdiv (of_uint32 e) (of_uint32 d)))) (max 0 (w - (e : ℚ) / d))
      (le_max_left _ _)
      (max_le (by norm_num) (by
        unfold fsub
        have := r32_mono (a - fdiv (of_uint32 e) (of_uint32 d)) 1 (by linarith)
        rwa [r32_one] at this))
      (le_max_left _ _)
      (max_le (by norm_num) (by
        have := div_nonneg (Nat.cast_nonneg e) hdq.le
        linarith))
      (fun x hx => hes x (by simp [hx]))
    rw [max_zero_sub_step _ _ _ _ (Nat.cast_nonneg _) hdq] at hih
    simp only [closing_tilts, List.sum_cons, List.length_cons]
    simp only [Nat.cast_add, Nat.cast_one]
    have : ((rest.length : ℚ) + 1) / 16777216 = (rest.length : ℚ) / 16777216 + 1 / 16777216 := by
      ring
    rw [this]
    linarith

/-! ## C4: position integration of an opening move -/

theorem publish_if_due_fields (s : State) (now limit : Nat) :
    (publish_if_due s now limit).1 =
      { s with last_publish_time_ := (publish_if_due s now limit).1.last_publish_time_ } := by
  unfold publish_if_due
  split_ifs <;> rfl

/-- One tick of a plain opening move. -/
theorem opening_tick (rp : ℚ → ℚ) (cfg : Config) (s : State) (tp : ℚ) (t e : Nat)
    (hod : 0 < cfg.open_duration_) (htilt : cfg.tilt_open_duration_ = 0)
    (hin : cfg.inertia_open_time_ = 0) (hm : opening_in_flight s tp t)
    (h0 : 0 ≤ s.position) (h1 : s.position ≤ 1) (hf : r32 s.position = s.position)
    (he : e < 4294967296) :
    ∃ r, loop rp cfg s (t + e) = some r ∧
      (opening_positions cfg.open_duration_ s.position [e] < tp →
        opening_in_flight r.1 tp (t + e) ∧
          r.1.position = opening_positions cfg.open_duration_ s.position [e]) ∧
      (tp ≤ opening_positions cfg.open_duration_ s.position [e] →
        r.1.fsm_state_ = STATE_STOPPING ∧
          r.1.position = rp (opening_positions cfg.open_duration_ s.position [e]) ∧
          r.1.target_position_ = TARGET_NONE) := by
  obtain ⟨hfsm, hop, htp, hact, hrec, hlast⟩ := hm
  have hloop : loop rp cfg s (t + e) =
      loop_position rp cfg { s with last_recompute_time_ := t + e } (t + e) e := by
    rw [loop_of_moving rp cfg s _ hfsm, loop_moving_no_activation rp cfg s _ hact,
      loop_inertia_skip rp cfg _ _ _ (by simp [inertia_time, hop, hin]),
      loop_tilt_skip rp cfg _ _ _ (by simp [tilt_time, hop, htilt]), hlast,
      usub_add_left t e he]
  rw [hloop, loop_position_opening rp cfg { s with last_recompute_time_ := t + e } (t + e) e
    hop hod h0 h1 hf hrec]
  simp only [opening_positions]
  refine ⟨_, rfl, ?_, ?_⟩
  · intro hlt
    rw [if_neg (by simp only [htp]; exact not_le.mpr hlt)]
    rw [publish_if_due_fields]
    exact ⟨⟨hfsm, hop, htp, hact, hrec, rfl⟩, rfl⟩
  · intro hge
    rw [if_pos (by simp only [htp]; exact hge)]
    exact ⟨rfl, rfl, rfl⟩

/-- The moving ticks of a plain opening move, by induction on the elapsed times. -/
theorem opening_ticks (rp : ℚ → ℚ) (cfg : Config) (tp : ℚ)
    (hod : 0 < cfg.open_duration_) (htilt : cfg.tilt_open_duration_ = 0)
    (hin : cfg.inertia_open_time_ = 0) (es : List Nat) :
    ∀ (s : State) (t : Nat), opening_in_flight s tp t → 0 ≤ s.position → s.position ≤ 1 →
      r32 s.position = s.position →
      s.position < tp → (∀ e ∈ es, e < 4294967296) →
      (∀ k < es.length, opening_positions cfg.open_duration_ s.position (es.take k) < tp) →
      ∃ r, run rp cfg s ((clock_values t es).map Input.tick) = some r ∧
        (opening_positions cfg.open_duration_ s.position es < tp →
          r.1.fsm_state_ = STATE_MOVING ∧ r.1.target_position_ = tp ∧
            r.1.position = opening_positions cfg.open_duration_ s.position es) ∧
        (tp ≤ opening_positions cfg.open_duration_ s.position es →
          r.1.fsm_state_ = STATE_STOPPING ∧ r.1.target_position_ = TARGET_NONE ∧
            r.1.position = rp (opening_positions cfg.open_duration_ s.position es)) := by
  induction es with
  | nil =>
    intro s t hm h0 h1 _ hlt _ _
    refine ⟨(s, []), rfl, ?_, ?_⟩
    · intro _
      exact ⟨hm.1, hm.2.2.1, rfl⟩
    · intro hge
      exact absurd hlt (not_lt.mpr hge)
  | cons e rest ih =>
    intro s t hm h0 h1 hf hlt hes hearlier
    obtain ⟨r1, hr1, hmove, harrive⟩ := opening_tick rp cfg s tp t e hod htilt hin hm h0 h1 hf
      (hes e (by simp))
    simp only [opening_positions] at hmove harrive ⊢
    have hp1 : (0 : ℚ) ≤
        min 1 (fadd s.position (fdiv (of_uint32 e) (of_uint32 cfg.open_duration_))) :=
      le_min (by norm_num) (r32_nonneg _ (add_nonneg h0 (fdiv_of_uint32_nonneg _ _)))
    by_cases hc : min 1 (fadd s.position (fdiv (of_uint32 e) (of_uint32 cfg.open_duration_)))
        < tp
    · obtain ⟨hm1, hpos1⟩ := hmove hc
      obtain ⟨r, hr, h2, h3⟩ := ih r1.1 (t + e) hm1 (by rw [hpos1]; exact hp1)
        (by rw [hpos1]; exact min_le_left _ _)
        (by rw [hpos1]; exact r32_min_one _) (by rw [hpos1]; exact hc)
        (fun x hx => hes x (by simp [hx]))
        (by
          intro k hk
          have := hearlier (k + 1) (by simp; omega)
          rw [hpos1]
          simpa [opening_positions] using this)
      rw [hpos1] at h2 h3
      refine ⟨(r.1, r1.2 :: r.2), ?_, h2, h3⟩
      simp only [clock_values, List.map_cons, run, step, hr1, hr]
    · have hrest : rest = [] := by
        by_contra hne
        have := hearlier 1 (by
          simp only [List.length_cons]
          have : 0 < rest.length := List.length_pos.mpr hne
          omega)
        simp only [List.take_succ_cons, List.take_zero, opening_positions] at this
        exact hc this
      subst hrest
      obtain ⟨hf1, hpos, htarget⟩ := harrive (not_lt.mp hc)
      refine ⟨(r1.1, [r1.2]), ?_, ?_, ?_⟩
      · simp only [clock_values, List.map_cons, List.map_nil, run, step, hr1]
      · intro hlt2
        simp only [opening_positions] at hlt2
        exact absurd hlt2 hc
      · intro _
        simp only [opening_positions]
        exact ⟨hf1, htarget, hpos⟩

theorem control_set_position_idle (s : State) (tp : ℚ) (hidle : s.fsm_state_ = STATE_IDLE) :
    control s (set_position tp) =
      { s with target_position_ := tp, target_tilt_ := TARGET_NONE } := by
  simp [control, control_set, set_position, hidle]

theorem control_set_tilt_idle (s : State) (tt : ℚ) (hidle : s.fsm_state_ = STATE_IDLE) :
    control s (set_tilt tt) =
      { s with target_position_ := TARGET_NONE, target_tilt_ := tt } := by
  simp [control, control_set, set_tilt, hidle]

/-- The start tick of an opening move toward a position target. -/
theorem loop_start_opening (rp : ℚ → ℚ) (cfg : Config) (s : State) (t0 : Nat)
    (hidle : s.fsm_state_ = STATE_IDLE) (hne : s.target_position_ ≠ TARGET_NONE)
    (hlt : s.position < s.target_position_)
    (hfree : ¬(s.interlocked_direction_ = COVER_OPERATION_OPENING ∧
      usub t0 s.interlocked_time_ < cfg.interlock_wait_time_)) :
    loop rp cfg s t0 =
      some ({ s with
          current_operation := COVER_OPERATION_OPENING
          current_recalibration_time_ := cfg.recalibration_open_time_
          current_actuator_activation_time_ := cfg.actuator_activation_open_time_
          last_recompute_time_ := t0
          fsm_state_ := STATE_MOVING }, [Effect.open_trigger]) := by
  rw [loop_of_idle_pending rp cfg s t0 hidle (Or.inl hne)]
  unfold loop_idle
  simp only [resolve_direction_opening s hne hlt]
  rw [if_neg (by simp), if_neg (by
    intro h
    exact hfree ⟨h.1.symm, h.2⟩)]
  simp

/-- C4, counterexample: `open_duration = 10000`, from position 0 toward target 1, one
hundred moving ticks of 100 ms. The elapsed times sum to 10000 ms, for which the claim gives
position `min(1, 0 + 10000/10000) = 1` and the end of the move; the hundred rounded steps sum
to `16777205/16777216` and the machine is still Moving. -/
theorem C4_rounded_steps_fall_short :
    (run (round_position (1 / 100)) (plain_config 10000 10000) c4_closed_state
        (Input.request (set_position 1) :: Input.tick 0 ::
          (clock_values 0 (List.replicate 100 100)).map Input.tick)).map
      (fun r => (r.1.fsm_state_, r.1.position)) = some (STATE_MOVING, 16777205 / 16777216) ∧
    (16777205 / 16777216 : ℚ) ≠
      min 1 (c4_closed_state.position +
        (((List.replicate 100 100).sum : Nat) : ℚ) / (10000 : ℚ)) := by
  constructor
  · decide!
  · decide!

/-- C4, amended. With no tilt, inertia, actuator-activation or recalibration time configured
for the opening direction and `open_duration > 0`, an opening move from a binary32 position
`p0` in `[0,1]` toward a target `tp` is started at clock value `t0` and followed by moving
ticks with elapsed times `es`, the target not being reached before the last of them. Each
tick replaces the position `p` by `min(1, p ⊕ (e ⊘ open_duration))`, sum and quotient rounded
to binary32; let `v` be the value after all of `es`. If `v < tp` the machine is Moving with
position `v`; if `v ≥ tp` the machine is Stopping with the target cleared and position
`round_position(v)`, and the next tick leaves it Idle, the position being rounded once
more. For `open_duration` and elapsed times up to `2^24` ms, `v` differs from the linear law
`min(1, p0 + sum(es) / open_duration)` by at most `n * 2^-24`, `n` the number of ticks. -/
theorem C4_position_integration_in_binary32 (rp : ℚ → ℚ) (cfg : Config) (s : State) (tp : ℚ)
    (t0 : Nat) (es : List Nat)
    (hod : 0 < cfg.open_duration_) (htilt : cfg.tilt_open_duration_ = 0)
    (hin : cfg.inertia_open_time_ = 0) (hact : cfg.actuator_activation_open_time_ = 0)
    (hrec : cfg.recalibration_open_time_ = 0)
    (hidle : s.fsm_state_ = STATE_IDLE) (h0 : 0 ≤ s.position) (h1 : s.position ≤ 1)
    (hf : r32 s.position = s.position) (htp : s.position < tp)
    (hfree : ¬(s.interlocked_direction_ = COVER_OPERATION_OPENING ∧
      usub t0 s.interlocked_time_ < cfg.interlock_wait_time_))
    (hes : ∀ e ∈ es, e < 4294967296)
    (hearlier : ∀ k < es.length,
      opening_positions cfg.open_duration_ s.position (es.take k) < tp) :
    (∃ r, run rp cfg s (Input.request (set_position tp) :: Input.tick t0 ::
          (clock_values t0 es).map Input.tick) = some r ∧
      (opening_positions cfg.open_duration_ s.position es < tp →
        r.1.fsm_state_ = STATE_MOVING ∧ r.1.target_position_ = tp ∧
          r.1.position = opening_positions cfg.open_duration_ s.position es) ∧
      (tp ≤ opening_positions cfg.open_duration_ s.position es →
        r.1.fsm_state_ = STATE_STOPPING ∧ r.1.target_position_ = TARGET_NONE ∧
          r.1.position = rp (opening_positions cfg.open_duration_ s.position es) ∧
          ∀ now, ∃ r2, loop rp cfg r.1 now = some r2 ∧ r2.1.fsm_state_ = STATE_IDLE ∧
            r2.1.position = rp r.1.position)) ∧
    (cfg.open_duration_ ≤ 16777216 → (∀ e ∈ es, e ≤ 16777216) →
      |opening_positions cfg.open_duration_ s.position es -
          min 1 (s.position + ((es.sum : Nat) : ℚ) / cfg.open_duration_)| ≤
        (es.length : ℚ) / 16777216) := by
  have hne : tp ≠ TARGET_NONE := by
    intro h
    rw [h] at htp
    unfold TARGET_NONE at htp
    linarith
  have hstart := loop_start_opening rp cfg
    { s with target_position_ := tp, target_tilt_ := TARGET_NONE } t0 hidle hne htp hfree
  obtain ⟨r, hr, hmove, harrive⟩ := opening_ticks rp cfg tp hod htilt hin es
    { s with
      target_position_ := tp
      target_tilt_ := TARGET_NONE
      current_operation := COVER_OPERATION_OPENING
      current_recalibration_time_ := cfg.recalibration_open_time_
      current_actuator_activation_time_ := cfg.actuator_activation_open_time_
      last_recompute_time_ := t0
      fsm_state_ := STATE_MOVING } t0 ⟨rfl, rfl, rfl, hact, hrec, rfl⟩ h0 h1 hf htp hes hearlier
  refine ⟨⟨(r.1, [] :: [Effect.open_trigger] :: r.2), ?_, hmove, ?_⟩, ?_⟩
  · simp only [run, step, control_set_position_idle s tp hidle, hstart, hr]
  · intro hge
    obtain ⟨hf, ht, hp⟩ := harrive hge
    refine ⟨hf, ht, hp, fun now => ⟨_, loop_of_stopping rp cfg r.1 now hf, ?_, ?_⟩⟩
    · simp [loop_stopping]
    · unfold loop_stopping
      split_ifs <;> rfl
  · intro hod24 hes24
    have hb := opening_positions_error cfg.open_duration_ hod hod24 es s.position s.position
      h0 h1 h0 h1 hes24
    rw [sub_self s.position, abs_zero, zero_add] at hb
    exact hb

/-- C4, witness: `open_duration = 10000`, from position 0 toward target 1. After one moving
tick of 5000 ms the machine is Moving with position 0.5; after a second one it is Stopping
with position 1, and the next tick leaves it Idle with position 1. After one hundred moving
ticks of 100 ms the rounded position is within `100 * 2^-24` of the linear law. -/
theorem C4_position_integration_in_binary32_witness :
    (∃ r, run (round_position (1 / 100)) (plain_config 10000 10000) c4_closed_state
        [Input.request (set_position 1), Input.tick 0, Input.tick 5000] = some r ∧
      r.1.fsm_state_ = STATE_MOVING ∧ r.1.position = 1 / 2) ∧
    (∃ r, run (round_position (1 / 100)) (plain_config 10000 10000) c4_closed_state
        [Input.request (set_position 1), Input.tick 0, Input.tick 5000, Input.tick 10000] =
          some r ∧
      r.1.fsm_state_ = STATE_STOPPING ∧ r.1.position = 1 ∧
      ∀ now, ∃ r2, loop (round_position (1 / 100)) (plain_config 10000 10000) r.1 now =
          some r2 ∧ r2.1.fsm_state_ = STATE_IDLE ∧ r2.1.position = 1) ∧
    |opening_positions (plain_config 10000 10000).open_duration_ c4_closed_state.position
          (List.replicate 100 100) -
        min 1 (c4_closed_state.position + (((List.replicate 100 100).sum : Nat) : ℚ) /
          (plain_config 10000 10000).open_duration_)| ≤
      ((List.replicate 100 100).length : ℚ) / 16777216 := by
  have hfree : ¬(c4_closed_state.interlocked_direction_ = COVER_OPERATION_OPENING ∧
      usub 0 c4_closed_state.interlocked_time_ <
        (plain_config 10000 10000).interlock_wait_time_) := by
    decide
  have hv1 : opening_positions (plain_config 10000 10000).open_duration_
      c4_closed_state.position [5000] = 1 / 2 := by decide!
  have hv2 : opening_positions (plain_config 10000 10000).open_duration_
      c4_closed_state.position [5000, 5000] = 1 := by decide!
  have hr1 : round_position (1 / 100) 1 = 1 := by decide!
  refine ⟨?_, ?_, ?_⟩
  · obtain ⟨⟨r, hr, hmove, _⟩, _⟩ := C4_position_integration_in_binary32
      (round_position (1 / 100))
      (plain_config 10000 10000) c4_closed_state 1 0 [5000] (by decide) rfl rfl rfl rfl rfl
      (by decide!) (by decide!) (by decide!) (by decide!) hfree (by decide) (by decide!)
    rw [hv1] at hmove
    obtain ⟨hf, _, hp⟩ := hmove (by norm_num)
    exact ⟨r, hr, hf, hp⟩
  · obtain ⟨⟨r, hr, _, harrive⟩, _⟩ := C4_position_integration_in_binary32
      (round_position (1 / 100)) (plain_config 10000 10000) c4_closed_state 1 0 [5000, 5000]
      (by decide) rfl rfl rfl rfl rfl (by decide!) (by decide!) (by decide!) (by decide!)
      hfree (by decide) (by decide!)
    rw [hv2] at harrive
    obtain ⟨hf, _, hp, hnext⟩ := harrive (le_refl 1)
    rw [hr1] at hp
    refine ⟨r, hr, hf, hp, fun now => ?_⟩
    obtain ⟨r2, hr2, hf2, hp2⟩ := hnext now
    rw [hp, hr1] at hp2
    exact ⟨r2, hr2, hf2, hp2⟩
  · exact (C4_position_integration_in_binary32 (round_position (1 / 100))
      (plain_config 10000 10000) c4_closed_state 1 0 (List.replicate 100 100)
      (by decide) rfl rfl rfl rfl rfl (by decide!) (by decide!) (by decide!) (by decide!)
      hfree (by decide) (by decide!)).2 (by decide) (by decide)

/-! ## C5: a tilt-only move leaves the position unchanged -/

theorem arrive_fsm (cfg : Config) (s : State) :
    (arrive cfg s).1.fsm_state_ = STATE_STOPPING ∨
      (arrive cfg s).1.fsm_state_ = STATE_CALIBRATING :=
  (arrive_frame cfg s).2.2

/-- A tilt in `[0,1]` after its step leaves no rest for the position phase. -/
theorem tilt_rest_zero (t1 : ℚ) (h0 : 0 ≤ t1) (h1 : t1 ≤ 1) :
    fsub (fsub t1 (1 / 2)) (clamp (fsub t1 (1 / 2)) (-1 / 2) (1 / 2)) = 0 := by
  have hlo : -1 / 2 ≤ fsub t1 (1 / 2) := by
    unfold fsub
    have := r32_mono (-1 / 2) (t1 - 1 / 2) (by linarith)
    rwa [r32_neg_half] at this
  have hhi : fsub t1 (1 / 2) ≤ 1 / 2 := by
    unfold fsub
    have := r32_mono (t1 - 1 / 2) (1 / 2) (by linarith)
    rwa [r32_half] at this
  rw [clamp_eq_self _ _ _ hlo hhi]
  unfold fsub
  rw [sub_self, r32_zero]

/-- Tilt phase of a tilt-only move whose tilt is clear of the closed end: the tick ends in
the tilt phase, either at the target or with the tilt still short of it. -/
theorem loop_tilt_tilt_only (rp : ℚ → ℚ) (cfg : Config) (s : State) (now x : Nat) (p tt : ℚ)
    (hto : 0 < cfg.tilt_open_duration_) (htc : 0 < cfg.tilt_close_duration_)
    (htt0 : 0 ≤ tt) (htt1 : tt ≤ 1) (hm : tilt_only_moving p tt s)
    (hclear : s.current_operation = COVER_OPERATION_CLOSING → 1 / 67108864 < s.tilt) :
    ∃ r, loop_tilt rp cfg s now x = some r ∧ tilt_only_move p tt r.1 := by
  obtain ⟨hp, hfsm, htp, htt, ht0, ht1, hfl, hdir⟩ := hm
  have hT : 0 < tilt_time cfg s.current_operation := by
    unfold tilt_time
    split_ifs <;> assumption
  have hq := fdiv_of_uint32_nonneg x (tilt_time cfg s.current_operation)
  have hguard : fmul (fsub s.tilt (1 / 2)) (dir_factor s.current_operation) < 1 / 2 := by
    rcases hdir with ⟨hop, h⟩ | ⟨hop, h⟩
    · rw [hop]
      simp only [dir_factor, if_neg opening_ne_closing]
      exact opening_guard s.tilt hfl (lt_of_lt_of_le h htt1)
    · rw [hop]
      simp only [dir_factor, if_true]
      rw [hop] at hclear
      exact closing_guard s.tilt (hclear rfl)
  unfold loop_tilt
  simp only
  rw [if_pos ⟨hT, hguard⟩]
  generalize ht1def : fadd s.tilt (fdiv (fmul (dir_factor s.current_operation) (of_uint32 x))
    (of_uint32 (tilt_time cfg s.current_operation))) = t1
  have ht1f : r32 t1 = t1 := by
    rw [← ht1def]
    unfold fadd
    exact r32_idem _
  by_cases hat : s.target_position_ = TARGET_NONE ∧
      is_at_target_tilt_ { s with tilt := clamp t1 0 1 } = true
  · rw [if_pos hat]
    refine ⟨_, rfl, Or.inr (Or.inr ⟨?_, arrive_fsm cfg _⟩)⟩
    rw [arrive_position]
    exact hp
  · rw [if_neg hat]
    have hnot : ¬ is_at_target_tilt_ { s with tilt := clamp t1 0 1 } = true :=
      fun h => hat ⟨htp, h⟩
    have hkey : (0 ≤ t1 ∧ t1 ≤ 1) ∧
        ((s.current_operation = COVER_OPERATION_OPENING ∧ clamp t1 0 1 < tt) ∨
          (s.current_operation = COVER_OPERATION_CLOSING ∧ tt < clamp t1 0 1)) := by
      rcases hdir with ⟨hop, h⟩ | ⟨hop, h⟩
      · simp only [is_at_target_tilt_, hop, htt, decide_eq_true_eq, ge_iff_le, not_le] at hnot
        have h0 : 0 ≤ t1 := by
          rw [← ht1def, hop]
          simp only [dir_factor, if_neg opening_ne_closing]
          rw [opening_step]
          rw [hop] at hq
          exact r32_nonneg _ (by linarith)
        have hlt1 : t1 < 1 := by
          by_contra hge
          unfold clamp at hnot
          rw [if_neg (not_lt.mpr h0)] at hnot
          by_cases h1 : 1 < t1
          · rw [if_pos h1] at hnot
            linarith
          · rw [if_neg h1] at hnot
            linarith
        exact ⟨⟨h0, hlt1.le⟩, Or.inl ⟨hop, hnot⟩⟩
      · simp only [is_at_target_tilt_, hop, htt, decide_eq_true_eq, not_le] at hnot
        have h1 : t1 ≤ 1 := by
          rw [← ht1def, hop]
          simp only [dir_factor, if_true]
          rw [closing_step]
          rw [hop] at hq
          unfold fadd
          have := r32_mono (s.tilt + -fdiv (of_uint32 x)
            (of_uint32 (tilt_time cfg COVER_OPERATION_CLOSING))) 1 (by linarith)
          rwa [r32_one] at this
        have hgt0 : 0 < t1 := by
          by_contra hle
          unfold clamp at hnot
          by_cases h0 : t1 < 0
          · rw [if_pos h0] at hnot
            linarith
          · have : t1 = 0 := by linarith
            rw [this] at hnot
            norm_num at hnot
            linarith
        exact ⟨⟨hgt0.le, h1⟩, Or.inr ⟨hop, hnot⟩⟩
    rw [if_pos (tilt_rest_zero t1 hkey.1.1 hkey.1.2)]
    refine ⟨_, rfl, Or.inr (Or.inl ?_)⟩
    rw [publish_if_due_fields]
    refine ⟨hp, hfsm, htp, htt, clamp_ge _ _ _ (by norm_num), clamp_le _ _ _ (by norm_num),
      ?_, hkey.2⟩
    show r32 (clamp t1 0 1) = clamp t1 0 1
    rw [clamp_eq_self _ _ _ hkey.1.1 hkey.1.2]
    exact ht1f

theorem loop_inertia_tilt_only (rp : ℚ → ℚ) (cfg : Config) (s : State) (now x : Nat)
    (p tt : ℚ) (hto : 0 < cfg.tilt_open_duration_) (htc : 0 < cfg.tilt_close_duration_)
    (htt0 : 0 ≤ tt) (htt1 : tt ≤ 1) (hm : tilt_only_moving p tt s)
    (hclear : s.current_operation = COVER_OPERATION_CLOSING → 1 / 67108864 < s.tilt) :
    ∃ r, loop_inertia rp cfg s now x = some r ∧ tilt_only_move p tt r.1 := by
  unfold loop_inertia
  simp only
  split_ifs
  · exact ⟨_, rfl, Or.inr (Or.inl hm)⟩
  · exact loop_tilt_tilt_only rp cfg _ now _ p tt hto htc htt0 htt1 hm hclear
  · exact loop_tilt_tilt_only rp cfg s now x p tt hto htc htt0 htt1 hm hclear

theorem loop_moving_tilt_only (rp : ℚ → ℚ) (cfg : Config) (s : State) (now : Nat)
    (p tt : ℚ) (hto : 0 < cfg.tilt_open_duration_) (htc : 0 < cfg.tilt_close_duration_)
    (htt0 : 0 ≤ tt) (htt1 : tt ≤ 1) (hm : tilt_only_moving p tt s)
    (hclear : s.current_operation = COVER_OPERATION_CLOSING → 1 / 67108864 < s.tilt) :
    ∃ r, loop_moving rp cfg s now = some r ∧ tilt_only_move p tt r.1 := by
  unfold loop_moving
  simp only
  split_ifs
  · exact ⟨_, rfl, Or.inr (Or.inl hm)⟩
  · exact loop_inertia_tilt_only rp cfg _ now _ p tt hto htc htt0 htt1 hm hclear
  · exact loop_inertia_tilt_only rp cfg _ now _ p tt hto htc htt0 htt1 hm hclear

theorem compute_direction_self (a : ℚ) : compute_direction a a = COVER_OPERATION_IDLE := by
  simp [compute_direction]

theorem compute_direction_cases (a b : ℚ) (h : a ≠ b) :
    (compute_direction a b = COVER_OPERATION_OPENING ∧ b < a) ∨
      (compute_direction a b = COVER_OPERATION_CLOSING ∧ a < b) := by
  unfold compute_direction
  rcases lt_or_gt_of_ne h with h1 | h1
  · right
    rw [if_neg (by simp only [gt_iff_lt, not_lt]; exact h1.le), if_pos h1]
    exact ⟨rfl, h1⟩
  · left
    rw [if_pos h1]
    exact ⟨rfl, h1⟩

/-- Direction resolution for a tilt-only request: the position target, if any, is cleared
and the direction is that of the tilt target. -/
theorem resolve_direction_tilt_only (s : State)
    (hpos : s.target_position_ = TARGET_NONE ∨ s.target_position_ = s.position)
    (htilt : s.target_tilt_ ≠ TARGET_NONE) :
    resolve_direction s =
      { s with
        target_position_ := TARGET_NONE
        current_operation := compute_direction s.target_tilt_ s.tilt } := by
  unfold resolve_direction
  simp only
  by_cases h : s.target_position_ = TARGET_NONE
  · rw [if_neg (by simp [h])]
    obtain ⟨_, _, _, _, _, _, _, _, _, _, _, _, _, _⟩ := s
    simp only at h
    subst h
    rfl
  · have heq : s.target_position_ = s.position := hpos.resolve_left h
    rw [if_pos h, heq, compute_direction_self, if_pos rfl, if_pos htilt]

/-- A tick of a tilt-only move that has not arrived, and whose tilt is clear of the closed
end, keeps the move and the position. -/
theorem loop_tilt_only_move (rp : ℚ → ℚ) (cfg : Config) (s : State) (now : Nat) (p tt : ℚ)
    (hto : 0 < cfg.tilt_open_duration_) (htc : 0 < cfg.tilt_close_duration_)
    (htt0 : 0 ≤ tt) (htt1 : tt ≤ 1)
    (hm : tilt_only_idle p tt s ∨ tilt_only_moving p tt s)
    (hclear : s.fsm_state_ = STATE_MOVING → s.current_operation = COVER_OPERATION_CLOSING →
      1 / 67108864 < s.tilt) :
    ∃ r, loop rp cfg s now = some r ∧ tilt_only_move p tt r.1 := by
  have hnone : tt ≠ TARGET_NONE := by
    intro h
    rw [h] at htt0
    unfold TARGET_NONE at htt0
    linarith
  rcases hm with hi | hmv
  · obtain ⟨hp, hfsm, htp, htt, hne, ht0, ht1, hfl⟩ := hi
    have htn : s.target_tilt_ ≠ TARGET_NONE := by
      rw [htt]
      exact hnone
    rw [loop_of_idle_pending rp cfg s now hfsm (Or.inr htn)]
    refine ⟨_, rfl, ?_⟩
    unfold loop_idle
    simp only [resolve_direction_tilt_only s htp htn, htt]
    rcases compute_direction_cases tt s.tilt hne with ⟨hd, hlt⟩ | ⟨hd, hlt⟩
    · rw [hd, if_neg opening_ne_idle]
      by_cases hb : COVER_OPERATION_OPENING = s.interlocked_direction_ ∧
          usub now s.interlocked_time_ < cfg.interlock_wait_time_
      · rw [if_pos hb]
        exact Or.inl ⟨hp, hfsm, Or.inl rfl, rfl, hne, ht0, ht1, hfl⟩
      · rw [if_neg hb]
        exact Or.inr (Or.inl ⟨hp, rfl, rfl, rfl, ht0, ht1, hfl, Or.inl ⟨rfl, hlt⟩⟩)
    · rw [hd, if_neg closing_ne_idle]
      by_cases hb : COVER_OPERATION_CLOSING = s.interlocked_direction_ ∧
          usub now s.interlocked_time_ < cfg.interlock_wait_time_
      · rw [if_pos hb]
        exact Or.inl ⟨hp, hfsm, Or.inl rfl, rfl, hne, ht0, ht1, hfl⟩
      · rw [if_neg hb]
        exact Or.inr (Or.inl ⟨hp, rfl, rfl, rfl, ht0, ht1, hfl, Or.inr ⟨rfl, hlt⟩⟩)
  · rw [loop_of_moving rp cfg s now hmv.2.1]
    exact loop_moving_tilt_only rp cfg s now p tt hto htc htt0 htt1 hmv (hclear hmv.2.1)

/-- The ticks of a tilt-only move, up to its arrival, keep the position, as long as no tick
of a closing move begins with the tilt within `2^-26` of the closed end. -/
theorem ticks_tilt_only_move (rp : ℚ → ℚ) (cfg : Config) (p tt : ℚ)
    (hto : 0 < cfg.tilt_open_duration_) (htc : 0 < cfg.tilt_close_duration_)
    (htt0 : 0 ≤ tt) (htt1 : tt ≤ 1) (nows : List Nat) :
    ∀ s, tilt_only_move p tt s →
      (∀ k < nows.length, ∀ s1 ∈ ticks_until_arrival rp cfg s (nows.take k),
        s1.fsm_state_ = STATE_MOVING → s1.current_operation = COVER_OPERATION_CLOSING →
          1 / 67108864 < s1.tilt) →
      ∃ s1, ticks_until_arrival rp cfg s nows = some s1 ∧ tilt_only_move p tt s1 := by
  induction nows with
  | nil =>
    intro s hs _
    exact ⟨s, rfl, hs⟩
  | cons now rest ih =>
    intro s hs hclear
    have hc0 := hclear 0 (by simp) s (by simp [ticks_until_arrival])
    rcases hs with hi | hmv | ha
    · obtain ⟨r, hr, hmr⟩ := loop_tilt_only_move rp cfg s now p tt hto htc htt0 htt1
        (Or.inl hi) hc0
      obtain ⟨s1, hs1, hm1⟩ := ih r.1 hmr (by
        intro k hk s1 hs1
        refine hclear (k + 1) (by simp; omega) s1 ?_
        simp only [List.take_succ_cons, ticks_until_arrival]
        rw [if_pos (Or.inl hi.2.1), hr]
        exact hs1)
      refine ⟨s1, ?_, hm1⟩
      simp only [ticks_until_arrival]
      rw [if_pos (Or.inl hi.2.1), hr]
      exact hs1
    · obtain ⟨r, hr, hmr⟩ := loop_tilt_only_move rp cfg s now p tt hto htc htt0 htt1
        (Or.inr hmv) hc0
      obtain ⟨s1, hs1, hm1⟩ := ih r.1 hmr (by
        intro k hk s1 hs1
        refine hclear (k + 1) (by simp; omega) s1 ?_
        simp only [List.take_succ_cons, ticks_until_arrival]
        rw [if_pos (Or.inr hmv.2.1), hr]
        exact hs1)
      refine ⟨s1, ?_, hm1⟩
      simp only [ticks_until_arrival]
      rw [if_pos (Or.inr hmv.2.1), hr]
      exact hs1
    · refine ⟨s, ?_, Or.inr (Or.inr ha)⟩
      simp only [ticks_until_arrival]
      rw [if_neg]
      rcases ha.2 with h | h <;> rw [h] <;> simp

theorem tilt_only_move_position (p tt : ℚ) (s : State) (h : tilt_only_move p tt s) :
    s.position = p := by
  rcases h with h | h | h
  · exact h.1
  · exact h.1
  · exact h.1

/-- C5, amended. With both tilt durations positive, on an idle machine whose tilt is a
binary32 number in `[0,1]`, a set request carries a tilt target in `[0,1]` different from the
current tilt and a position target that is absent or equal to the current position. On every
tick of the move that follows, up to and including the tick on which the tilt target is
reached, and as long as no tick of a closing move begins with the tilt within `2^-26` of 0,
the position keeps the value it had when the request was made. -/
theorem C5_tilt_only_move_keeps_position (rp : ℚ → ℚ) (cfg : Config) (s : State)
    (cp : Option ℚ) (tt : ℚ) (nows : List Nat)
    (hto : 0 < cfg.tilt_open_duration_) (htc : 0 < cfg.tilt_close_duration_)
    (hidle : s.fsm_state_ = STATE_IDLE) (ht0 : 0 ≤ s.tilt) (ht1 : s.tilt ≤ 1)
    (hfl : r32 s.tilt = s.tilt)
    (hcp : cp = none ∨ cp = some s.position)
    (hne : tt ≠ s.tilt) (htt0 : 0 ≤ tt) (htt1 : tt ≤ 1)
    (hclear : ∀ k < nows.length,
      ∀ s1 ∈ ticks_until_arrival rp cfg
          (control s { stop := false, position := cp, tilt := some tt, toggle := none })
          (nows.take k),
        s1.fsm_state_ = STATE_MOVING → s1.current_operation = COVER_OPERATION_CLOSING →
          1 / 67108864 < s1.tilt) :
    ∃ s1, ticks_until_arrival rp cfg
        (control s { stop := false, position := cp, tilt := some tt, toggle := none }) nows =
          some s1 ∧
      s1.position = s.position := by
  have hstart : tilt_only_move s.position tt
      (control s { stop := false, position := cp, tilt := some tt, toggle := none }) := by
    left
    rcases hcp with rfl | rfl
    · simp [control, control_set, hidle, tilt_only_idle, hne, ht0, ht1, hfl]
    · simp [control, control_set, hidle, tilt_only_idle, hne, ht0, ht1, hfl]
  obtain ⟨s1, hs1, hm1⟩ := ticks_tilt_only_move rp cfg s.position tt hto htc htt0 htt1 nows _
    hstart hclear
  exact ⟨s1, hs1, tilt_only_move_position _ _ _ hm1⟩

/-- C5, counterexample. Without tilt durations the tilt phase is skipped: on the idle initial
state, a set request with tilt target 0.25 (current tilt 0.5) and no position target starts a
closing move at clock value 1000, and the moving tick 1000 ms later moves the position from
0.5 to the binary32 value of `0.5 - 0.1`. With tilt durations of 10 s, a request for tilt 0
and ticks every second: the five rounded steps leave the tilt at `2^-26` at clock value 5000,
the machine still Moving at position 0.5, and the tick at 6000 moves the position to 0.375. -/
theorem C5_position_moves_in_tilt_only_move :
    (ticks_until_arrival (round_position (1 / 100)) (plain_config 10000 10000)
        (control initial_state
          { stop := false, position := none, tilt := some (1 / 4), toggle := none })
        [1000, 2000]).map (fun s => (s.fsm_state_, s.position)) =
      some (STATE_MOVING, 13421773 / 33554432) ∧
    (ticks_until_arrival (round_position (1 / 100)) slow_tilt_config
        (control initial_state
          { stop := false, position := none, tilt := some 0, toggle := none })
        [0, 1000, 2000, 3000, 4000, 5000]).map (fun s => (s.fsm_state_, s.position, s.tilt)) =
      some (STATE_MOVING, 1 / 2, 1 / 67108864) ∧
    (ticks_until_arrival (round_position (1 / 100)) slow_tilt_config
        (control initial_state
          { stop := false, position := none, tilt := some 0, toggle := none })
        [0, 1000, 2000, 3000, 4000, 5000, 6000]).map
        (fun s => (s.fsm_state_, s.position, s.tilt)) =
      some (STATE_MOVING, 3 / 8, 1 / 67108864) := by
  refine ⟨?_, ?_, ?_⟩
  · decide!
  · decide!
  · decide!

/-- C5, witness: tilt durations of 2 s, the initial state (tilt 0.5), a request for tilt 0
with no position target, ticks at clock values 0, 500 and 1000: the tilt is 0.5, then 0.25,
before the ticks of the move. -/
theorem C5_tilt_only_move_keeps_position_witness :
    0 < tilt_config.tilt_open_duration_ ∧ 0 < tilt_config.tilt_close_duration_ ∧
    initial_state.fsm_state_ = STATE_IDLE ∧ (0 : ℚ) ≠ initial_state.tilt ∧
    ∃ s1, ticks_until_arrival (round_position (1 / 100)) tilt_config
        (control initial_state
          { stop := false, position := none, tilt := some 0, toggle := none })
        [0, 500, 1000] = some s1 ∧
      s1.position = initial_state.position :=
  ⟨by decide, by decide, rfl, by decide!,
    C5_tilt_only_move_keeps_position (round_position (1 / 100)) tilt_config initial_state none
      0 [0, 500, 1000] (by decide) (by decide) rfl (by decide!) (by decide!) (by decide!)
      (Or.inl rfl) (by decide!) (le_refl 0) (by decide!) (by decide!)⟩

/-! ## C6: timing of a tilt-only closing move -/

theorem arrive_eq (cfg : Config) (s : State) :
    (arrive cfg s).1 =
      { s with fsm_state_ :=
          if 0 < s.current_recalibration_time_ ∧ is_at_extreme_position_ cfg s = true then
            STATE_CALIBRATING
          else STATE_STOPPING } := by
  unfold arrive
  split_ifs <;> rfl

/-- Tilt phase of a tilt-only closing move with a positive tilt duration, from a tilt above
`2^-26`. -/
theorem loop_tilt_closing (rp : ℚ → ℚ) (cfg : Config) (s : State) (now x : Nat)
    (hop : s.current_operation = COVER_OPERATION_CLOSING)
    (htc : 0 < cfg.tilt_close_duration_) (htp : s.target_position_ = TARGET_NONE)
    (ht0 : 0 ≤ s.target_tilt_) (ht1 : s.tilt ≤ 1) (hclear : 1 / 67108864 < s.tilt) :
    loop_tilt rp cfg s now x =
      some (if closing_tilts cfg.tilt_close_duration_ s.tilt [x] ≤ s.target_tilt_ then
          arrive cfg
            { s with
              tilt := rp (closing_tilts cfg.tilt_close_duration_ s.tilt [x])
              last_recompute_time_ := now
              target_tilt_ := TARGET_NONE
              last_publish_time_ := now }
        else
          publish_if_due
            { s with tilt := closing_tilts cfg.tilt_close_duration_ s.tilt [x] } now
            (tilt_publish_limit cfg.tilt_close_duration_)) := by
  have hT : tilt_time cfg s.current_operation = cfg.tilt_close_duration_ := by
    rw [hop]
    simp [tilt_time]
  have hq := fdiv_of_uint32_nonneg x cfg.tilt_close_duration_
  have hstep : fadd s.tilt (fdiv (fmul (dir_factor s.current_operation) (of_uint32 x))
      (of_uint32 cfg.tilt_close_duration_)) =
      fsub s.tilt (fdiv (of_uint32 x) (of_uint32 cfg.tilt_close_duration_)) := by
    rw [hop]
    simp only [dir_factor, if_true]
    rw [closing_step]
    unfold fadd fsub
    rw [sub_eq_add_neg]
  have hle1 : fsub s.tilt (fdiv (of_uint32 x) (of_uint32 cfg.tilt_close_duration_)) ≤ 1 := by
    unfold fsub
    have := r32_mono (s.tilt - fdiv (of_uint32 x) (of_uint32 cfg.tilt_close_duration_)) 1
      (by linarith)
    rwa [r32_one] at this
  have hclamp : clamp (fsub s.tilt (fdiv (of_uint32 x) (of_uint32 cfg.tilt_close_duration_)))
      0 1 = max 0 (fsub s.tilt (fdiv (of_uint32 x) (of_uint32 cfg.tilt_close_duration_))) := by
    unfold clamp
    by_cases h0 : fsub s.tilt (fdiv (of_uint32 x) (of_uint32 cfg.tilt_close_duration_)) < 0
    · rw [if_pos h0, max_eq_left h0.le]
    · rw [if_neg h0, if_neg (not_lt.mpr hle1), max_eq_right (not_lt.mp h0)]
  have hguard : fmul (fsub s.tilt (1 / 2)) (dir_factor s.current_operation) < 1 / 2 := by
    rw [hop]
    simp only [dir_factor, if_true]
    exact closing_guard s.tilt hclear
  unfold loop_tilt
  simp only [closing_tilts]
  rw [hT, if_pos ⟨htc, hguard⟩, hstep, hclamp]
  by_cases hat : max 0 (fsub s.tilt (fdiv (of_uint32 x) (of_uint32 cfg.tilt_close_duration_)))
      ≤ s.target_tilt_
  · have hat2 : is_at_target_tilt_
        { s with
          tilt :=
            max 0 (fsub s.tilt (fdiv (of_uint32 x) (of_uint32 cfg.tilt_close_duration_))) }
          = true := by
      simp only [is_at_target_tilt_, hop]
      exact decide_eq_true hat
    rw [if_pos ⟨htp, hat2⟩, if_pos hat]
  · have hat2 : ¬ is_at_target_tilt_
        { s with
          tilt :=
            max 0 (fsub s.tilt (fdiv (of_uint32 x) (of_uint32 cfg.tilt_close_duration_))) }
          = true := by
      simp only [is_at_target_tilt_, hop]
      simpa using hat
    rw [if_neg (fun h => hat2 h.2), if_neg hat]
    have hpos : 0 < fsub s.tilt (fdiv (of_uint32 x) (of_uint32 cfg.tilt_close_duration_)) := by
      by_contra hle
      rw [max_eq_left (not_lt.mp hle)] at hat
      exact hat ht0
    rw [if_pos (tilt_rest_zero _ hpos.le hle1)]

/-- One tick of a tilt-only closing move without inertia. -/
theorem closing_tilt_tick (rp : ℚ → ℚ) (cfg : Config) (s : State) (p tt : ℚ) (t e : Nat)
    (htc : 0 < cfg.tilt_close_duration_) (hin : cfg.inertia_close_time_ = 0)
    (hm : closing_tilt_in_flight cfg s p tt t) (htt0 : 0 ≤ tt)
    (ht1 : s.tilt ≤ 1) (hclear : 1 / 67108864 < s.tilt) (he : e < 4294967296) :
    ∃ r, loop rp cfg s (t + e) = some r ∧ r.1.position = p ∧
      (tt < closing_tilts cfg.tilt_close_duration_ s.tilt [e] →
        closing_tilt_in_flight cfg r.1 p tt (t + e) ∧
          r.1.tilt = closing_tilts cfg.tilt_close_duration_ s.tilt [e]) ∧
      (closing_tilts cfg.tilt_close_duration_ s.tilt [e] ≤ tt →
        r.1.target_tilt_ = TARGET_NONE ∧
          r.1.tilt = rp (closing_tilts cfg.tilt_close_duration_ s.tilt [e]) ∧
          r.1.fsm_state_ =
            (if 0 < cfg.recalibration_close_time_ ∧ is_at_extreme_position_ cfg r.1 = true then
              STATE_CALIBRATING
            else STATE_STOPPING)) := by
  obtain ⟨hfsm, hop, htp, htt, hact, hrec, hlast, hp⟩ := hm
  subst htt hp hlast
  have hloop : loop rp cfg s (s.last_recompute_time_ + e) =
      loop_tilt rp cfg { s with last_recompute_time_ := s.last_recompute_time_ + e }
        (s.last_recompute_time_ + e) e := by
    rw [loop_of_moving rp cfg s _ hfsm, loop_moving_no_activation rp cfg s _ hact,
      loop_inertia_skip rp cfg _ _ _ (by simp [inertia_time, hop, hin]),
      usub_add_left _ e he]
  rw [hloop, loop_tilt_closing rp cfg
    { s with last_recompute_time_ := s.last_recompute_time_ + e }
    (s.last_recompute_time_ + e) e hop htc htp htt0 ht1 hclear]
  refine ⟨_, rfl, ?_, ?_, ?_⟩
  · split_ifs
    · rw [arrive_position]
    · rw [publish_if_due_position]
  · intro hgt
    rw [if_neg (not_le.mpr hgt), publish_if_due_fields]
    exact ⟨⟨hfsm, hop, htp, rfl, hact, hrec, rfl, rfl⟩, rfl⟩
  · intro hle
    rw [if_pos hle, arrive_eq]
    refine ⟨rfl, rfl, ?_⟩
    simp only [hrec, is_at_extreme_position_]

/-- The moving ticks of a tilt-only closing move, by induction on the elapsed times. -/
theorem closing_tilt_ticks (rp : ℚ → ℚ) (cfg : Config) (p tt : ℚ)
    (htc : 0 < cfg.tilt_close_duration_) (hin : cfg.inertia_close_time_ = 0)
    (htt0 : 0 ≤ tt) (es : List Nat) :
    ∀ (s : State) (t : Nat), closing_tilt_in_flight cfg s p tt t → tt < s.tilt →
      s.tilt ≤ 1 → (∀ e ∈ es, e < 4294967296) →
      (∀ k < es.length,
        tt < closing_tilts cfg.tilt_close_duration_ s.tilt (es.take k) ∧
          1 / 67108864 < closing_tilts cfg.tilt_close_duration_ s.tilt (es.take k)) →
      ∃ r, run rp cfg s ((clock_values t es).map Input.tick) = some r ∧ r.1.position = p ∧
        (tt < closing_tilts cfg.tilt_close_duration_ s.tilt es →
          r.1.fsm_state_ = STATE_MOVING ∧ r.1.target_tilt_ = tt ∧
            r.1.tilt = closing_tilts cfg.tilt_close_duration_ s.tilt es) ∧
        (closing_tilts cfg.tilt_close_duration_ s.tilt es ≤ tt →
          r.1.target_tilt_ = TARGET_NONE ∧
            r.1.tilt = rp (closing_tilts cfg.tilt_close_duration_ s.tilt es) ∧
            r.1.fsm_state_ =
              (if 0 < cfg.recalibration_close_time_ ∧
                  is_at_extreme_position_ cfg r.1 = true then
                STATE_CALIBRATING
              else STATE_STOPPING)) := by
  induction es with
  | nil =>
    intro s t hm hlt _ _ _
    refine ⟨(s, []), rfl, hm.2.2.2.2.2.2.2, ?_, ?_⟩
    · intro _
      exact ⟨hm.1, hm.2.2.2.1, rfl⟩
    · intro hge
      exact absurd hlt (not_lt.mpr hge)
  | cons e rest ih =>
    intro s t hm hlt ht1 hes hearlier
    have hclear : 1 / 67108864 < s.tilt := by
      have := (hearlier 0 (by simp)).2
      simpa [closing_tilts] using this
    obtain ⟨r1, hr1, hpos1, hmove, harrive⟩ := closing_tilt_tick rp cfg s p tt t e htc hin hm
      htt0 ht1 hclear (hes e (by simp))
    simp only [closing_tilts] at hmove harrive ⊢
    by_cases hc : tt <
        max 0 (fsub s.tilt (fdiv (of_uint32 e) (of_uint32 cfg.tilt_close_duration_)))
    · obtain ⟨hm1, htilt1⟩ := hmove hc
      have hle1 : max 0 (fsub s.tilt (fdiv (of_uint32 e)
          (of_uint32 cfg.tilt_close_duration_))) ≤ 1 := by
        refine max_le (by norm_num) ?_
        unfold fsub
        have := r32_mono (s.tilt - fdiv (of_uint32 e) (of_uint32 cfg.tilt_close_duration_)) 1
          (by
            have := fdiv_of_uint32_nonneg e cfg.tilt_close_duration_
            linarith)
        rwa [r32_one] at this
      obtain ⟨r, hr, hpos, h2, h3⟩ := ih r1.1 (t + e) hm1 (by rw [htilt1]; exact hc)
        (by rw [htilt1]; exact hle1) (fun x hx => hes x (by simp [hx]))
        (by
          intro k hk
          have := hearlier (k + 1) (by simp; omega)
          rw [htilt1]
          simpa [closing_tilts] using this)
      rw [htilt1] at h2 h3
      refine ⟨(r.1, r1.2 :: r.2), ?_, hpos, h2, h3⟩
      simp only [clock_values, List.map_cons, run, step, hr1, hr]
    · have hrest : rest = [] := by
        by_contra hne
        have := (hearlier 1 (by
          simp only [List.length_cons]
          have : 0 < rest.length := List.length_pos.mpr hne
          omega)).1
        simp only [List.take_succ_cons, List.take_zero, closing_tilts] at this
        exact hc this
      subst hrest
      refine ⟨(r1.1, [r1.2]), ?_, hpos1, ?_, ?_⟩
      · simp only [clock_values, List.map_cons, List.map_nil, run, step, hr1]
      · intro hlt2
        simp only [closing_tilts] at hlt2
        exact absurd hlt2 hc
      · intro _
        simp only [closing_tilts]
        exact harrive (not_lt.mp hc)

/-- The start tick of a tilt-only closing move. -/
theorem loop_start_closing_tilt (rp : ℚ → ℚ) (cfg : Config) (s : State) (t0 : Nat)
    (hidle : s.fsm_state_ = STATE_IDLE) (htp : s.target_position_ = TARGET_NONE)
    (hne : s.target_tilt_ ≠ TARGET_NONE) (hlt : s.target_tilt_ < s.tilt)
    (hfree : ¬(s.interlocked_direction_ = COVER_OPERATION_CLOSING ∧
      usub t0 s.interlocked_time_ < cfg.interlock_wait_time_)) :
    loop rp cfg s t0 =
      some ({ s with
          current_operation := COVER_OPERATION_CLOSING
          current_recalibration_time_ := cfg.recalibration_close_time_
          current_actuator_activation_time_ := cfg.actuator_activation_close_time_
          last_recompute_time_ := t0
          fsm_state_ := STATE_MOVING }, [Effect.close_trigger]) := by
  have hd : compute_direction s.target_tilt_ s.tilt = COVER_OPERATION_CLOSING := by
    rcases compute_direction_cases s.target_tilt_ s.tilt (ne_of_lt hlt) with ⟨_, h⟩ | ⟨h, _⟩
    · exact absurd hlt (not_lt.mpr h.le)
    · exact h
  rw [loop_of_idle_pending rp cfg s t0 hidle (Or.inr hne)]
  unfold loop_idle
  simp only [resolve_direction_tilt_only s (Or.inl htp) hne, hd]
  rw [if_neg (by simp), if_neg (by
    intro h
    exact hfree ⟨h.1.symm, h.2⟩)]
  obtain ⟨_, _, _, _, _, _, _, _, _, _, _, _, _, _⟩ := s
  simp only at htp
  subst htp
  simp

/-- C6, amended. With a positive tilt close duration and no inertia or activation time
configured for the closing direction, a tilt-only closing request (no position target, tilt
target `tt` below the current tilt) is started at clock value `t0` and followed by moving
ticks with elapsed times `es`; the target is not reached before the last of them and each of
them begins with the tilt above `2^-26`. The position is unchanged. Each tick replaces the
tilt `a` by `max(0, a ⊖ (e ⊘ tilt_close_duration))`, difference and quotient rounded to
binary32; let `v` be the value after all of `es`. If `v > tt` the machine is Moving with
tilt `v`; if `v ≤ tt` the tilt target is cleared, the tilt is `round_position(v)`, and the
machine is Calibrating when a recalibration close time is configured and the cover is at a
travel extreme, Stopping otherwise; from Stopping the next tick leaves it Idle. For
`tilt_close_duration` and elapsed times up to `2^24` ms, `v` differs from the linear law
`max(0, tilt − sum(es) / tilt_close_duration)` by at most `n * 2^-24`, `n` the number of
ticks. -/
theorem C6_tilt_only_closing_timing (rp : ℚ → ℚ) (cfg : Config) (s : State) (tt : ℚ)
    (t0 : Nat) (es : List Nat)
    (htc : 0 < cfg.tilt_close_duration_) (hin : cfg.inertia_close_time_ = 0)
    (hact : cfg.actuator_activation_close_time_ = 0)
    (hidle : s.fsm_state_ = STATE_IDLE) (ht1 : s.tilt ≤ 1) (htt0 : 0 ≤ tt)
    (hlt : tt < s.tilt)
    (hfree : ¬(s.interlocked_direction_ = COVER_OPERATION_CLOSING ∧
      usub t0 s.interlocked_time_ < cfg.interlock_wait_time_))
    (hes : ∀ e ∈ es, e < 4294967296)
    (hearlier : ∀ k < es.length,
      tt < closing_tilts cfg.tilt_close_duration_ s.tilt (es.take k) ∧
        1 / 67108864 < closing_tilts cfg.tilt_close_duration_ s.tilt (es.take k)) :
    (∃ r, run rp cfg s (Input.request (set_tilt tt) :: Input.tick t0 ::
          (clock_values t0 es).map Input.tick) = some r ∧
      r.1.position = s.position ∧
      (tt < closing_tilts cfg.tilt_close_duration_ s.tilt es →
        r.1.fsm_state_ = STATE_MOVING ∧ r.1.target_tilt_ = tt ∧
          r.1.tilt = closing_tilts cfg.tilt_close_duration_ s.tilt es) ∧
      (closing_tilts cfg.tilt_close_duration_ s.tilt es ≤ tt →
        r.1.target_tilt_ = TARGET_NONE ∧
          r.1.tilt = rp (closing_tilts cfg.tilt_close_duration_ s.tilt es) ∧
          r.1.fsm_state_ =
            (if 0 < cfg.recalibration_close_time_ ∧ is_at_extreme_position_ cfg r.1 = true then
              STATE_CALIBRATING
            else STATE_STOPPING) ∧
          (r.1.fsm_state_ = STATE_STOPPING →
            ∀ now, ∃ r2, loop rp cfg r.1 now = some r2 ∧ r2.1.fsm_state_ = STATE_IDLE ∧
              r2.1.position = rp s.position ∧ r2.1.tilt = rp r.1.tilt))) ∧
    (cfg.tilt_close_duration_ ≤ 16777216 → (∀ e ∈ es, e ≤ 16777216) →
      |closing_tilts cfg.tilt_close_duration_ s.tilt es -
          max 0 (s.tilt - ((es.sum : Nat) : ℚ) / cfg.tilt_close_duration_)| ≤
        (es.length : ℚ) / 16777216) := by
  have hne : tt ≠ TARGET_NONE := by
    intro h
    rw [h] at htt0
    unfold TARGET_NONE at htt0
    linarith
  have hstart := loop_start_closing_tilt rp cfg
    { s with target_position_ := TARGET_NONE, target_tilt_ := tt } t0 hidle rfl hne hlt hfree
  obtain ⟨r, hr, hpos, hmove, harrive⟩ := closing_tilt_ticks rp cfg s.position tt htc hin htt0
    es
    { s with
      target_position_ := TARGET_NONE
      target_tilt_ := tt
      current_operation := COVER_OPERATION_CLOSING
      current_recalibration_time_ := cfg.recalibration_close_time_
      current_actuator_activation_time_ := cfg.actuator_activation_close_time_
      last_recompute_time_ := t0
      fsm_state_ := STATE_MOVING } t0 ⟨rfl, rfl, rfl, rfl, hact, rfl, rfl, rfl⟩ hlt ht1 hes
    hearlier
  refine ⟨⟨(r.1, [] :: [Effect.close_trigger] :: r.2), ?_, hpos, hmove, ?_⟩, ?_⟩
  · simp only [run, step, control_set_tilt_idle s tt hidle, hstart, hr]
  · intro hle
    obtain ⟨h1, h2, h3⟩ := harrive hle
    refine ⟨h1, h2, h3, fun hstop now => ⟨_, loop_of_stopping rp cfg r.1 now hstop, ?_, ?_, ?_⟩⟩
    · simp [loop_stopping]
    · rw [← hpos]
      unfold loop_stopping
      split_ifs <;> rfl
    · unfold loop_stopping
      split_ifs <;> rfl
  · intro htc24 hes24
    have ht0 : 0 ≤ s.tilt := le_trans htt0 hlt.le
    have hb := closing_tilts_error cfg.tilt_close_duration_ htc htc24 es s.tilt s.tilt
      ht0 ht1 ht0 ht1 hes24
    rw [sub_self s.tilt, abs_zero, zero_add] at hb
    exact hb

theorem c6_eval_request : control c6_closed_state (set_tilt 0) = c6_request_state := by
  decide!

theorem c6_eval_start :
    loop (round_position (1 / 100)) tilt_recalibration_config c6_request_state 0 =
      some (c6_moving_state, [Effect.close_trigger]) := by
  decide!

theorem c6_eval_arrival :
    loop (round_position (1 / 100)) tilt_recalibration_config c6_moving_state 2000 =
      some (c6_calibrating_state, [Effect.publish_state false]) := by
  decide!

theorem c6_eval_hold :
    loop (round_position (1 / 100)) tilt_recalibration_config c6_calibrating_state 2100 =
      some (c6_calibrating_state, []) := by
  decide!

/-- C6, counterexample. No inertia or activation time is configured and the tilt durations
are 2 s. With a recalibration close time of 1 s, from position 0 and tilt 1, a tilt-only
request for tilt 0 reaches its target on the moving tick at clock value 2000, at the closed
extreme: the machine is Calibrating, and the next tick, 100 ms later, leaves it Calibrating,
not Idle. Without recalibration time, in the scenario of the spec (position 0.5, tilt 1,
request for tilt 0) with forty moving ticks of 50 ms: after 2000 ms the forty rounded steps
leave the tilt at `105/268435456`, not 0, and the machine is still Moving. -/
theorem C6_calibrating_arrival_and_rounded_steps :
    run (round_position (1 / 100)) tilt_recalibration_config c6_closed_state
        [Input.request (set_tilt 0), Input.tick 0, Input.tick 2000] =
      some (c6_calibrating_state, [[], [Effect.close_trigger], [Effect.publish_state false]]) ∧
    c6_calibrating_state.target_tilt_ = TARGET_NONE ∧
    c6_calibrating_state.fsm_state_ = STATE_CALIBRATING ∧
    loop (round_position (1 / 100)) tilt_recalibration_config c6_calibrating_state 2100 =
      some (c6_calibrating_state, []) ∧
    (run (round_position (1 / 100)) tilt_config
        (setup tilt_config initial_state (some (1 / 2, 1))).2
        (Input.request (set_tilt 0) :: Input.tick 0 ::
          (clock_values 0 (List.replicate 40 50)).map Input.tick)).map
      (fun r => (r.1.fsm_state_, r.1.tilt)) = some (STATE_MOVING, 105 / 268435456) := by
  refine ⟨?_, rfl, rfl, c6_eval_hold, ?_⟩
  · simp only [run, step, c6_eval_request, c6_eval_start, c6_eval_arrival]
  · decide!

/-- C6, witness, the scenario of the spec: `tilt_close_duration = 2000`,
`close_duration = 8000`, restored position 0.5 and tilt 1, request for tilt 0. After moving
ticks of 1000 ms and 1000 ms the tilt is 0, the target is cleared, the position is 0.5 and the
machine is Stopping; the next tick leaves it Idle with position 0.5 and tilt 0. After
thirty-nine moving ticks of 50 ms the rounded tilt is within `39 * 2^-24` of the linear
law. -/
theorem C6_tilt_only_closing_timing_witness :
    (∃ r, run (round_position (1 / 100)) (setup tilt_config initial_state (some (1 / 2, 1))).1
        (setup tilt_config initial_state (some (1 / 2, 1))).2
        [Input.request (set_tilt 0), Input.tick 0, Input.tick 1000, Input.tick 2000] =
          some r ∧
      r.1.position = 1 / 2 ∧ r.1.tilt = 0 ∧ r.1.target_tilt_ = TARGET_NONE ∧
      r.1.fsm_state_ = STATE_STOPPING ∧
      ∀ now, ∃ r2, loop (round_position (1 / 100))
          (setup tilt_config initial_state (some (1 / 2, 1))).1 r.1 now = some r2 ∧
        r2.1.fsm_state_ = STATE_IDLE ∧ r2.1.position = 1 / 2 ∧ r2.1.tilt = 0) ∧
    |closing_tilts tilt_config.tilt_close_duration_ 1 (List.replicate 39 50) -
        max 0 (1 - (((List.replicate 39 50).sum : Nat) : ℚ) /
          tilt_config.tilt_close_duration_)| ≤
      ((List.replicate 39 50).length : ℚ) / 16777216 := by
  refine ⟨?_, (C6_tilt_only_closing_timing (round_position (1 / 100))
    tilt_config { initial_state with position := 1 / 2, tilt := 1 } 0 0
    (List.replicate 39 50) (by decide) rfl rfl rfl (le_refl 1) (le_refl 0) (by decide!)
    (by decide!) (by decide) (by decide!)).2 (by decide) (by decide)⟩
  have hcfg : (setup tilt_config initial_state (some (1 / 2, 1))).1 = tilt_config := by
    decide!
  have hst : (setup tilt_config initial_state (some (1 / 2, 1))).2 =
      { initial_state with position := 1 / 2, tilt := 1 } := by
    decide!
  have hr0 : round_position (1 / 100) 0 = 0 := by decide!
  have hrh : round_position (1 / 100) (1 / 2) = 1 / 2 := by decide!
  rw [hcfg, hst]
  obtain ⟨⟨r, hr, hpos, _, harrive⟩, _⟩ := C6_tilt_only_closing_timing
    (round_position (1 / 100))
    tilt_config { initial_state with position := 1 / 2, tilt := 1 } 0 0 [1000, 1000]
    (by decide) rfl rfl rfl (le_refl 1) (le_refl 0) (by decide!)
    (by decide!) (by decide) (by decide!)
  have hv : closing_tilts tilt_config.tilt_close_duration_ 1 [1000, 1000] = 0 := by decide!
  simp only at hpos harrive
  rw [hv, hr0] at harrive
  obtain ⟨htarget, htilt, hfsm, hnext⟩ := harrive (le_refl 0)
  have hstop : r.1.fsm_state_ = STATE_STOPPING := by
    rw [hfsm, if_neg]
    simp [tilt_config, plain_config]
  refine ⟨r, hr, hpos, htilt, htarget, hstop, fun now => ?_⟩
  obtain ⟨r2, hr2, hf2, hp2, ht2⟩ := hnext hstop now
  rw [hrh] at hp2
  rw [htilt, hr0] at ht2
  exact ⟨r2, hr2, hf2, hp2, ht2⟩

/-! ## C7: recalibration hold at the closed end -/

theorem publish_if_due_target_position (s : State) (now limit : Nat) :
    (publish_if_due s now limit).1.target_position_ = s.target_position_ := by
  unfold publish_if_due
  split_ifs <;> rfl

theorem loop_position_arrival (rp : ℚ → ℚ) (cfg : Config) (s : State) (now x : Nat)
    (r : State × List Effect) (h : loop_position rp cfg s now x = some r)
    (htarget : s.target_position_ ≠ TARGET_NONE) (hreached : r.1.target_position_ = TARGET_NONE) :
    arrival_facts cfg s r.1 now := by
  unfold loop_position at h
  split at h
  · exact absurd h (by simp)
  · rename_i p _
    simp only [Option.some.injEq] at h
    subst h
    simp only at hreached ⊢
    by_cases hat : is_at_target_position_ { s with position := p } = true
    · rw [if_pos hat] at hreached ⊢
      rw [publish_if_due_now _ _ _ (by rw [arrive_eq]), arrive_eq]
      exact ⟨by simp only [is_at_extreme_position_], rfl, rfl, rfl⟩
    · rw [if_neg hat] at hreached
      rw [publish_if_due_target_position] at hreached
      exact absurd hreached htarget

theorem arrival_facts_of_eq (cfg : Config) (s s1 r : State) (now : Nat)
    (h : arrival_facts cfg s1 r now)
    (h1 : s1.current_recalibration_time_ = s.current_recalibration_time_)
    (h2 : s1.current_operation = s.current_operation) : arrival_facts cfg s r now := by
  unfold arrival_facts at *
  rw [← h1, ← h2]
  exact h

theorem publish_if_due_recalibration (s : State) (now limit : Nat) :
    (publish_if_due s now limit).1.current_recalibration_time_ =
        s.current_recalibration_time_ ∧
      (publish_if_due s now limit).1.current_operation = s.current_operation := by
  unfold publish_if_due
  split_ifs <;> exact ⟨rfl, rfl⟩

theorem loop_tilt_arrival (rp : ℚ → ℚ) (cfg : Config) (s : State) (now x : Nat)
    (r : State × List Effect) (h : loop_tilt rp cfg s now x = some r)
    (htarget : s.target_position_ ≠ TARGET_NONE)
    (hreached : r.1.target_position_ = TARGET_NONE) : arrival_facts cfg s r.1 now := by
  unfold loop_tilt at h
  simp only at h
  split_ifs at h with h1 h2 h3
  · exact absurd h2.1 htarget
  · simp only [Option.some.injEq] at h
    subst h
    rw [publish_if_due_target_position] at hreached
    exact absurd hreached htarget
  · split at h
    · exact absurd h (by simp)
    · rename_i r1 hr1
      simp only [Option.some.injEq] at h
      subst h
      have hp := publish_if_due_recalibration
        { s with
          tilt :=
            clamp (fadd s.tilt (fdiv (fmul (dir_factor s.current_operation) (of_uint32 x))
              (of_uint32 (tilt_time cfg s.current_operation)))) 0 1 } now
        (tilt_publish_limit (tilt_time cfg s.current_operation))
      refine arrival_facts_of_eq cfg s _ r1.1 now
        (loop_position_arrival rp cfg _ now _ r1 hr1 ?_ hreached) hp.1 hp.2
      rw [publish_if_due_target_position]
      exact htarget
  · exact loop_position_arrival rp cfg s now x r h htarget hreached

theorem loop_inertia_arrival (rp : ℚ → ℚ) (cfg : Config) (s : State) (now x : Nat)
    (r : State × List Effect) (h : loop_inertia rp cfg s now x = some r)
    (htarget : s.target_position_ ≠ TARGET_NONE)
    (hreached : r.1.target_position_ = TARGET_NONE) : arrival_facts cfg s r.1 now := by
  unfold loop_inertia at h
  simp only at h
  split_ifs at h
  · simp only [Option.some.injEq] at h
    subst h
    exact absurd hreached htarget
  · exact arrival_facts_of_eq cfg s _ r.1 now
      (loop_tilt_arrival rp cfg _ now _ r h htarget hreached) rfl rfl
  · exact loop_tilt_arrival rp cfg s now x r h htarget hreached

theorem loop_moving_arrival (rp : ℚ → ℚ) (cfg : Config) (s : State) (now : Nat)
    (r : State × List Effect) (h : loop_moving rp cfg s now = some r)
    (htarget : s.target_position_ ≠ TARGET_NONE)
    (hreached : r.1.target_position_ = TARGET_NONE) : arrival_facts cfg s r.1 now := by
  unfold loop_moving at h
  simp only at h
  split_ifs at h
  · simp only [Option.some.injEq] at h
    subst h
    exact absurd hreached htarget
  · exact arrival_facts_of_eq cfg s _ r.1 now
      (loop_inertia_arrival rp cfg _ now _ r h htarget hreached) rfl rfl
  · exact arrival_facts_of_eq cfg s _ r.1 now
      (loop_inertia_arrival rp cfg _ now _ r h htarget hreached) rfl rfl

/-- The recalibration hold, when the arrival at position 0 finds the tilt closed. With
`recalibration_close_time > 0`, a moving tick at clock value `t` of a move with that
recalibration time loaded clears the position target and stores position 0 and, when a tilt
close duration is configured, tilt 0. The machine is then Calibrating; every tick at a clock
value `now` with `now - t < recalibration_close_time` leaves the whole state unchanged and
fires nothing; a tick with `now - t ≥ recalibration_close_time` puts it in Stopping, and the
tick after that puts it in Idle. -/
theorem recalibration_hold_at_closed_end (rp : ℚ → ℚ) (cfg : Config) (s : State) (t : Nat)
    (r : State × List Effect)
    (hrecal : 0 < cfg.recalibration_close_time_)
    (hfsm : s.fsm_state_ = STATE_MOVING)
    (hloaded : s.current_recalibration_time_ = cfg.recalibration_close_time_)
    (htarget : s.target_position_ ≠ TARGET_NONE)
    (htick : loop rp cfg s t = some r)
    (hreached : r.1.target_position_ = TARGET_NONE) (hzero : r.1.position = 0)
    (htilt : cfg.tilt_close_duration_ = 0 ∨ r.1.tilt = 0) :
    r.1.fsm_state_ = STATE_CALIBRATING ∧
    (∀ now, usub now t < cfg.recalibration_close_time_ →
      loop rp cfg r.1 now = some (r.1, [])) ∧
    (∀ now, cfg.recalibration_close_time_ ≤ usub now t →
      loop rp cfg r.1 now = some ({ r.1 with fsm_state_ := STATE_STOPPING }, []) ∧
      ∀ now2, ∃ r3, loop rp cfg { r.1 with fsm_state_ := STATE_STOPPING } now2 = some r3 ∧
        r3.1.fsm_state_ = STATE_IDLE ∧
        List.count Effect.stop_trigger r3.2 = 1) := by
  rw [loop_of_moving rp cfg s t hfsm] at htick
  obtain ⟨hf, hlast, hrec, _⟩ := loop_moving_arrival rp cfg s t r htick htarget hreached
  have hext : is_at_extreme_position_ cfg r.1 = true := by
    simp only [is_at_extreme_position_, decide_eq_true_eq, COVER_CLOSED]
    exact Or.inl ⟨hzero, htilt⟩
  have hcal : r.1.fsm_state_ = STATE_CALIBRATING := by
    rw [hf, if_pos ⟨by rw [hloaded]; exact hrecal, hext⟩]
  refine ⟨hcal, ?_, ?_⟩
  · intro now hnow
    have hcond : ¬ usub now r.1.last_recompute_time_ ≥ r.1.current_recalibration_time_ := by
      rw [hlast, hrec, hloaded]
      exact not_le.mpr hnow
    rw [loop_of_calibrating rp cfg r.1 now hcal]
    unfold loop_calibrating
    rw [if_neg hcond]
  · intro now hnow
    constructor
    · have hcond : usub now r.1.last_recompute_time_ ≥ r.1.current_recalibration_time_ := by
        rw [hlast, hrec, hloaded]
        exact hnow
      rw [loop_of_calibrating rp cfg r.1 now hcal]
      unfold loop_calibrating
      rw [if_pos hcond]
    · intro now2
      refine ⟨_, loop_of_stopping rp cfg _ now2 rfl, ?_, ?_⟩
      · simp [loop_stopping]
      · simp [loop_stopping]

/-- C7, evaluation at the failing input: tilt durations of 10 s, travel durations of 8 s, a
recalibration close time of 1 s; from the initial state (position 0.5, tilt 0.5) a request to
close fully, the start tick at clock value 0 and a tick every second. The five rounded tilt
steps leave the tilt at `2^-26` at clock value 5000; from then on the rounded guard of the
tilt phase fails and the position integrates. At clock value 8000 the machine is Moving at
position 0.125; the tick at 9000 reaches the position target with position 0 and puts the
machine in Stopping, not Calibrating, with the tilt still `2^-26`. -/
theorem C7_stuck_tilt_misses_recalibration :
    0 < c7_config.recalibration_close_time_ ∧
    (run (round_position (1 / 100)) c7_config initial_state
        [Input.request (set_position 0), Input.tick 0, Input.tick 1000, Input.tick 2000,
          Input.tick 3000, Input.tick 4000, Input.tick 5000]).map
      (fun r => (r.1.fsm_state_, r.1.target_position_, r.1.position, r.1.tilt)) =
      some (STATE_MOVING, 0, 1 / 2, 1 / 67108864) ∧
    (run (round_position (1 / 100)) c7_config initial_state
        [Input.request (set_position 0), Input.tick 0, Input.tick 1000, Input.tick 2000,
          Input.tick 3000, Input.tick 4000, Input.tick 5000, Input.tick 6000, Input.tick 7000,
          Input.tick 8000]).map
      (fun r => (r.1.fsm_state_, r.1.target_position_, r.1.position, r.1.tilt)) =
      some (STATE_MOVING, 0, 1 / 8, 1 / 67108864) ∧
    (run (round_position (1 / 100)) c7_config initial_state
        [Input.request (set_position 0), Input.tick 0, Input.tick 1000, Input.tick 2000,
          Input.tick 3000, Input.tick 4000, Input.tick 5000, Input.tick 6000, Input.tick 7000,
          Input.tick 8000, Input.tick 9000]).map
      (fun r => (r.1.fsm_state_, r.1.target_position_, r.1.position, r.1.tilt)) =
      some (STATE_STOPPING, TARGET_NONE, 0, 1 / 67108864) := by
  refine ⟨by decide, ?_, ?_, ?_⟩
  · decide!
  · decide!
  · decide!

/-! ## C8, C9, C10: stop request, stopping tick, at-target request -/

/-- C8. A call with the stop flag set, whatever its other fields and whatever the machine
state, leaves both targets absent and the machine Stopping; every other field (position,
tilt, operation, last operation, interlock fields, timers) is unchanged. -/
theorem C8_stop_request (s : State) (p t : Option ℚ) (g : Option Bool) :
    control s { stop := true, position := p, tilt := t, toggle := g } =
      { s with
        target_position_ := TARGET_NONE
        target_tilt_ := TARGET_NONE
        fsm_state_ := STATE_STOPPING } := by
  simp [control]

/-- C9. A tick at clock value `now` of a machine that is Stopping fires the stop action once
and no start action, and ends Idle with operation Idle and `last_operation` the operation
held before; after Opening or Closing it records `interlocked_time = now` and the opposite
direction, after Idle it sets the interlock direction to Idle. -/
theorem C9_stopping_tick (rp : ℚ → ℚ) (cfg : Config) (s : State) (now : Nat)
    (h : s.fsm_state_ = STATE_STOPPING) :
    ∃ s1, loop rp cfg s now = some (s1, [Effect.stop_trigger, Effect.publish_state true]) ∧
      s1.fsm_state_ = STATE_IDLE ∧ s1.current_operation = COVER_OPERATION_IDLE ∧
      s1.last_operation_ = s.current_operation ∧
      (s.current_operation = COVER_OPERATION_OPENING →
        s1.interlocked_time_ = now ∧ s1.interlocked_direction_ = COVER_OPERATION_CLOSING) ∧
      (s.current_operation = COVER_OPERATION_CLOSING →
        s1.interlocked_time_ = now ∧ s1.interlocked_direction_ = COVER_OPERATION_OPENING) ∧
      (s.current_operation = COVER_OPERATION_IDLE →
        s1.interlocked_direction_ = COVER_OPERATION_IDLE) := by
  refine ⟨(loop_stopping rp s now).1, ?_, ?_⟩
  · simp [loop, h, loop_stopping]
  · cases hop : s.current_operation <;> simp [loop_stopping, hop]

/-- C9, witness: the stopping tick of a closing run at clock value 100. -/
theorem C9_stopping_tick_witness :
    c2_stopping_state.fsm_state_ = STATE_STOPPING ∧
    ∃ s1, loop (round_position (1 / 100)) interlock_config c2_stopping_state 100 =
        some (s1, [Effect.stop_trigger, Effect.publish_state true]) ∧
      s1.fsm_state_ = STATE_IDLE ∧ s1.current_operation = COVER_OPERATION_IDLE ∧
      s1.last_operation_ = c2_stopping_state.current_operation ∧
      (c2_stopping_state.current_operation = COVER_OPERATION_OPENING →
        s1.interlocked_time_ = 100 ∧ s1.interlocked_direction_ = COVER_OPERATION_CLOSING) ∧
      (c2_stopping_state.current_operation = COVER_OPERATION_CLOSING →
        s1.interlocked_time_ = 100 ∧ s1.interlocked_direction_ = COVER_OPERATION_OPENING) ∧
      (c2_stopping_state.current_operation = COVER_OPERATION_IDLE →
        s1.interlocked_direction_ = COVER_OPERATION_IDLE) :=
  ⟨rfl, C9_stopping_tick (round_position (1 / 100)) interlock_config c2_stopping_state 100 rfl⟩

/-- C10. On an idle machine (state Idle, operation Idle) with no pending target, a set
request whose position target, if present, equals the position and whose tilt target, if
present, equals the tilt (one of them is present), followed by one tick, fires nothing and
ends in the state before the request. -/
theorem C10_at_target_request_is_idempotent (rp : ℚ → ℚ) (cfg : Config) (s : State)
    (call : CoverCall) (now : Nat)
    (hfsm : s.fsm_state_ = STATE_IDLE) (hop : s.current_operation = COVER_OPERATION_IDLE)
    (htp : s.target_position_ = TARGET_NONE) (htt : s.target_tilt_ = TARGET_NONE)
    (hstop : call.stop = false) (htog : call.toggle = none)
    (hp : call.position = none ∨ call.position = some s.position)
    (ht : call.tilt = none ∨ call.tilt = some s.tilt)
    (hsome : call.position ≠ none ∨ call.tilt ≠ none) :
    loop rp cfg (control s call) now = some (s, []) := by
  obtain ⟨pos, tilt, op, lop, tp, tt, fsm, a, b, c, d, e, f, g⟩ := s
  obtain ⟨cs, cp, ct, cg⟩ := call
  simp only at hfsm hop htp htt hstop htog hp ht hsome
  subst hfsm hop htp htt hstop htog
  rcases hp with rfl | rfl <;> rcases ht with rfl | rfl <;>
    simp [control, control_set, loop, loop_idle, resolve_direction, compute_direction]
      at hsome ⊢
  all_goals (split_ifs <;> simp_all)

/-- C10, witness: the initial state and a request for its own position 0.5 and tilt 0.5. -/
theorem C10_at_target_request_is_idempotent_witness :
    initial_state.fsm_state_ = STATE_IDLE ∧
    initial_state.current_operation = COVER_OPERATION_IDLE ∧
    initial_state.target_position_ = TARGET_NONE ∧ initial_state.target_tilt_ = TARGET_NONE ∧
    loop (round_position (1 / 100)) interlock_config
        (control initial_state
          { stop := false, position := some initial_state.position,
            tilt := some initial_state.tilt, toggle := none }) 100 =
      some (initial_state, []) :=
  ⟨rfl, rfl, rfl, rfl,
    C10_at_target_request_is_idempotent (round_position (1 / 100)) interlock_config
      initial_state
      { stop := false, position := some initial_state.position,
        tilt := some initial_state.tilt, toggle := none } 100 rfl rfl rfl rfl rfl rfl
      (Or.inr rfl) (Or.inr rfl) (Or.inl (by simp))⟩

/-! ## Control requests: retargeting a move and toggling (C11, C12, C13) -/

/-- C11. Retarget while Moving: for every Moving state and every set request (no stop, no
toggle) that carries a position and/or a tilt target, none of them the sentinel value, with
`d` the direction the new targets imply (`implied_direction`), `control()` returns the state
with the new targets stored and the FSM state Stopping when `d` differs from the operation
in flight, Moving otherwise; every other field, among them operation, position and tilt, is
unchanged. In particular the FSM state becomes Stopping if and only if `d` differs from the
operation in flight. -/
theorem C11_retarget_while_moving (s : State) (call : CoverCall)
    (hm : s.fsm_state_ = STATE_MOVING) (hstop : call.stop = false) (htog : call.toggle = none)
    (hset : call.position.isSome = true ∨ call.tilt.isSome = true)
    (hp : call.position ≠ some TARGET_NONE) (ht : call.tilt ≠ some TARGET_NONE) :
    control s call =
      { s with
        target_position_ := stored_target call.position
        target_tilt_ := stored_target call.tilt
        fsm_state_ :=
          if implied_direction s call ≠ s.current_operation then STATE_STOPPING
          else STATE_MOVING } ∧
    ((control s call).fsm_state_ = STATE_STOPPING ↔
      implied_direction s call ≠ s.current_operation) ∧
    (implied_direction s call = s.current_operation →
      (control s call).fsm_state_ = STATE_MOVING) := by
  obtain ⟨p0, t0, op, lop, tp, tt, fsm, lr, lp, it, idir, rc, ac, ine⟩ := s
  obtain ⟨st, cp, ct, tg⟩ := call
  simp only at hm hstop htog hset hp ht
  subst hm hstop htog
  have key : control ⟨p0, t0, op, lop, tp, tt, STATE_MOVING, lr, lp, it, idir, rc, ac, ine⟩
      ⟨false, cp, ct, none⟩ =
      { (⟨p0, t0, op, lop, tp, tt, STATE_MOVING, lr, lp, it, idir, rc, ac, ine⟩ : State) with
        target_position_ := stored_target cp
        target_tilt_ := stored_target ct
        fsm_state_ :=
          if implied_direction ⟨p0, t0, op, lop, tp, tt, STATE_MOVING, lr, lp, it, idir, rc, ac, ine⟩
            ⟨false, cp, ct, none⟩ ≠ op then STATE_STOPPING
          else STATE_MOVING } := by
    cases cp with
    | none =>
      cases ct with
      | none => simp at hset
      | some t =>
        have ht1 : t ≠ TARGET_NONE := fun h => ht (by rw [h])
        by_cases h1 : t = t0 <;> by_cases h2 : compute_direction t t0 = op <;>
          by_cases h3 : COVER_OPERATION_IDLE = op <;>
          simp [control, control_set, implied_direction, stored_target, ht1, h1, h2, h3]
    | some p =>
      have hp1 : p ≠ TARGET_NONE := fun h => hp (by rw [h])
      cases ct with
      | none =>
        by_cases h1 : p = p0 <;> by_cases h2 : compute_direction p p0 = op <;>
          by_cases h3 : COVER_OPERATION_IDLE = op <;>
          simp [control, control_set, implied_direction, stored_target, hp1, h1, h2, h3]
      | some t =>
        have ht1 : t ≠ TARGET_NONE := fun h => ht (by rw [h])
        by_cases h1 : p = p0 <;> by_cases h2 : compute_direction p p0 = op <;>
          by_cases h4 : t = t0 <;> by_cases h5 : compute_direction t t0 = op <;>
          by_cases h3 : COVER_OPERATION_IDLE = op <;>
          simp [control, control_set, implied_direction, stored_target, hp1, ht1, h1, h2, h3,
            h4, h5]
  refine ⟨key, ?_, ?_⟩
  · rw [key]
    by_cases h : implied_direction ⟨p0, t0, op, lop, tp, tt, STATE_MOVING, lr, lp, it, idir, rc, ac, ine⟩
        ⟨false, cp, ct, none⟩ = op
    · simp [h]
    · simp [h]
  · intro h
    rw [key]
    simp [h]

/-- Witness of C11: an opening move from position 0.5 is retargeted to position 0.2, which
implies the closing direction; the machine is stopping and the new target is stored. -/
theorem C11_retarget_while_moving_witness :
    implied_direction c11_moving_state (set_position (1 / 5)) = COVER_OPERATION_CLOSING ∧
    control c11_moving_state (set_position (1 / 5)) =
      { c11_moving_state with target_position_ := 1 / 5, fsm_state_ := STATE_STOPPING } := by
  have hd : implied_direction c11_moving_state (set_position (1 / 5)) =
      COVER_OPERATION_CLOSING := by
    norm_num [implied_direction, set_position, c11_moving_state, initial_state,
      compute_direction]
  have h := (C11_retarget_while_moving c11_moving_state (set_position (1 / 5)) rfl rfl rfl
    (Or.inl rfl) (by norm_num [set_position, TARGET_NONE]) (by simp [set_position])).1
  refine ⟨hd, ?_⟩
  rw [h, hd]
  simp [stored_target, set_position, c11_moving_state, initial_state]

/-- C12. Toggle symmetry: for every state with operation Idle and every request that carries
the toggle flag only, `control()` stores the position target 1 when position and tilt are
both 0, and the position target 0 when position and tilt are both 1, whatever
`last_operation_` is; every other field, among them the FSM state, position, tilt and the
tilt target, is unchanged. -/
theorem C12_toggle_symmetry (s : State) (call : CoverCall)
    (hop : s.current_operation = COVER_OPERATION_IDLE) (hstop : call.stop = false)
    (hpos : call.position = none) (htilt : call.tilt = none)
    (htog : call.toggle.isSome = true) :
    (s.position = 0 ∧ s.tilt = 0 → control s call = { s with target_position_ := 1 }) ∧
    (s.position = 1 ∧ s.tilt = 1 → control s call = { s with target_position_ := 0 }) := by
  obtain ⟨p0, t0, op, lop, tp, tt, fsm, lr, lp, it, idir, rc, ac, ine⟩ := s
  obtain ⟨st, cp, ct, tg⟩ := call
  simp only at hop hstop hpos htilt htog
  subst hop hstop hpos htilt
  constructor
  · rintro ⟨h1, h2⟩
    simp only at h1 h2
    subst h1 h2
    simp [control, control_toggle, htog, COVER_OPEN, COVER_CLOSED]
  · rintro ⟨h1, h2⟩
    simp only at h1 h2
    subst h1 h2
    simp [control, control_toggle, htog, COVER_OPEN, COVER_CLOSED]

/-- Witness of C12: the fully closed idle cover, last operated in the opening direction, gets
the position target 1 from a toggle request. -/
theorem C12_toggle_symmetry_witness :
    control c12_closed_state toggle_call = { c12_closed_state with target_position_ := 1 } :=
  (C12_toggle_symmetry c12_closed_state toggle_call rfl rfl rfl rfl rfl).1 ⟨rfl, rfl⟩

/-- C13. Toggle alternation: for every state with operation Idle that is neither at
(position 0, tilt 0) nor at (position 1, tilt 1) and every request that carries the toggle
flag only, `control()` changes one target and no other field: after a closing operation the
position target becomes 1 when the position is not 1, and otherwise the tilt target becomes
1; after an opening operation or none, the position target becomes 0 when the position is
not 0, and otherwise the tilt target becomes 0. -/
theorem C13_toggle_alternation (s : State) (call : CoverCall)
    (hop : s.current_operation = COVER_OPERATION_IDLE)
    (h00 : ¬ (s.position = 0 ∧ s.tilt = 0)) (h11 : ¬ (s.position = 1 ∧ s.tilt = 1))
    (hstop : call.stop = false) (hpos : call.position = none) (htilt : call.tilt = none)
    (htog : call.toggle.isSome = true) :
    control s call =
      if s.last_operation_ = COVER_OPERATION_CLOSING then
        if s.position ≠ 1 then { s with target_position_ := 1 } else { s with target_tilt_ := 1 }
      else
        if s.position ≠ 0 then { s with target_position_ := 0 } else { s with target_tilt_ := 0 } := by
  obtain ⟨p0, t0, op, lop, tp, tt, fsm, lr, lp, it, idir, rc, ac, ine⟩ := s
  obtain ⟨st, cp, ct, tg⟩ := call
  simp only at hop hstop hpos htilt htog h00 h11
  subst hop hstop hpos htilt
  simp [control, control_toggle, htog, COVER_OPEN, COVER_CLOSED, h00, h11]

/-- Witness of C13: at position 1 with the tilt half open, after a closing operation, a toggle
request sets the tilt target 1 and leaves the position target unset. -/
theorem C13_toggle_alternation_witness :
    control c13_open_state toggle_call = { c13_open_state with target_tilt_ := 1 } := by
  have h := C13_toggle_alternation c13_open_state toggle_call rfl
    (by norm_num [c13_open_state]) (by norm_num [c13_open_state, initial_state]) rfl rfl rfl rfl
  rw [h, if_pos (show c13_open_state.last_operation_ = COVER_OPERATION_CLOSING from rfl),
    if_neg (show ¬ c13_open_state.position ≠ 1 from by simp [c13_open_state])]

/-! ## C14: a stop separates two starts -/

/-- A tick that fires a start action starts from the idle machine and leaves it moving. -/
theorem loop_fires_start (rp : ℚ → ℚ) (cfg : Config) (s : State) (now : Nat)
    (r : State × List Effect) (h : loop rp cfg s now = some r) (hs : fires_start r.2) :
    s.fsm_state_ = STATE_IDLE ∧ r.1.fsm_state_ = STATE_MOVING := by
  rcases loop_cases rp cfg s now r h with ⟨_, hp, _⟩ | ⟨_, hr⟩ | ⟨_, he, _⟩ | ⟨hi, _, _, hm, _⟩
  · have hn := only_publish_no_trigger r.2 hp
    rcases hs with hs | hs
    · exact absurd hs hn.2.1
    · exact absurd hs hn.2.2
  · subst hr
    rcases hs with hs | hs <;> simp [loop_stopping] at hs
  · rw [he] at hs
    rcases hs with hs | hs <;> simp at hs
  · exact ⟨hi, hm⟩

/-- A step that does not fire the stop action does not bring the machine back to idle. -/
theorem step_stays_busy (rp : ℚ → ℚ) (cfg : Config) (s : State) (i : Input)
    (r : State × List Effect) (h : step rp cfg s i = some r)
    (hb : s.fsm_state_ ≠ STATE_IDLE) (hn : Effect.stop_trigger ∉ r.2) :
    r.1.fsm_state_ ≠ STATE_IDLE := by
  cases i with
  | tick now =>
    rcases loop_cases rp cfg s now r h with ⟨_, _, hadv⟩ | ⟨_, hr⟩ | ⟨hi, _⟩ | ⟨hi, _⟩
    · rcases hadv with h1 | h1 | h1
      · rw [h1]
        exact hb
      · rw [h1]
        simp
      · rw [h1]
        simp
    · subst hr
      simp [loop_stopping] at hn
    · exact absurd hi hb
    · exact absurd hi hb
  | request call =>
    simp only [step, Option.some.injEq] at h
    subst h
    exact fun hidle => hb ((control_frame s call).2 hidle)

/-- An execution in which no step fires the stop action does not bring the machine back to
idle. -/
theorem run_stays_busy (rp : ℚ → ℚ) (cfg : Config) (ins : List Input) (s : State)
    (r : State × List (List Effect)) (h : run rp cfg s ins = some r)
    (hb : s.fsm_state_ ≠ STATE_IDLE) (hn : ∀ e ∈ r.2, Effect.stop_trigger ∉ e) :
    r.1.fsm_state_ ≠ STATE_IDLE := by
  induction ins generalizing s r with
  | nil =>
    simp only [run, Option.some.injEq] at h
    subst h
    exact hb
  | cons i rest ih =>
    simp only [run] at h
    split at h
    · exact absurd h (by simp)
    · rename_i r1 hr1
      split at h
      · exact absurd h (by simp)
      · rename_i q hq
        simp only [Option.some.injEq] at h
        subst h
        refine ih r1.1 q hq ?_ (fun e he => hn e (by simp [he]))
        exact step_stays_busy rp cfg s i r1 hr1 hb (hn r1.2 (by simp))

/-- C14. A stop always separates two starts: from every state of the machine, hence along
every execution from the initial idle state, if the tick at clock value `t1` fires a start
action, the inputs `mid` (ticks and control requests in any order) follow, and the tick at
clock value `t2` after them fires a start action again, then one of the ticks of `mid` fires
the stop action. -/
theorem C14_stop_separates_starts (rp : ℚ → ℚ) (cfg : Config) (s : State) (t1 t2 : Nat)
    (mid : List Input) (r1 : State × List Effect) (r2 : State × List (List Effect))
    (r3 : State × List Effect)
    (h1 : loop rp cfg s t1 = some r1) (hs1 : fires_start r1.2)
    (h2 : run rp cfg r1.1 mid = some r2)
    (h3 : loop rp cfg r2.1 t2 = some r3) (hs3 : fires_start r3.2) :
    ∃ e ∈ r2.2, Effect.stop_trigger ∈ e := by
  by_contra hno
  have hn : ∀ e ∈ r2.2, Effect.stop_trigger ∉ e := fun e he hst => hno ⟨e, he, hst⟩
  have hm := (loop_fires_start rp cfg s t1 r1 h1 hs1).2
  have hb : r1.1.fsm_state_ ≠ STATE_IDLE := by
    rw [hm]
    simp
  exact run_stays_busy rp cfg mid r1.1 r2 h2 hb hn (loop_fires_start rp cfg r2.1 t2 r3 h3 hs3).1

theorem c14_eval_start :
    loop (round_position (1 / 100)) interlock_config c1_request_state 0 =
      some (started_opening_state, [Effect.open_trigger]) := by
  norm_num [loop, loop_idle, resolve_direction, compute_direction, initial_state,
    c1_request_state, started_opening_state, interlock_config, plain_config, TARGET_NONE, usub]

theorem c14_eval_mid :
    run (round_position (1 / 100)) interlock_config started_opening_state
        [Input.request stop_call, Input.tick 100, Input.request (set_position 0)] =
      some (c14_request_state,
        [[], [Effect.stop_trigger, Effect.publish_state true], []]) := by
  have h1 : control started_opening_state stop_call = c3_stopping_state := by
    norm_num [control, stop_call, initial_state, started_opening_state, c3_stopping_state]
  have h3 : control c3_stopped_state (set_position 0) = c14_request_state := by
    norm_num [control, control_set, set_position, initial_state, c3_stopped_state,
      c14_request_state, TARGET_NONE]
  simp only [run, step, h1, c3_stop_tick, h3]

theorem c14_eval_restart :
    loop (round_position (1 / 100)) interlock_config c14_request_state 1200 =
      some (c14_closing_state, [Effect.close_trigger]) := by
  norm_num [loop, loop_idle, resolve_direction, compute_direction, initial_state,
    c3_stopped_state, c14_request_state, c14_closing_state, interlock_config, plain_config,
    TARGET_NONE, usub]

/-- Witness of C14: the tick at clock value 0 starts an opening run; a stop request, the tick
at clock value 100 and a request to close follow; the tick at clock value 1200 starts the
closing run; the tick at clock value 100 fired the stop action. -/
theorem C14_stop_separates_starts_witness :
    loop (round_position (1 / 100)) interlock_config c1_request_state 0 =
      some (started_opening_state, [Effect.open_trigger]) ∧
    run (round_position (1 / 100)) interlock_config started_opening_state
        [Input.request stop_call, Input.tick 100, Input.request (set_position 0)] =
      some (c14_request_state,
        [[], [Effect.stop_trigger, Effect.publish_state true], []]) ∧
    loop (round_position (1 / 100)) interlock_config c14_request_state 1200 =
      some (c14_closing_state, [Effect.close_trigger]) ∧
    ∃ e ∈ [[], [Effect.stop_trigger, Effect.publish_state true], []],
      Effect.stop_trigger ∈ e :=
  ⟨c14_eval_start, c14_eval_mid, c14_eval_restart,
    C14_stop_separates_starts (round_position (1 / 100)) interlock_config c1_request_state
      0 1200 [Input.request stop_call, Input.tick 100, Input.request (set_position 0)]
      (started_opening_state, [Effect.open_trigger])
      (c14_request_state, [[], [Effect.stop_trigger, Effect.publish_state true], []])
      (c14_closing_state, [Effect.close_trigger])
      c14_eval_start (Or.inl (by simp)) c14_eval_mid c14_eval_restart (Or.inr (by simp))⟩

/-! ## C16: calibrating or stopping on arrival -/

theorem publish_if_due_arrival_state (cfg : Config) (recal : Nat) (s : State)
    (now limit : Nat) :
    arrival_state cfg recal (publish_if_due s now limit).1 = arrival_state cfg recal s := by
  rw [publish_if_due_fields]
  rfl

theorem publish_if_due_fsm (s : State) (now limit : Nat) :
    (publish_if_due s now limit).1.fsm_state_ = s.fsm_state_ := by
  rw [publish_if_due_fields]

theorem arrive_decision (cfg : Config) (s : State) :
    (arrive cfg s).1.fsm_state_ =
      arrival_state cfg s.current_recalibration_time_ (arrive cfg s).1 := by
  rw [arrive_eq]
  rfl

/-- The position phase keeps the state of the machine or ends the move as the arrival code
decides. -/
theorem loop_position_decision (rp : ℚ → ℚ) (cfg : Config) (s : State) (now x : Nat)
    (r : State × List Effect) (h : loop_position rp cfg s now x = some r) :
    r.1.fsm_state_ = s.fsm_state_ ∨
      r.1.fsm_state_ = arrival_state cfg s.current_recalibration_time_ r.1 := by
  unfold loop_position at h
  split at h
  · exact absurd h (by simp)
  · rename_i p _
    simp only [Option.some.injEq] at h
    subst h
    simp only
    rw [publish_if_due_fsm, publish_if_due_arrival_state]
    by_cases hat : is_at_target_position_ { s with position := p } = true
    · rw [if_pos hat]
      right
      exact arrive_decision cfg _
    · rw [if_neg hat]
      exact Or.inl rfl

theorem loop_tilt_decision (rp : ℚ → ℚ) (cfg : Config) (s : State) (now x : Nat)
    (r : State × List Effect) (h : loop_tilt rp cfg s now x = some r) :
    r.1.fsm_state_ = s.fsm_state_ ∨
      r.1.fsm_state_ = arrival_state cfg s.current_recalibration_time_ r.1 := by
  unfold loop_tilt at h
  simp only at h
  split_ifs at h with hg harr hrest
  · simp only [Option.some.injEq] at h
    subst h
    right
    exact arrive_decision cfg _
  · simp only [Option.some.injEq] at h
    subst h
    left
    rw [publish_if_due_fsm]
  · split at h
    · exact absurd h (by simp)
    · rename_i r1 hr1
      simp only [Option.some.injEq] at h
      subst h
      have hd := loop_position_decision rp cfg _ now _ r1 hr1
      rw [publish_if_due_fsm, (publish_if_due_recalibration _ _ _).1] at hd
      exact hd
  · exact loop_position_decision rp cfg s now x r h

theorem loop_inertia_decision (rp : ℚ → ℚ) (cfg : Config) (s : State) (now x : Nat)
    (r : State × List Effect) (h : loop_inertia rp cfg s now x = some r) :
    r.1.fsm_state_ = s.fsm_state_ ∨
      r.1.fsm_state_ = arrival_state cfg s.current_recalibration_time_ r.1 := by
  unfold loop_inertia at h
  simp only at h
  split_ifs at h
  · simp only [Option.some.injEq] at h
    subst h
    exact Or.inl rfl
  · have hd := loop_tilt_decision rp cfg _ now _ r h
    exact hd
  · exact loop_tilt_decision rp cfg s now x r h

theorem loop_moving_decision (rp : ℚ → ℚ) (cfg : Config) (s : State) (now : Nat)
    (r : State × List Effect) (h : loop_moving rp cfg s now = some r) :
    r.1.fsm_state_ = s.fsm_state_ ∨
      r.1.fsm_state_ = arrival_state cfg s.current_recalibration_time_ r.1 := by
  unfold loop_moving at h
  simp only at h
  split_ifs at h
  · simp only [Option.some.injEq] at h
    subst h
    exact Or.inl rfl
  · have hd := loop_inertia_decision rp cfg _ now _ r h
    exact hd
  · have hd := loop_inertia_decision rp cfg _ now _ r h
    exact hd

/-- C16, amended claim. On every Moving tick that ends the move (a target is reached: the
machine is no longer Moving after the tick), the machine is Calibrating exactly when the
recalibration time loaded for the move is non-zero and the stored state passes the test of
`is_at_extreme_position_`: position 0 with tilt 0 (or no tilt close duration configured), or
position 1 with tilt 1 (or no tilt open duration configured); it is Stopping in every other
case. -/
theorem C16_calibrating_or_stopping_on_arrival (rp : ℚ → ℚ) (cfg : Config) (s : State)
    (now : Nat) (r : State × List Effect) (h : loop rp cfg s now = some r)
    (hm : s.fsm_state_ = STATE_MOVING) (hend : r.1.fsm_state_ ≠ STATE_MOVING) :
    (r.1.fsm_state_ = STATE_CALIBRATING ↔
      s.current_recalibration_time_ ≠ 0 ∧
        ((r.1.position = 0 ∧ (cfg.tilt_close_duration_ = 0 ∨ r.1.tilt = 0)) ∨
          (r.1.position = 1 ∧ (cfg.tilt_open_duration_ = 0 ∨ r.1.tilt = 1)))) ∧
    (r.1.fsm_state_ ≠ STATE_CALIBRATING → r.1.fsm_state_ = STATE_STOPPING) := by
  rw [loop_of_moving rp cfg s now hm] at h
  rcases loop_moving_decision rp cfg s now r h with hk | hd
  · rw [hk, hm] at hend
    exact absurd rfl hend
  · have hx : is_at_extreme_position_ cfg r.1 = true ↔
        ((r.1.position = 0 ∧ (cfg.tilt_close_duration_ = 0 ∨ r.1.tilt = 0)) ∨
          (r.1.position = 1 ∧ (cfg.tilt_open_duration_ = 0 ∨ r.1.tilt = 1))) := by
      simp [is_at_extreme_position_, COVER_CLOSED, COVER_OPEN]
    rw [← hx, hd]
    unfold arrival_state
    by_cases hc : 0 < s.current_recalibration_time_ ∧ is_at_extreme_position_ cfg r.1 = true
    · rw [if_pos hc]
      exact ⟨⟨fun _ => ⟨Nat.pos_iff_ne_zero.mp hc.1, hc.2⟩, fun _ => rfl⟩,
        fun hne => absurd rfl hne⟩
    · rw [if_neg hc]
      refine ⟨⟨fun hcal => absurd hcal (by simp), fun hcal => ?_⟩, fun _ => rfl⟩
      exact absurd ⟨Nat.pos_iff_ne_zero.mpr hcal.1, hcal.2⟩ hc

theorem c16_eval_request : control c16_idle_state (set_tilt 0) =
    { c16_idle_state with target_tilt_ := 0 } := by
  norm_num [control, control_set, set_tilt, initial_state, c16_idle_state, TARGET_NONE]

theorem c16_eval_start :
    loop (round_position (1 / 100)) tilt_recalibration_config
        { c16_idle_state with target_tilt_ := 0 } 0 =
      some (c16_moving_state, [Effect.close_trigger]) := by
  norm_num [loop, loop_idle, resolve_direction, compute_direction, initial_state,
    c16_idle_state, c16_moving_state, tilt_recalibration_config, tilt_config,
    plain_config, TARGET_NONE, usub]

theorem c16_eval_arrival :
    loop (round_position (1 / 100)) tilt_recalibration_config c16_moving_state 2000 =
      some (c16_stopping_state, []) := by
  decide!

/-- C16, counterexample. Tilt durations of 2 s and a recalibration close time of 1 s are
configured. From position 0.5 and tilt 1, a tilt-only request for tilt 0 starts a closing
move with the recalibration time 1000 loaded; the moving tick at clock value 2000 reaches the
tilt target with the tilt exactly 0, a travel extreme of the axis that was moved, and the
machine is Stopping, not Calibrating: the position is 0.5. -/
theorem C16_tilt_extreme_arrival_stops :
    run (round_position (1 / 100)) tilt_recalibration_config c16_idle_state
        [Input.request (set_tilt 0), Input.tick 0] =
      some (c16_moving_state, [[], [Effect.close_trigger]]) ∧
    c16_moving_state.fsm_state_ = STATE_MOVING ∧
    c16_moving_state.target_position_ = TARGET_NONE ∧
    c16_moving_state.current_recalibration_time_ = 1000 ∧
    loop (round_position (1 / 100)) tilt_recalibration_config c16_moving_state 2000 =
      some (c16_stopping_state, []) ∧
    c16_stopping_state.target_tilt_ = TARGET_NONE ∧
    c16_stopping_state.tilt = 0 ∧
    c16_stopping_state.position = 1 / 2 ∧
    c16_stopping_state.fsm_state_ = STATE_STOPPING := by
  refine ⟨?_, rfl, rfl, rfl, c16_eval_arrival, rfl, rfl, rfl, rfl⟩
  simp only [run, step, c16_eval_request, c16_eval_start]

/-- Witness of C16: the moving tick at clock value 2000 of the tilt-only closing move from
position 0 and tilt 1, with the recalibration time 1000 loaded, ends the move with position 0
and tilt 0, in Calibrating. -/
theorem C16_calibrating_or_stopping_on_arrival_witness :
    loop (round_position (1 / 100)) tilt_recalibration_config c6_moving_state 2000 =
      some (c6_calibrating_state, [Effect.publish_state false]) ∧
    (c6_calibrating_state.fsm_state_ = STATE_CALIBRATING ↔
      c6_moving_state.current_recalibration_time_ ≠ 0 ∧
        ((c6_calibrating_state.position = 0 ∧
            (tilt_recalibration_config.tilt_close_duration_ = 0 ∨
              c6_calibrating_state.tilt = 0)) ∨
          (c6_calibrating_state.position = 1 ∧
            (tilt_recalibration_config.tilt_open_duration_ = 0 ∨
              c6_calibrating_state.tilt = 1)))) ∧
    (c6_calibrating_state.fsm_state_ ≠ STATE_CALIBRATING →
      c6_calibrating_state.fsm_state_ = STATE_STOPPING) :=
  ⟨c6_eval_arrival,
    C16_calibrating_or_stopping_on_arrival (round_position (1 / 100))
      tilt_recalibration_config c6_moving_state 2000
      (c6_calibrating_state, [Effect.publish_state false]) c6_eval_arrival rfl
      (by simp [c6_calibrating_state])⟩

/-! ## C17: ticks deferred by the interlock -/

theorem compute_direction_idle_iff (a b : ℚ) :
    compute_direction a b = COVER_OPERATION_IDLE ↔ a = b := by
  constructor
  · intro h
    by_contra hne
    rcases compute_direction_cases a b hne with ⟨hc, _⟩ | ⟨hc, _⟩ <;> rw [hc] at h <;>
      exact absurd h (by simp)
  · intro h
    rw [h]
    exact compute_direction_self b

/-- The three outcomes of the direction resolution: from a position target that differs from
the position; from the tilt target, with the position target cleared, when the position
target equals the position; from the tilt target when no position target is set. -/
theorem resolve_direction_cases (s : State) :
    (s.target_position_ ≠ TARGET_NONE ∧ s.target_position_ ≠ s.position ∧
      resolve_direction s =
        { s with current_operation := compute_direction s.target_position_ s.position }) ∨
    (s.target_position_ ≠ TARGET_NONE ∧ s.target_position_ = s.position ∧
      resolve_direction s =
        { s with
          target_position_ := TARGET_NONE
          current_operation :=
            if s.target_tilt_ ≠ TARGET_NONE then compute_direction s.target_tilt_ s.tilt
            else COVER_OPERATION_IDLE }) ∨
    (s.target_position_ = TARGET_NONE ∧
      resolve_direction s =
        { s with current_operation := compute_direction s.target_tilt_ s.tilt }) := by
  by_cases h1 : s.target_position_ ≠ TARGET_NONE
  · by_cases h2 : s.target_position_ = s.position
    · right
      left
      refine ⟨h1, h2, ?_⟩
      have hc := (compute_direction_idle_iff _ _).mpr h2
      unfold resolve_direction
      simp only
      rw [if_pos h1, if_pos hc, hc]
      by_cases h3 : s.target_tilt_ ≠ TARGET_NONE
      · rw [if_pos h3, if_pos h3]
      · rw [if_neg h3, if_neg h3]
    · left
      refine ⟨h1, h2, ?_⟩
      have hc : ¬ compute_direction s.target_position_ s.position = COVER_OPERATION_IDLE :=
        fun h => h2 ((compute_direction_idle_iff _ _).mp h)
      unfold resolve_direction
      simp only
      rw [if_pos h1, if_neg hc]
  · right
    right
    refine ⟨not_not.mp h1, ?_⟩
    unfold resolve_direction
    simp only
    rw [if_neg h1]

/-- What the direction resolution changes: the operation, and the position target when it
equals the position. -/
theorem resolve_direction_eq (s : State) :
    resolve_direction s =
      { s with
        current_operation := (resolve_direction s).current_operation
        target_position_ :=
          if s.target_position_ = s.position then TARGET_NONE else s.target_position_ } := by
  rcases resolve_direction_cases s with ⟨_, h2, h⟩ | ⟨_, h2, h⟩ | ⟨h1, h⟩
  · rw [if_neg h2, h]
  · rw [if_pos h2, h]
  · rw [h]
    by_cases h2 : s.target_position_ = s.position
    · rw [if_pos h2]
      simp only
      rw [h1]
    · rw [if_neg h2]

/-- After a resolution to a direction, a request is still pending and resolves to the same
state. -/
theorem resolve_direction_again (s : State)
    (hpend : s.target_position_ ≠ TARGET_NONE ∨ s.target_tilt_ ≠ TARGET_NONE)
    (hd : (resolve_direction s).current_operation ≠ COVER_OPERATION_IDLE) :
    ((resolve_direction s).target_position_ ≠ TARGET_NONE ∨
      (resolve_direction s).target_tilt_ ≠ TARGET_NONE) ∧
    resolve_direction (resolve_direction s) = resolve_direction s := by
  rcases resolve_direction_cases s with ⟨h1, h2, h⟩ | ⟨h1, h2, h⟩ | ⟨h1, h⟩
  · rw [h]
    refine ⟨Or.inl h1, ?_⟩
    rcases resolve_direction_cases
      { s with current_operation := compute_direction s.target_position_ s.position } with
      ⟨_, _, h'⟩ | ⟨_, h2', _⟩ | ⟨h1', _⟩
    · rw [h']
    · exact absurd h2' h2
    · exact absurd h1' h1
  · rw [h] at hd ⊢
    simp only at hd
    by_cases h3 : s.target_tilt_ ≠ TARGET_NONE
    · rw [if_pos h3] at hd ⊢
      refine ⟨Or.inr h3, ?_⟩
      rcases resolve_direction_cases
        { s with
          target_position_ := TARGET_NONE
          current_operation := compute_direction s.target_tilt_ s.tilt } with
        ⟨h1', _, _⟩ | ⟨h1', _, _⟩ | ⟨_, h'⟩
      · exact absurd rfl h1'
      · exact absurd rfl h1'
      · rw [h']
    · rw [if_neg h3] at hd
      exact absurd rfl hd
  · rw [h] at hd ⊢
    simp only at hd
    refine ⟨?_, ?_⟩
    · rcases hpend with hp | hp
      · exact absurd h1 hp
      · exact Or.inr hp
    · rcases resolve_direction_cases
        { s with current_operation := compute_direction s.target_tilt_ s.tilt } with
        ⟨h1', _, _⟩ | ⟨h1', _, _⟩ | ⟨_, h'⟩
      · exact absurd h1 h1'
      · exact absurd h1 h1'
      · rw [h']

/-- C17, amended claim. A tick deferred by the interlock: for every Idle state whose pending
request resolves to the Opening or Closing direction held in `interlocked_direction_`, a
tick at clock value `now` with `now - interlocked_time_ < interlock_wait_time_` fires no
action. Of the state it changes no field but `current_operation` and, when the position
target equals the position, the position target, which it clears: the FSM state stays Idle
and position, tilt, `last_operation_`, the interlock fields, the timers and the tilt target
are unchanged. Every later tick behaves from the state after the deferred tick as it does
from the state before it: the request is evaluated again. -/
theorem C17_interlock_deferred_tick (rp : ℚ → ℚ) (cfg : Config) (s : State) (now : Nat)
    (hidle : s.fsm_state_ = STATE_IDLE)
    (hpend : s.target_position_ ≠ TARGET_NONE ∨ s.target_tilt_ ≠ TARGET_NONE)
    (hd : (resolve_direction s).current_operation ≠ COVER_OPERATION_IDLE)
    (hdir : (resolve_direction s).current_operation = s.interlocked_direction_)
    (hwait : usub now s.interlocked_time_ < cfg.interlock_wait_time_) :
    ∃ r, loop rp cfg s now = some (r, []) ∧
      r = { s with
        current_operation := r.current_operation
        target_position_ :=
          if s.target_position_ = s.position then TARGET_NONE else s.target_position_ } ∧
      ∀ later, loop rp cfg r later = loop rp cfg s later := by
  have heq := resolve_direction_eq s
  have hfields : (resolve_direction s).interlocked_direction_ = s.interlocked_direction_ ∧
      (resolve_direction s).interlocked_time_ = s.interlocked_time_ ∧
      (resolve_direction s).fsm_state_ = s.fsm_state_ := by
    rw [heq]
    exact ⟨rfl, rfl, rfl⟩
  have hagain := resolve_direction_again s hpend hd
  have hidle2 : ∀ t, loop_idle cfg s t = loop_idle cfg (resolve_direction s) t := by
    intro t
    unfold loop_idle
    simp only
    rw [hagain.2]
  refine ⟨resolve_direction s, ?_, heq, fun later => ?_⟩
  · rw [loop_of_idle_pending rp cfg s now hidle hpend]
    unfold loop_idle
    simp only
    rw [if_neg hd, if_pos ⟨by rw [hfields.1]; exact hdir, by rw [hfields.2.1]; exact hwait⟩]
  · rw [loop_of_idle_pending rp cfg s later hidle hpend,
      loop_of_idle_pending rp cfg (resolve_direction s) later (hfields.2.2.trans hidle)
        hagain.1, hidle2 later]

theorem c17_run_to_request :
    run (round_position (1 / 100)) c17_config initial_state
        [Input.request (set_position 1), Input.tick 0, Input.request stop_call,
          Input.tick 100, Input.request c17_call] =
      some (c17_request_state,
        [[], [Effect.open_trigger], [], [Effect.stop_trigger, Effect.publish_state true],
          []]) := by
  have h1 : control initial_state (set_position 1) = c1_request_state := by
    norm_num [control, control_set, set_position, initial_state, c1_request_state,
      TARGET_NONE]
  have h2 : loop (round_position (1 / 100)) c17_config c1_request_state 0 =
      some (started_opening_state, [Effect.open_trigger]) := by
    norm_num [loop, loop_idle, resolve_direction, compute_direction, initial_state,
      c1_request_state, started_opening_state, c17_config, tilt_config, plain_config,
      TARGET_NONE, usub]
  have h3 : control started_opening_state stop_call = c3_stopping_state := by
    norm_num [control, stop_call, initial_state, started_opening_state, c3_stopping_state]
  have h4 : loop (round_position (1 / 100)) c17_config c3_stopping_state 100 =
      some (c3_stopped_state, [Effect.stop_trigger, Effect.publish_state true]) := by
    norm_num [loop, loop_stopping, round_position, initial_state, c3_stopping_state,
      c3_stopped_state, TARGET_NONE]
  have h5 : control c3_stopped_state c17_call = c17_request_state := by
    norm_num [control, control_set, c17_call, initial_state, c3_stopped_state,
      c17_request_state, TARGET_NONE]
  simp only [run, step, h1, h2, h3, h4, h5]

theorem c17_eval_deferred :
    loop (round_position (1 / 100)) c17_config c17_request_state 200 =
      some (c17_deferred_state, []) := by
  norm_num [loop, loop_idle, resolve_direction, compute_direction, initial_state,
    c3_stopped_state, c17_request_state, c17_deferred_state, c17_config, tilt_config,
    plain_config, TARGET_NONE, usub]

/-- C17, counterexample. With tilt durations of 2 s and an interlock wait of 1 s, an opening
run started at clock value 0 is stopped by the tick at clock value 100, which records the
interlock against the closing direction; a request for position 0.5, the current position,
and tilt 0 follows. The machine is Idle with operation Idle and the request resolves to the
closing direction. The tick at clock value 200 is deferred (200 - 100 < 1000) and fires
nothing, but it does not leave the state unchanged: the pending position target 0.5 is
cleared and the operation is Closing. -/
theorem C17_deferred_tick_changes_state :
    run (round_position (1 / 100)) c17_config initial_state
        [Input.request (set_position 1), Input.tick 0, Input.request stop_call,
          Input.tick 100, Input.request c17_call] =
      some (c17_request_state,
        [[], [Effect.open_trigger], [], [Effect.stop_trigger, Effect.publish_state true],
          []]) ∧
    c17_request_state.fsm_state_ = STATE_IDLE ∧
    c17_request_state.current_operation = COVER_OPERATION_IDLE ∧
    (resolve_direction c17_request_state).current_operation =
      c17_request_state.interlocked_direction_ ∧
    usub 200 c17_request_state.interlocked_time_ < c17_config.interlock_wait_time_ ∧
    loop (round_position (1 / 100)) c17_config c17_request_state 200 =
      some (c17_deferred_state, []) ∧
    c17_request_state.target_position_ = 1 / 2 ∧
    c17_deferred_state.target_position_ = TARGET_NONE ∧
    c17_deferred_state.current_operation = COVER_OPERATION_CLOSING := by
  refine ⟨c17_run_to_request, rfl, rfl, ?_, ?_, c17_eval_deferred, rfl, rfl, rfl⟩
  · norm_num [resolve_direction, compute_direction, c17_request_state, c3_stopped_state,
      initial_state, TARGET_NONE]
  · norm_num [usub, c17_request_state, c3_stopped_state, c17_config]

/-- Witness of C17: the deferred tick at clock value 200 of the run above. -/
theorem C17_interlock_deferred_tick_witness :
    ∃ r, loop (round_position (1 / 100)) c17_config c17_request_state 200 = some (r, []) ∧
      r = { c17_request_state with
        current_operation := r.current_operation
        target_position_ :=
          if c17_request_state.target_position_ = c17_request_state.position then TARGET_NONE
          else c17_request_state.target_position_ } ∧
      ∀ later, loop (round_position (1 / 100)) c17_config r later =
        loop (round_position (1 / 100)) c17_config c17_request_state later :=
  C17_interlock_deferred_tick (round_position (1 / 100)) c17_config c17_request_state 200 rfl
    (Or.inl (by norm_num [c17_request_state, TARGET_NONE]))
    (by norm_num [resolve_direction, compute_direction, c17_request_state, c3_stopped_state,
      initial_state, TARGET_NONE])
    (by norm_num [resolve_direction, compute_direction, c17_request_state, c3_stopped_state,
      initial_state, TARGET_NONE])
    (by norm_num [usub, c17_request_state, c3_stopped_state, c17_config])

/-! ## C18, C19: the activation and inertia phases -/

/-- The moving branch is the activation block followed by the inertia phase. -/
theorem loop_moving_activation_phase (rp : ℚ → ℚ) (cfg : Config) (s : State) (now : Nat) :
    loop_moving rp cfg s now =
      match activation_phase { s with last_recompute_time_ := now }
          (usub now s.last_recompute_time_) with
      | (s1, none) => some (s1, [])
      | (s1, some t) => loop_inertia rp cfg s1 now t := by
  unfold loop_moving activation_phase
  simp only
  split_ifs <;> rfl

/-- The inertia phase of the moving branch is the inertia block followed by the tilt
phase. -/
theorem loop_inertia_phase (rp : ℚ → ℚ) (cfg : Config) (s : State) (now x : Nat) :
    loop_inertia rp cfg s now x =
      match inertia_phase cfg s x with
      | (s1, none) => some (s1, [])
      | (s1, some t) => loop_tilt rp cfg s1 now t := by
  unfold loop_inertia inertia_phase
  simp only
  split_ifs <;> rfl

theorem dir_factor_cases (op : CoverOperation) : dir_factor op = 1 ∨ dir_factor op = -1 := by
  unfold dir_factor
  split_ifs
  · exact Or.inr rfl
  · exact Or.inl rfl

theorem half_grid : ∃ k : ℤ, (1 / 2 : ℚ) = k * (2 : ℚ) ^ (-149 : ℤ) :=
  ⟨2 ^ 148, by norm_num⟩

theorem neg_half_grid : ∃ k : ℤ, (-1 / 2 : ℚ) = k * (2 : ℚ) ^ (-149 : ℤ) :=
  ⟨-2 ^ 148, by norm_num⟩

/-- The inertia block when the rounded sum stays in `[-0.5, 0.5]`: the tick ends in it. -/
theorem inertia_phase_short (cfg : Config) (s : State) (e : Nat)
    (hI : 0 < inertia_time cfg s.current_operation)
    (henter : fmul s.inertia_ (dir_factor s.current_operation) < 1 / 2)
    (h0 : -1 / 2 ≤ fadd s.inertia_ (fdiv (fmul (dir_factor s.current_operation) (of_uint32 e))
      (of_uint32 (inertia_time cfg s.current_operation))))
    (h1 : fadd s.inertia_ (fdiv (fmul (dir_factor s.current_operation) (of_uint32 e))
      (of_uint32 (inertia_time cfg s.current_operation))) ≤ 1 / 2) :
    inertia_phase cfg s e =
      ({ s with
        inertia_ :=
          fadd s.inertia_ (fdiv (fmul (dir_factor s.current_operation) (of_uint32 e))
            (of_uint32 (inertia_time cfg s.current_operation))) }, none) := by
  unfold inertia_phase
  simp only
  rw [if_pos ⟨hI, henter⟩, clamp_eq_self _ _ _ h0 h1, if_pos (by
    unfold fsub
    rw [sub_self, r32_zero])]

/-- The inertia block when the rounded sum leaves `[-0.5, 0.5]`: it leaves it on the side of
the direction, the accumulator is clamped there and the rest is handed on. -/
theorem inertia_phase_long (cfg : Config) (s : State) (e : Nat)
    (hI : 0 < inertia_time cfg s.current_operation)
    (ha0 : -1 / 2 ≤ s.inertia_) (ha1 : s.inertia_ ≤ 1 / 2)
    (henter : fmul s.inertia_ (dir_factor s.current_operation) < 1 / 2)
    (hout : ¬ (-1 / 2 ≤ fadd s.inertia_ (fdiv (fmul (dir_factor s.current_operation)
        (of_uint32 e)) (of_uint32 (inertia_time cfg s.current_operation))) ∧
      fadd s.inertia_ (fdiv (fmul (dir_factor s.current_operation) (of_uint32 e))
        (of_uint32 (inertia_time cfg s.current_operation))) ≤ 1 / 2)) :
    inertia_phase cfg s e =
      ({ s with inertia_ := dir_factor s.current_operation * (1 / 2) },
        some (to_uint32 (fmul (fmul (dir_factor s.current_operation)
          (fsub (fadd s.inertia_ (fdiv (fmul (dir_factor s.current_operation) (of_uint32 e))
            (of_uint32 (inertia_time cfg s.current_operation))))
            (dir_factor s.current_operation * (1 / 2))))
          (of_uint32 (inertia_time cfg s.current_operation))))) := by
  have hq := fdiv_of_uint32_nonneg e (inertia_time cfg s.current_operation)
  generalize hadef : fadd s.inertia_ (fdiv (fmul (dir_factor s.current_operation)
    (of_uint32 e)) (of_uint32 (inertia_time cfg s.current_operation))) = a1 at hout ⊢
  have hgrid : ∃ k : ℤ, a1 = k * (2 : ℚ) ^ (-149 : ℤ) := by
    rw [← hadef]
    unfold fadd
    exact r32_grid _
  have hclamp : clamp a1 (-1 / 2) (1 / 2) = dir_factor s.current_operation * (1 / 2) ∧
      a1 ≠ dir_factor s.current_operation * (1 / 2) ∧
      ∃ k : ℤ, dir_factor s.current_operation * (1 / 2) = k * (2 : ℚ) ^ (-149 : ℤ) := by
    rcases dir_factor_cases s.current_operation with hdf | hdf
    · have hlo : -1 / 2 ≤ a1 := by
        rw [← hadef, hdf, opening_step]
        unfold fadd
        have := r32_mono (-1 / 2) (s.inertia_ + fdiv (of_uint32 e)
          (of_uint32 (inertia_time cfg s.current_operation))) (by linarith)
        rwa [r32_neg_half] at this
      have hhi : 1 / 2 < a1 := by
        by_contra hc
        exact hout ⟨hlo, not_lt.mp hc⟩
      rw [hdf, one_mul]
      refine ⟨?_, ne_of_gt hhi, half_grid⟩
      unfold clamp
      rw [if_neg (not_lt.mpr hlo), if_pos hhi]
    · have hhi : a1 ≤ 1 / 2 := by
        rw [← hadef, hdf, closing_step]
        unfold fadd
        have := r32_mono (s.inertia_ + -fdiv (of_uint32 e)
          (of_uint32 (inertia_time cfg s.current_operation))) (1 / 2) (by linarith)
        rwa [r32_half] at this
      have hlo : a1 < -1 / 2 := by
        by_contra hc
        exact hout ⟨not_lt.mp hc, hhi⟩
      have hneg : (-1 : ℚ) * (1 / 2) = -1 / 2 := by norm_num
      rw [hdf, hneg]
      refine ⟨?_, ne_of_lt hlo, neg_half_grid⟩
      unfold clamp
      rw [if_pos hlo]
  have hrest : fsub a1 (dir_factor s.current_operation * (1 / 2)) ≠ 0 := by
    unfold fsub
    exact r32_sub_ne_zero _ _ hgrid hclamp.2.2 hclamp.2.1
  unfold inertia_phase
  simp only
  rw [if_pos ⟨hI, henter⟩, hadef, hclamp.1, if_neg hrest]

/-- C18, amended claim. Inertia phase: for every moving tick that enters the inertia phase
with the accumulator `a` in `[-0.5, 0.5]`, direction sign `s`, inertia time `I > 0` and
elapsed time `e` (whole milliseconds) left after the activation phase, let
`a1 = a ⊕ (s·e ⊘ I)` be the accumulator after the step, sum and quotient rounded to binary32.
If `a1` lies in `[-0.5, 0.5]` the accumulator becomes `a1` and the tick ends there, changing
no other field; otherwise the accumulator becomes `s*0.5` and the time handed to the tilt and
position phases is the binary32 product `(s·(a1 ⊖ s*0.5)) ⊗ I` truncated to whole
milliseconds. In both cases the accumulator stays in `[-0.5, 0.5]`. -/
theorem C18_inertia_phase_in_binary32 (rp : ℚ → ℚ) (cfg : Config)
    (s : State) (now e : Nat)
    (hI : 0 < inertia_time cfg s.current_operation)
    (ha0 : -1 / 2 ≤ s.inertia_) (ha1 : s.inertia_ ≤ 1 / 2)
    (henter : fmul s.inertia_ (dir_factor s.current_operation) < 1 / 2) :
    ((-1 / 2 ≤ fadd s.inertia_ (fdiv (fmul (dir_factor s.current_operation) (of_uint32 e))
          (of_uint32 (inertia_time cfg s.current_operation))) ∧
        fadd s.inertia_ (fdiv (fmul (dir_factor s.current_operation) (of_uint32 e))
          (of_uint32 (inertia_time cfg s.current_operation))) ≤ 1 / 2) →
      inertia_phase cfg s e =
        ({ s with
          inertia_ :=
            fadd s.inertia_ (fdiv (fmul (dir_factor s.current_operation) (of_uint32 e))
              (of_uint32 (inertia_time cfg s.current_operation))) }, none) ∧
      loop_inertia rp cfg s now e =
        some ({ s with
          inertia_ :=
            fadd s.inertia_ (fdiv (fmul (dir_factor s.current_operation) (of_uint32 e))
              (of_uint32 (inertia_time cfg s.current_operation))) }, [])) ∧
    (¬ (-1 / 2 ≤ fadd s.inertia_ (fdiv (fmul (dir_factor s.current_operation) (of_uint32 e))
          (of_uint32 (inertia_time cfg s.current_operation))) ∧
        fadd s.inertia_ (fdiv (fmul (dir_factor s.current_operation) (of_uint32 e))
          (of_uint32 (inertia_time cfg s.current_operation))) ≤ 1 / 2) →
      inertia_phase cfg s e =
        ({ s with inertia_ := dir_factor s.current_operation * (1 / 2) },
          some (to_uint32 (fmul (fmul (dir_factor s.current_operation)
            (fsub (fadd s.inertia_ (fdiv (fmul (dir_factor s.current_operation) (of_uint32 e))
              (of_uint32 (inertia_time cfg s.current_operation))))
              (dir_factor s.current_operation * (1 / 2))))
            (of_uint32 (inertia_time cfg s.current_operation))))) ∧
      loop_inertia rp cfg s now e =
        loop_tilt rp cfg { s with inertia_ := dir_factor s.current_operation * (1 / 2) } now
          (to_uint32 (fmul (fmul (dir_factor s.current_operation)
            (fsub (fadd s.inertia_ (fdiv (fmul (dir_factor s.current_operation) (of_uint32 e))
              (of_uint32 (inertia_time cfg s.current_operation))))
              (dir_factor s.current_operation * (1 / 2))))
            (of_uint32 (inertia_time cfg s.current_operation))))) ∧
    -1 / 2 ≤ (inertia_phase cfg s e).1.inertia_ ∧ (inertia_phase cfg s e).1.inertia_ ≤ 1 / 2 := by
  refine ⟨?_, ?_, ?_⟩
  · intro hin
    have h1 := inertia_phase_short cfg s e hI henter hin.1 hin.2
    refine ⟨h1, ?_⟩
    rw [loop_inertia_phase, h1]
  · intro hout
    have h1 := inertia_phase_long cfg s e hI ha0 ha1 henter hout
    refine ⟨h1, ?_⟩
    rw [loop_inertia_phase, h1]
  · unfold inertia_phase
    simp only
    rw [if_pos ⟨hI, henter⟩]
    split_ifs <;> exact ⟨clamp_ge _ _ _ (by norm_num), clamp_le _ _ _ (by norm_num)⟩

theorem c18_run_to_moving :
    run (round_position (1 / 100)) c18_config initial_state
        [Input.request (set_position 1), Input.tick 0] =
      some (started_opening_state, [[], [Effect.open_trigger]]) := by
  decide!

theorem c18_eval_phase :
    inertia_phase c18_config started_opening_state 2 =
      ({ started_opening_state with inertia_ := 1 / 2 }, some 0) := by
  decide!

theorem c18_eval_tick :
    loop (round_position (1 / 100)) c18_config started_opening_state 2 =
      some (c18_moved_state, []) := by
  decide!

/-- C18, counterexample. With an inertia time of 3 ms in the opening direction and an open
duration of 10 s, an opening move is started at clock value 0 with the accumulator at 0, so
that `need = (0.5 - 0) * 3 = 1.5`. The moving tick at clock value 2 has `e = 2 > need`: the
accumulator becomes 0.5, but the time handed to the later phases is 0, not
`e - need = 0.5`, and the position is the same after the tick as before it. With an inertia
time of 1000 ms, `need = 500`; an elapsed time of 700 ms hands on 199 ms, not
`e - need = 200`: the binary32 value of `0.7 - 0.5` times 1000 is below 200. -/
theorem C18_residual_time_is_truncated :
    run (round_position (1 / 100)) c18_config initial_state
        [Input.request (set_position 1), Input.tick 0] =
      some (started_opening_state, [[], [Effect.open_trigger]]) ∧
    inertia_need c18_config started_opening_state = 3 / 2 ∧
    inertia_phase c18_config started_opening_state 2 =
      ({ started_opening_state with inertia_ := 1 / 2 }, some 0) ∧
    ((2 : Nat) : ℚ) - inertia_need c18_config started_opening_state = 1 / 2 ∧
    loop (round_position (1 / 100)) c18_config started_opening_state 2 =
      some (c18_moved_state, []) ∧
    c18_moved_state.position = started_opening_state.position ∧
    inertia_need c18_rounding_config started_opening_state = 500 ∧
    inertia_phase c18_rounding_config started_opening_state 700 =
      ({ started_opening_state with inertia_ := 1 / 2 }, some 199) ∧
    ((700 : Nat) : ℚ) - inertia_need c18_rounding_config started_opening_state = 200 := by
  refine ⟨c18_run_to_moving, ?_, c18_eval_phase, ?_, c18_eval_tick, rfl, ?_, ?_, ?_⟩
  · decide!
  · decide!
  · decide!
  · decide!
  · decide!

/-- Witness of C18: with an inertia time of 400 ms and the accumulator at 0, an elapsed time
of 300 ms takes the rounded sum to 0.75, outside `[-0.5, 0.5]`: the accumulator becomes 0.5
and 100 ms are handed on. -/
theorem C18_inertia_phase_in_binary32_witness :
    inertia_phase c18_witness_config started_opening_state 300 =
      ({ started_opening_state with inertia_ := 1 / 2 }, some 100) := by
  have h := ((C18_inertia_phase_in_binary32 (round_position (1 / 100))
    c18_witness_config started_opening_state 300 300 (by decide!) (by decide!) (by decide!)
    (by decide!)).2.1 (by decide!)).1
  rw [h]
  decide!

/-- A moving tick that begins with activation time left and does not exceed it: pure dead
time. -/
theorem loop_dead_time (rp : ℚ → ℚ) (cfg : Config) (s : State) (e : Nat)
    (hm : s.fsm_state_ = STATE_MOVING) (hpos : 0 < s.current_actuator_activation_time_)
    (hle : e ≤ s.current_actuator_activation_time_) (he : e < 4294967296) :
    loop rp cfg s (s.last_recompute_time_ + e) =
      some ({ s with
        last_recompute_time_ := s.last_recompute_time_ + e
        current_actuator_activation_time_ := s.current_actuator_activation_time_ - e }, []) := by
  rw [loop_of_moving rp cfg s _ hm]
  unfold loop_moving
  simp only
  rw [usub_add_left _ _ he, if_pos hpos, if_pos hle]

/-- A moving tick that exceeds the activation time left: the surplus is handed to the inertia
phase. -/
theorem loop_past_dead_time (rp : ℚ → ℚ) (cfg : Config) (s : State) (e : Nat)
    (hm : s.fsm_state_ = STATE_MOVING) (hlt : s.current_actuator_activation_time_ < e)
    (he : e < 4294967296) :
    activation_phase { s with last_recompute_time_ := s.last_recompute_time_ + e } e =
      ({ s with
        last_recompute_time_ := s.last_recompute_time_ + e
        current_actuator_activation_time_ := 0 },
        some (e - s.current_actuator_activation_time_)) ∧
    loop rp cfg s (s.last_recompute_time_ + e) =
      loop_inertia rp cfg
        { s with
          last_recompute_time_ := s.last_recompute_time_ + e
          current_actuator_activation_time_ := 0 }
        (s.last_recompute_time_ + e) (e - s.current_actuator_activation_time_) := by
  have hph : activation_phase { s with last_recompute_time_ := s.last_recompute_time_ + e } e =
      ({ s with
        last_recompute_time_ := s.last_recompute_time_ + e
        current_actuator_activation_time_ := 0 },
        some (e - s.current_actuator_activation_time_)) := by
    unfold activation_phase
    simp only
    by_cases hpos : 0 < s.current_actuator_activation_time_
    · rw [if_pos hpos, if_neg (Nat.not_le.mpr hlt)]
    · have hz : s.current_actuator_activation_time_ = 0 := Nat.eq_zero_of_not_pos hpos
      rw [if_neg hpos, hz, Nat.sub_zero]
  refine ⟨hph, ?_⟩
  rw [loop_of_moving rp cfg s _ hm, loop_moving_activation_phase, usub_add_left _ _ he, hph]

/-- C19. Actuator activation dead time: a move is in flight with the activation time `A`
left at the clock value `t` of its last tick. Moving ticks follow with elapsed times `es`,
each of them beginning before the dead time is used up, and the accumulated time `es.sum` is
at most `A`: every one of these ticks fires nothing and after them the remaining activation
time is `A - es.sum`, while position, tilt, the inertia accumulator and every other field
but the time of the last tick are unchanged. A further tick of elapsed time `e` with
`es.sum + e > A` sets the remaining activation time to 0 and hands exactly the surplus
`es.sum + e - A` to the inertia, tilt and position phases. -/
theorem C19_activation_dead_time (rp : ℚ → ℚ) (cfg : Config) (es : List Nat) (s : State)
    (t A : Nat) (hm : s.fsm_state_ = STATE_MOVING)
    (hA : s.current_actuator_activation_time_ = A) (ht : s.last_recompute_time_ = t)
    (hA32 : A < 4294967296)
    (hbegin : ∀ k < es.length, (es.take k).sum < A) (hsum : es.sum ≤ A) :
    run rp cfg s ((clock_values t es).map Input.tick) =
      some ({ s with
        last_recompute_time_ := t + es.sum
        current_actuator_activation_time_ := A - es.sum }, es.map (fun _ => [])) ∧
    ∀ e, A < es.sum + e → e < 4294967296 →
      activation_phase
          { s with
            last_recompute_time_ := t + es.sum + e
            current_actuator_activation_time_ := A - es.sum } e =
        ({ s with
          last_recompute_time_ := t + es.sum + e
          current_actuator_activation_time_ := 0 }, some (es.sum + e - A)) ∧
      loop rp cfg
          { s with
            last_recompute_time_ := t + es.sum
            current_actuator_activation_time_ := A - es.sum } (t + es.sum + e) =
        loop_inertia rp cfg
          { s with
            last_recompute_time_ := t + es.sum + e
            current_actuator_activation_time_ := 0 } (t + es.sum + e) (es.sum + e - A) := by
  induction es generalizing s t A with
  | nil =>
    subst hA ht
    simp only [clock_values, List.map_nil, run, List.sum_nil, Nat.add_zero, Nat.sub_zero,
      Nat.zero_add]
    refine ⟨trivial, fun e hlt he => ?_⟩
    exact loop_past_dead_time rp cfg s e hm hlt he
  | cons e rest ih =>
    have h0 : 0 < A := by
      have := hbegin 0 (by simp)
      simpa using this
    have hsum2 : e + rest.sum ≤ A := by
      simpa using hsum
    have hle : e ≤ A := by omega
    have htick := loop_dead_time rp cfg s e hm (by rw [hA]; exact h0) (by rw [hA]; exact hle)
      (by omega)
    rw [ht, hA] at htick
    have hbegin2 : ∀ k < rest.length, (rest.take k).sum < A - e := by
      intro k hk
      have := hbegin (k + 1) (by simp; omega)
      simp only [List.take_succ_cons, List.sum_cons] at this
      omega
    obtain ⟨ih1, ih2⟩ := ih
      { s with
        last_recompute_time_ := t + e
        current_actuator_activation_time_ := A - e } (t + e) (A - e) hm rfl rfl (by omega)
      hbegin2 (by omega)
    have e1 : t + e + rest.sum = t + (e + rest.sum) := by omega
    have e2 : A - e - rest.sum = A - (e + rest.sum) := by omega
    simp only [e1, e2] at ih1 ih2
    constructor
    · simp only [clock_values, List.map_cons, run, step, htick, ih1, List.sum_cons]
    · intro x hx hx32
      simp only [List.sum_cons] at hx ⊢
      have e3 : rest.sum + x - (A - e) = e + rest.sum + x - A := by omega
      have := ih2 x (by omega) hx32
      rw [e3] at this
      exact this

/-- Witness of C19: an opening move with an activation time of 500 ms; the ticks 200 ms and
500 ms after the start tick are dead time and leave 300 ms and then 0 ms of it; the tick at
600 ms hands the surplus of 100 ms to the later phases. -/
theorem C19_activation_dead_time_witness :
    run (round_position (1 / 100)) c19_config c19_moving_state
        [Input.tick 200, Input.tick 500] =
      some ({ c19_moving_state with
        last_recompute_time_ := 500
        current_actuator_activation_time_ := 0 }, [[], []]) ∧
    loop (round_position (1 / 100)) c19_config
        { c19_moving_state with
          last_recompute_time_ := 500
          current_actuator_activation_time_ := 0 } 600 =
      loop_inertia (round_position (1 / 100)) c19_config
        { c19_moving_state with
          last_recompute_time_ := 600
          current_actuator_activation_time_ := 0 } 600 100 := by
  have h := C19_activation_dead_time (round_position (1 / 100)) c19_config [200, 300]
    c19_moving_state 0 500 rfl rfl rfl (by norm_num)
    (by
      intro k hk
      have hk2 : k = 0 ∨ k = 1 := by
        simp only [List.length_cons, List.length_nil] at hk
        omega
      rcases hk2 with rfl | rfl <;> simp)
    (by simp)
  obtain ⟨h1, h2⟩ := h
  have h3 := (h2 100 (by simp) (by norm_num)).2
  simp only [List.sum_cons, List.sum_nil] at h1 h3
  norm_num [clock_values] at h1 h3
  exact ⟨h1, h3⟩

/-! ## C15: a move that does not end -/

theorem c15_run_to_moving :
    run (round_position (1 / 100)) (plain_config 10000 10000) c15_restored_state
        [Input.request toggle_call, Input.tick 0] =
      some (c15_moving_state, [[], [Effect.close_trigger]]) := by
  have h0 : c15_restored_state = { initial_state with position := 0 } := by
    simp [c15_restored_state, setup, initial_state]
  have h1 : control { initial_state with position := 0 } toggle_call =
      { initial_state with position := 0, target_tilt_ := 0 } := by
    norm_num [control, control_toggle, toggle_call, initial_state, COVER_CLOSED, COVER_OPEN]
  have h2 : loop (round_position (1 / 100)) (plain_config 10000 10000)
      { initial_state with position := 0, target_tilt_ := 0 } 0 =
      some (c15_moving_state, [Effect.close_trigger]) := by
    norm_num [loop, loop_idle, resolve_direction, compute_direction, initial_state,
      c15_moving_state, plain_config, TARGET_NONE, usub]
  rw [h0]
  simp only [run, step, h1, h2]

/-- A closing move toward a tilt target, without position target, on a cover without tilt
durations: when no activation time is left, a tick changes the two timers at most. -/
theorem loop_closing_tilt_target_without_tilt (rp : ℚ → ℚ) (cfg : Config) (s : State)
    (now : Nat) (hm : s.fsm_state_ = STATE_MOVING)
    (hop : s.current_operation = COVER_OPERATION_CLOSING)
    (hT : cfg.tilt_close_duration_ = 0) (hI : cfg.inertia_close_time_ = 0)
    (hact : s.current_actuator_activation_time_ = 0)
    (htp : s.target_position_ = TARGET_NONE) (hp : s.position = 0) :
    ∃ r, loop rp cfg s now = some r ∧
      r.1 = { s with
        last_recompute_time_ := now
        last_publish_time_ := r.1.last_publish_time_ } ∧
      only_publish r.2 := by
  have hI2 : inertia_time cfg s.current_operation = 0 := by
    rw [hop]
    simp [inertia_time, hI]
  have hT2 : tilt_time cfg s.current_operation = 0 := by
    rw [hop]
    simp [tilt_time, hT]
  rw [loop_of_moving rp cfg s now hm, loop_moving_no_activation rp cfg s now hact,
    loop_inertia_skip rp cfg { s with last_recompute_time_ := now } now _ hI2,
    loop_tilt_skip rp cfg { s with last_recompute_time_ := now } now _ hT2]
  have hadv : advance_position { s with last_recompute_time_ := now }
      (usub now s.last_recompute_time_)
      (move_time cfg ({ s with last_recompute_time_ := now } : State).current_operation) =
      some s.position := by
    unfold advance_position
    simp only
    have hg : fmul (fsub 0 (1 / 2)) (-1) = 1 / 2 := by decide!
    rw [if_neg]
    rw [hp, hop]
    norm_num [dir_factor]
    rw [hg]
  have hat : is_at_target_position_
      { s with last_recompute_time_ := now, position := s.position } = false := by
    unfold is_at_target_position_
    simp only
    rw [hop]
    simp only
    rw [hp, htp]
    norm_num [TARGET_NONE]
  unfold loop_position
  rw [hadv]
  simp only
  rw [hat]
  simp only [Bool.false_eq_true, if_false, List.nil_append]
  refine ⟨_, rfl, ?_, ?_⟩
  · simp only
    rw [publish_if_due_fields]
  · simp only
    unfold publish_if_due
    split_ifs
    · intro x hx
      simpa using hx
    · exact only_publish_nil

/-- Such a move stays in flight whatever ticks follow, and the stop action never fires. -/
theorem run_closing_tilt_target_without_tilt (rp : ℚ → ℚ) (cfg : Config) (nows : List Nat)
    (s : State) (hm : s.fsm_state_ = STATE_MOVING)
    (hop : s.current_operation = COVER_OPERATION_CLOSING)
    (hT : cfg.tilt_close_duration_ = 0) (hI : cfg.inertia_close_time_ = 0)
    (hact : s.current_actuator_activation_time_ = 0)
    (htp : s.target_position_ = TARGET_NONE) (hp : s.position = 0) :
    ∃ r, run rp cfg s (nows.map Input.tick) = some r ∧ r.1.fsm_state_ = STATE_MOVING ∧
      r.1.position = 0 ∧ r.1.target_tilt_ = s.target_tilt_ ∧
      ∀ e ∈ r.2, Effect.stop_trigger ∉ e := by
  induction nows generalizing s with
  | nil => exact ⟨(s, []), rfl, hm, hp, rfl, fun e he => absurd he (by simp)⟩
  | cons now rest ih =>
    obtain ⟨r1, hr1, hs1, hpub⟩ :=
      loop_closing_tilt_target_without_tilt rp cfg s now hm hop hT hI hact htp hp
    obtain ⟨r, hr, hfsm, hpos, htt, hno⟩ := ih r1.1 (by rw [hs1]; exact hm)
      (by rw [hs1]; exact hop) (by rw [hs1]; exact hact) (by rw [hs1]; exact htp)
      (by rw [hs1]; exact hp)
    refine ⟨(r.1, r1.2 :: r.2), ?_, hfsm, hpos, ?_, ?_⟩
    · simp only [List.map_cons, run, step, hr1, hr]
    · rw [htt, hs1]
    · intro e he
      rcases List.mem_cons.mp he with h | h
      · rw [h]
        exact (only_publish_no_trigger r1.2 hpub).1
      · exact hno e h

/-- C15, failing run. Travel durations of 10 s, no tilt duration, no inertia, activation or
recalibration time; `setup()` restores position 0 and tilt 0.5. A toggle request sets the
tilt target 0 (`last_operation_` is Idle and the position is 0) and the tick at clock value
0 starts a closing move. Whatever ticks follow, at whatever clock values, the machine stays
Moving with the tilt target pending and the stop action never fires: the tick 100 s after
the start, far beyond the close duration, leaves it Moving. -/
theorem C15_tilt_target_without_tilt_durations_never_arrives :
    run (round_position (1 / 100)) (plain_config 10000 10000) c15_restored_state
        [Input.request toggle_call, Input.tick 0] =
      some (c15_moving_state, [[], [Effect.close_trigger]]) ∧
    c15_moving_state.target_tilt_ = 0 ∧
    (∀ nows : List Nat, ∃ r,
      run (round_position (1 / 100)) (plain_config 10000 10000) c15_moving_state
        (nows.map Input.tick) = some r ∧
      r.1.fsm_state_ = STATE_MOVING ∧ r.1.position = 0 ∧ r.1.target_tilt_ = 0 ∧
      ∀ e ∈ r.2, Effect.stop_trigger ∉ e) ∧
    ∃ r, loop (round_position (1 / 100)) (plain_config 10000 10000) c15_moving_state 100000 =
      some r ∧ r.1.fsm_state_ = STATE_MOVING := by
  refine ⟨c15_run_to_moving, rfl, fun nows => ?_, ?_⟩
  · exact run_closing_tilt_target_without_tilt (round_position (1 / 100))
      (plain_config 10000 10000) nows c15_moving_state rfl rfl rfl rfl rfl rfl rfl
  · obtain ⟨r, hr, hs, _⟩ := loop_closing_tilt_target_without_tilt (round_position (1 / 100))
      (plain_config 10000 10000) c15_moving_state 100000 rfl rfl rfl rfl rfl rfl rfl
    exact ⟨r, hr, by rw [hs]; rfl⟩

/-! ## C20: tick granularity -/

/-- A moving tick that begins with no activation time left, or exceeds the activation time
left: the time beyond the activation time is handed to the inertia phase. -/
theorem loop_hands_on (rp : ℚ → ℚ) (cfg : Config) (s : State) (e : Nat)
    (hm : s.fsm_state_ = STATE_MOVING)
    (hact : s.current_actuator_activation_time_ = 0 ∨ s.current_actuator_activation_time_ < e)
    (he : e < 4294967296) :
    loop rp cfg s (s.last_recompute_time_ + e) =
      loop_inertia rp cfg
        { s with
          last_recompute_time_ := s.last_recompute_time_ + e
          current_actuator_activation_time_ := 0 }
        (s.last_recompute_time_ + e) (e - s.current_actuator_activation_time_) := by
  rcases hact with h0 | hlt
  · rw [loop_of_moving rp cfg s _ hm, loop_moving_no_activation rp cfg s _ h0,
      usub_add_left _ _ he, h0, Nat.sub_zero]
  · exact (loop_past_dead_time rp cfg s e hm hlt he).2

/-- C20, amended claim. Integration does not depend on tick granularity while the actuator
activation time runs: for every Moving state with a remaining activation time `r > 0` and
all elapsed times `a ≤ r` and `b > 0` (whole milliseconds, `a + b` below `2^32`), the tick
with elapsed time `a` fires nothing and leaves the machine Moving, and the tick with elapsed
time `b` that follows it has the same outcome, in every field of the state and in the calls
made, as one tick with elapsed time `a + b` from the first state. -/
theorem C20_tick_granularity_in_dead_time (rp : ℚ → ℚ) (cfg : Config) (s : State)
    (a b : Nat) (hm : s.fsm_state_ = STATE_MOVING)
    (hpos : 0 < s.current_actuator_activation_time_)
    (ha : a ≤ s.current_actuator_activation_time_)
    (hb : 0 < b) (hab : a + b < 4294967296) :
    loop rp cfg s (s.last_recompute_time_ + a) =
      some ({ s with
        last_recompute_time_ := s.last_recompute_time_ + a
        current_actuator_activation_time_ := s.current_actuator_activation_time_ - a }, []) ∧
    loop rp cfg
        { s with
          last_recompute_time_ := s.last_recompute_time_ + a
          current_actuator_activation_time_ := s.current_actuator_activation_time_ - a }
        (s.last_recompute_time_ + a + b) =
      loop rp cfg s (s.last_recompute_time_ + a + b) := by
  refine ⟨loop_dead_time rp cfg s a hm hpos ha (by omega), ?_⟩
  by_cases hle : b ≤ s.current_actuator_activation_time_ - a
  · have h2 := loop_dead_time rp cfg
      { s with
        last_recompute_time_ := s.last_recompute_time_ + a
        current_actuator_activation_time_ := s.current_actuator_activation_time_ - a }
      b hm (by
        show 0 < s.current_actuator_activation_time_ - a
        omega) hle (by omega)
    have h3 := loop_dead_time rp cfg s (a + b) hm hpos (by omega) hab
    rw [Nat.add_assoc] at h2 ⊢
    rw [h3]
    simp only at h2
    rw [h2, Nat.sub_sub]
  · have h2 := loop_hands_on rp cfg
      { s with
        last_recompute_time_ := s.last_recompute_time_ + a
        current_actuator_activation_time_ := s.current_actuator_activation_time_ - a }
      b hm (Or.inr (by
        show s.current_actuator_activation_time_ - a < b
        omega)) (by omega)
    have h3 := loop_hands_on rp cfg s (a + b) hm (Or.inr (by omega)) hab
    rw [Nat.add_assoc] at h2 ⊢
    rw [h3]
    simp only at h2
    rw [h2]
    have he : b - (s.current_actuator_activation_time_ - a) =
        a + b - s.current_actuator_activation_time_ := by omega
    rw [he]

theorem c20_run_to_moving :
    run (round_position (1 / 100)) tilt_config initial_state
        [Input.request (set_tilt (3 / 4)), Input.tick 0, Input.request c20_call] =
      some (c20_moving_state, [[], [Effect.open_trigger], []]) := by
  decide!

theorem c20_eval_first :
    loop (round_position (1 / 100)) tilt_config c20_moving_state 1000 =
      some (c20_tilted_state, [Effect.publish_state false]) := by
  decide!

theorem c20_eval_second :
    loop (round_position (1 / 100)) tilt_config c20_tilted_state 1000 =
      some (c20_stopping_state, []) := by
  decide!

/-- C20, counterexample. Travel durations of 10 s, nothing else configured: an opening move
from position 0.5 toward position 1 is started at clock value 0. With `a = 1` and `b = 1`
the two ticks leave the machine Moving at position `2097991/4194304`, while one tick with
elapsed time `a + b = 2` leaves it Moving at position `8391963/16777216`: the sum of two
rounded steps is not the rounded double step. Tilt durations of 2 s and travel durations of
8 s: a tilt-only opening move toward tilt 0.75 is started at clock value 0 from position 0.5
and tilt 0.5; a request for position 0.5, the current position, and tilt 0.75 follows and the
move goes on. With `a = 1000` and `b = 0`: the tick at clock value 1000 brings the tilt to 1
and leaves the machine Moving; a second tick at clock value 1000 (elapsed time 0) finds the
position target reached, clears it and leaves the machine Stopping. One tick with elapsed
time `a + b = 1000` is the first tick itself: Moving, with the position target pending. -/
theorem C20_split_ticks_differ :
    (run (round_position (1 / 100)) (plain_config 10000 10000) initial_state
        [Input.request (set_position 1), Input.tick 0, Input.tick 1]).map
      (fun r => (r.1.fsm_state_, r.1.last_recompute_time_)) = some (STATE_MOVING, 1) ∧
    (run (round_position (1 / 100)) (plain_config 10000 10000) initial_state
        [Input.request (set_position 1), Input.tick 0, Input.tick 1, Input.tick 2]).map
      (fun r => (r.1.fsm_state_, r.1.position)) = some (STATE_MOVING, 2097991 / 4194304) ∧
    (run (round_position (1 / 100)) (plain_config 10000 10000) initial_state
        [Input.request (set_position 1), Input.tick 0, Input.tick 2]).map
      (fun r => (r.1.fsm_state_, r.1.position)) = some (STATE_MOVING, 8391963 / 16777216) ∧
    (2097991 / 4194304 : ℚ) ≠ 8391963 / 16777216 ∧
    run (round_position (1 / 100)) tilt_config initial_state
        [Input.request (set_tilt (3 / 4)), Input.tick 0, Input.request c20_call] =
      some (c20_moving_state, [[], [Effect.open_trigger], []]) ∧
    c20_moving_state.fsm_state_ = STATE_MOVING ∧
    c20_moving_state.last_recompute_time_ = 0 ∧
    loop (round_position (1 / 100)) tilt_config c20_moving_state (0 + 1000) =
      some (c20_tilted_state, [Effect.publish_state false]) ∧
    c20_tilted_state.fsm_state_ = STATE_MOVING ∧
    loop (round_position (1 / 100)) tilt_config c20_tilted_state (0 + 1000 + 0) =
      some (c20_stopping_state, []) ∧
    loop (round_position (1 / 100)) tilt_config c20_moving_state (0 + (1000 + 0)) =
      some (c20_tilted_state, [Effect.publish_state false]) ∧
    c20_stopping_state.fsm_state_ ≠ c20_tilted_state.fsm_state_ ∧
    c20_stopping_state.target_position_ ≠ c20_tilted_state.target_position_ := by
  refine ⟨?_, ?_, ?_, ?_, c20_run_to_moving, rfl, rfl, c20_eval_first, rfl, c20_eval_second,
    c20_eval_first, ?_, ?_⟩
  · decide!
  · decide!
  · decide!
  · decide!
  · decide
  · decide!

/-- Witness of C20: with 500 ms of activation time left, a tick of 200 ms followed by a tick
of 400 ms has the outcome of one tick of 600 ms. -/
theorem C20_tick_granularity_in_dead_time_witness :
    loop (round_position (1 / 100)) c19_config c20_dead_time_state
        (c20_dead_time_state.last_recompute_time_ + 200) =
      some ({ c20_dead_time_state with
        last_recompute_time_ := c20_dead_time_state.last_recompute_time_ + 200
        current_actuator_activation_time_ :=
          c20_dead_time_state.current_actuator_activation_time_ - 200 }, []) ∧
    loop (round_position (1 / 100)) c19_config
        { c20_dead_time_state with
          last_recompute_time_ := c20_dead_time_state.last_recompute_time_ + 200
          current_actuator_activation_time_ :=
            c20_dead_time_state.current_actuator_activation_time_ - 200 }
        (c20_dead_time_state.last_recompute_time_ + 200 + 400) =
      loop (round_position (1 / 100)) c19_config c20_dead_time_state
        (c20_dead_time_state.last_recompute_time_ + 200 + 400) :=
  C20_tick_granularity_in_dead_time (round_position (1 / 100)) c19_config c20_dead_time_state
    200 400 rfl (by decide) (by decide) (by decide) (by decide)

end TimeBasedTilt
